import Mathlib

/-!
# CPULimiter: duty-cycle limiter engine

A shallow embedding of `C++_Limiter_Engine/limiter_engine.cpp`.

* C++ `double` values are rationals; every arithmetic operation is the exact
  operation followed by `roundDouble` (round to nearest, ties to even, 53-bit
  significand), which is IEEE-754 binary64 arithmetic for every magnitude that
  arises here (zero, or between 2^-60 and 2^40: no overflow, no subnormal).
* `steady_clock::time_point` is an integer count of nanoseconds.
* The registry `std::map<DWORD, ProcessInfo>` is a list of (key, value) pairs
  kept in ascending key order.
* The operating system is an oracle `Os` answering each call; every operation
  returns the list of OS calls it issued, in order, with their results.
* Operations that run under `g_mutex` are atomic steps.
-/

namespace Limiter

/-! ## binary64 arithmetic -/

/-- Nearest integer to `n / d`, ties to the even integer. -/
def roundNearestEven (n d : Nat) : Nat :=
  let q := n / d
  let r := n % d
  if 2 * r < d then q else if d < 2 * r then q + 1 else if q % 2 = 0 then q else q + 1

/-- Floor of the base-2 logarithm of `n` (0 for `n < 2`), by structural recursion on fuel. -/
def ilog2 : Nat → Nat → Nat
  | 0, _ => 0
  | f + 1, n => if n < 2 then 0 else ilog2 f (n / 2) + 1

/-- Binary exponent of a positive rational `n / d`: the `k` with `2^k ≤ n / d < 2^(k+1)`. -/
def binaryExponent (n d : Nat) : Int :=
  let k0 : Int := (ilog2 n n : Int) - (ilog2 d d : Int)
  if n * 2 ^ (-k0).toNat < d * 2 ^ k0.toNat then k0 - 1 else k0

/-- Rounding of a real result to `double`: round to nearest, ties to even, with a
53-bit significand. -/
def roundDouble (x : ℚ) : ℚ :=
  if x = 0 then 0 else
    let n := x.num.natAbs
    let d := x.den
    let e : Int := binaryExponent n d - 52
    let m : Nat := roundNearestEven (n * 2 ^ (-e).toNat) (d * 2 ^ e.toNat)
    (if x < 0 then -1 else 1) * (m : ℚ) * (2 : ℚ) ^ e

/-- Conversion `static_cast<long long>(x)` of a `double`: truncation toward zero. -/
def toLongLong (x : ℚ) : Int := x.num.tdiv (x.den : Int)

/-! ## Data model -/

/-- Process identifier (`DWORD`). -/
abbrev DWORD := Nat

/-- Process handle (`HANDLE`); `0` is `NULL`. -/
abbrev HANDLE := Nat

/-- A `steady_clock::time_point`, in nanoseconds. -/
abbrev TimePoint := Int

/-- The duration `std::chrono::milliseconds(k)`, in nanoseconds. -/
def milliseconds (k : Int) : Int := k * 1000000

/-- Exit code reported by `GetExitCodeProcess` for a process that has not exited. -/
def STILL_ACTIVE : DWORD := 259

/-- The struct `ProcessInfo`. -/
structure ProcessInfo where
  pid : DWORD
  hProcess : HANDLE
  suspend_ms : ℚ
  resume_ms : ℚ
  is_suspended : Bool
  next_state_change_time : TimePoint
  deriving DecidableEq

/-- The registry `g_managed_processes`, in ascending key order. -/
abbrev Registry := List (DWORD × ProcessInfo)

/-- The global state of the engine. The two function pointers are recorded as
resolved (`true`) or null (`false`). -/
structure State where
  g_NtSuspendProcess : Bool
  g_NtResumeProcess : Bool
  g_managed_processes : Registry
  g_should_stop : Bool
  joinable : Bool
  deriving DecidableEq

/-- The state at program load: null function pointers, empty registry, no thread. -/
def initialState : State := ⟨false, false, [], false, false⟩

/-- Answers of the operating system to the calls the engine makes.
`GetExitCodeProcess` answers `none` when the call itself fails. The two `Nt`
functions answer an `NTSTATUS`, `0` being `STATUS_SUCCESS`. -/
structure Os where
  OpenProcess : DWORD → HANDLE
  GetExitCodeProcess : HANDLE → Option DWORD
  NtSuspendProcess : HANDLE → Int
  NtResumeProcess : HANDLE → Int

/-- One call made to the operating system, with its result. -/
inductive OsCall where
  | openProcess (pid : DWORD) (result : HANDLE)
  | getExitCode (h : HANDLE) (result : Option DWORD)
  | suspend (h : HANDLE) (status : Int)
  | resume (h : HANDLE) (status : Int)
  | closeHandle (h : HANDLE)
  deriving DecidableEq

/-! ## The registry as an ordered map -/

/-- Lookup `g_managed_processes.find(pid)`. -/
def mapFind : Registry → DWORD → Option ProcessInfo
  | [], _ => none
  | (k, v) :: rest, pid => if k = pid then some v else mapFind rest pid

/-- Removal `g_managed_processes.erase(it)` of the entry found under `pid`. -/
def mapErase : Registry → DWORD → Registry
  | [], _ => []
  | (k, v) :: rest, pid => if k = pid then rest else (k, v) :: mapErase rest pid

/-- Assignment `g_managed_processes[pid] = info`. -/
def mapAssign : Registry → DWORD → ProcessInfo → Registry
  | [], pid, info => [(pid, info)]
  | (k, v) :: rest, pid, info =>
    if pid < k then (pid, info) :: (k, v) :: rest
    else if pid = k then (k, info) :: rest
    else (k, v) :: mapAssign rest pid info

/-! ## Exported functions: AddProcess -/

/-- The exported function `AddProcess(pid, limit_percentage)`, called at time `now`. -/
def AddProcess (s : State) (os : Os) (now : TimePoint) (pid : DWORD)
    (limit_percentage : Int) : State × List OsCall :=
  if (mapFind s.g_managed_processes pid).isSome then (s, [])
  else
    let hProcess := os.OpenProcess pid
    if hProcess = 0 then (s, [OsCall.openProcess pid hProcess])
    else
      let cycle_time_ms : ℚ := 200
      let suspend_ms := roundDouble (cycle_time_ms * roundDouble ((limit_percentage : ℚ) / 100))
      let resume_ms := roundDouble (cycle_time_ms - suspend_ms)
      let resume_ms := if resume_ms < 1 then 1 else resume_ms
      let suspend_ms := if suspend_ms < 1 then 1 else suspend_ms
      let info : ProcessInfo := ⟨pid, hProcess, suspend_ms, resume_ms, false, now⟩
      ({ s with g_managed_processes := mapAssign s.g_managed_processes pid info },
        [OsCall.openProcess pid hProcess])

/-! ## Cleanup -/

/-- The helper `cleanup_and_resume_process(info)`: the entry with its handle set
to `NULL`, and the calls issued. `resumeBound` is `g_NtResumeProcess != nullptr`.
The status returned by the resume call is discarded. -/
def cleanup_and_resume_process (resumeBound : Bool) (os : Os) (info : ProcessInfo) :
    ProcessInfo × List OsCall :=
  if info.hProcess ≠ 0 then
    let resumed : List OsCall :=
      if resumeBound ∧ info.is_suspended then
        [OsCall.resume info.hProcess (os.NtResumeProcess info.hProcess)]
      else []
    ({ info with hProcess := 0 }, resumed ++ [OsCall.closeHandle info.hProcess])
  else (info, [])

/-! ## The scheduler: one pass of `manager_loop` -/

/-- Outcome of the body of the `for` loop of `manager_loop` on one entry: the
entry as left in the map, whether its pid was pushed on `pids_to_remove` (the body
then ends with `continue`), and the calls issued. -/
structure Visit where
  info : ProcessInfo
  remove : Bool
  calls : List OsCall

/-- Body of the `for` loop of `manager_loop`, up to the `next_wakeup` update. -/
def visit (os : Os) (now : TimePoint) (info : ProcessInfo) : Visit :=
  let exit_code := os.GetExitCodeProcess info.hProcess
  let probe := OsCall.getExitCode info.hProcess exit_code
  if exit_code ≠ some STILL_ACTIVE then ⟨info, true, [probe]⟩
  else if now ≥ info.next_state_change_time then
    if info.is_suspended then
      let status := os.NtResumeProcess info.hProcess
      let flag := if status = 0 then false else info.is_suspended
      ⟨{ info with
          is_suspended := flag
          next_state_change_time := now + milliseconds (toLongLong info.resume_ms) },
        false, [probe, OsCall.resume info.hProcess status]⟩
    else
      let status := os.NtSuspendProcess info.hProcess
      if status = 0 then
        ⟨{ info with
            is_suspended := true
            next_state_change_time := now + milliseconds (toLongLong info.suspend_ms) },
          false, [probe, OsCall.suspend info.hProcess status]⟩
      else ⟨info, true, [probe, OsCall.suspend info.hProcess status]⟩
  else ⟨info, false, [probe]⟩

/-- Variables of `manager_loop` after the `for` loop over the registry. -/
structure Pass where
  procs : Registry
  pids_to_remove : List DWORD
  next_wakeup : TimePoint
  calls : List OsCall

/-- The `for` loop of `manager_loop` over the registry, in key order, started with
the given value of `next_wakeup`. -/
def scan (os : Os) (now : TimePoint) : Registry → TimePoint → Pass
  | [], next_wakeup => ⟨[], [], next_wakeup, []⟩
  | (k, info) :: rest, next_wakeup =>
    let v := visit os now info
    let next_wakeup1 :=
      if v.remove then next_wakeup
      else if v.info.next_state_change_time < next_wakeup then v.info.next_state_change_time
      else next_wakeup
    let r := scan os now rest next_wakeup1
    ⟨(k, v.info) :: r.procs,
      (if v.remove then [info.pid] else []) ++ r.pids_to_remove,
      r.next_wakeup,
      v.calls ++ r.calls⟩

/-- The removal loop of `manager_loop` over `pids_to_remove`. -/
def remove_marked (resumeBound : Bool) (os : Os) : List DWORD → Registry → Registry × List OsCall
  | [], m => (m, [])
  | pid :: pids, m =>
    match mapFind m pid with
    | some info =>
      let r := remove_marked resumeBound os pids (mapErase m pid)
      (r.1, (cleanup_and_resume_process resumeBound os info).2 ++ r.2)
    | none => remove_marked resumeBound os pids m

/-- Result of one pass of the `while` loop of `manager_loop`. `idle` records that
the registry was empty (the pass is `Sleep(100); continue`). -/
structure Iteration where
  state : State
  calls : List OsCall
  next_wakeup : TimePoint
  idle : Bool

/-- One pass of the `while` loop of `manager_loop`, with `steady_clock::now()`
reading `now`. The pass runs in the thread launched by `StartLimiter`, hence with
both function pointers resolved. -/
def manager_loop_iteration (s : State) (os : Os) (now : TimePoint) : Iteration :=
  let next_wakeup := now + milliseconds 500
  if s.g_managed_processes.isEmpty then ⟨s, [], next_wakeup, true⟩
  else
    let p := scan os now s.g_managed_processes next_wakeup
    let r := remove_marked s.g_NtResumeProcess os p.pids_to_remove p.procs
    ⟨{ s with g_managed_processes := r.1 }, p.calls ++ r.2, p.next_wakeup, false⟩

/-- A run of consecutive scheduler passes, each with its own clock reading and
OS answers: the final state and all calls issued. -/
def run_iterations (s : State) : List (TimePoint × Os) → State × List OsCall
  | [] => (s, [])
  | (now, os) :: rest =>
    let it := manager_loop_iteration s os now
    let r := run_iterations it.state rest
    (r.1, it.calls ++ r.2)

/-- The conversion `duration_cast<milliseconds>(d).count()` of a duration held in
nanoseconds: the whole milliseconds of `d`, truncated toward zero. -/
def duration_cast_milliseconds (d : Int) : Int := d.tdiv 1000000

/-- Lines 113-114 of `manager_loop`, after a pass that computed `next_wakeup`:
`now2` is the reading of `steady_clock::now()` on line 113. The result is the
argument of the call of `Sleep`, or `none` when `sleep_duration_ms > 0` fails and
the loop goes to its next pass without sleeping. -/
def sleep_after_pass (next_wakeup now2 : TimePoint) : Option Int :=
  let sleep_duration_ms := duration_cast_milliseconds (next_wakeup - now2)
  if sleep_duration_ms > 0 then some (sleep_duration_ms % 4294967296) else none

/-- The sleep that ends one turn of the `while` loop of `manager_loop`:
`Sleep(100)` of line 68 when the registry was empty, else lines 113-114. -/
def loop_sleep (it : Iteration) (now2 : TimePoint) : Option Int :=
  if it.idle then some 100 else sleep_after_pass it.next_wakeup now2

/-! ## Exported functions: start, stop, remove, enumerate -/

/-- The exported function `StartLimiter()`. `hNtdll` tells whether
`GetModuleHandleA` found the module, `suspendAddr` and `resumeAddr` whether
`GetProcAddress` resolved each function. The call of `EnableDebugPrivilege()`,
whose result is discarded, touches none of the modelled state. -/
def StartLimiter (s : State) (hNtdll suspendAddr resumeAddr : Bool) : State :=
  if s.joinable then s
  else
    let s1 : State :=
      if hNtdll then { s with g_NtSuspendProcess := suspendAddr, g_NtResumeProcess := resumeAddr }
      else s
    if !s1.g_NtSuspendProcess || !s1.g_NtResumeProcess then s1
    else { s1 with g_should_stop := false, joinable := true }

/-- The loop of `StopLimiter` over the registry: the calls issued. -/
def drain (resumeBound : Bool) (os : Os) : Registry → List OsCall
  | [] => []
  | (_, info) :: rest =>
    (cleanup_and_resume_process resumeBound os info).2 ++ drain resumeBound os rest

/-- The exported function `StopLimiter()`. Between the store to `g_should_stop`
and the return of `join()` the scheduler thread completes the pass it is in, if
any: `inflight` holds the clock reading and OS answers of that pass. `os` answers
the calls of the final loop. -/
def StopLimiter (s : State) (inflight : Option (TimePoint × Os)) (os : Os) :
    State × List OsCall :=
  if !s.joinable then (s, [])
  else
    let s1 : State := { s with g_should_stop := true }
    let joined : State × List OsCall :=
      match inflight with
      | some (now, os1) =>
        let it := manager_loop_iteration s1 os1 now
        (it.state, it.calls)
      | none => (s1, [])
    ({ joined.1 with g_managed_processes := [], joinable := false },
      joined.2 ++ drain joined.1.g_NtResumeProcess os joined.1.g_managed_processes)

/-- The exported function `RemoveProcess(pid)`. -/
def RemoveProcess (s : State) (os : Os) (pid : DWORD) : State × List OsCall :=
  match mapFind s.g_managed_processes pid with
  | some info =>
    ({ s with g_managed_processes := mapErase s.g_managed_processes pid },
      (cleanup_and_resume_process s.g_NtResumeProcess os info).2)
  | none => (s, [])

/-- The loop of `GetManagedPids`, entered with the current value of `count`. -/
def GetManagedPids_loop : Registry → List DWORD → Int → Int → List DWORD × Int
  | [], pids_array, _, count => (pids_array, count)
  | (k, _) :: rest, pids_array, max_size, count =>
    if count < max_size then
      GetManagedPids_loop rest (pids_array.set count.toNat k) max_size (count + 1)
    else (pids_array, count)

/-- The exported function `GetManagedPids(pids_array, max_size)`: the array
after the call and the returned count. -/
def GetManagedPids (s : State) (pids_array : List DWORD) (max_size : Int) : List DWORD × Int :=
  GetManagedPids_loop s.g_managed_processes pids_array max_size 0

/-! ## Observations on states and call logs -/

/-- Keys of the registry, in iteration order. -/
def keys (m : Registry) : List DWORD := m.map Prod.fst

/-- Handles stored in the registry. -/
def handles (m : Registry) : List HANDLE := m.map (fun e => e.2.hProcess)

/-- Handle a call acts on; `OpenProcess` acts on none. -/
def callHandle : OsCall → Option HANDLE
  | OsCall.openProcess _ _ => none
  | OsCall.getExitCode h _ => some h
  | OsCall.suspend h _ => some h
  | OsCall.resume h _ => some h
  | OsCall.closeHandle h => some h

/-- Whether a call acts on handle `h`. -/
def onHandle (h : HANDLE) (c : OsCall) : Bool := decide (callHandle c = some h)

/-- Whether a call is a suspend of handle `h`. -/
def isSuspendOn (h : HANDLE) : OsCall → Bool
  | OsCall.suspend h1 _ => decide (h1 = h)
  | _ => false

/-- Whether a call is a resume of handle `h`. -/
def isResumeOn (h : HANDLE) : OsCall → Bool
  | OsCall.resume h1 _ => decide (h1 = h)
  | _ => false

/-- Whether a call is the close of handle `h`. -/
def isCloseOn (h : HANDLE) : OsCall → Bool
  | OsCall.closeHandle h1 => decide (h1 = h)
  | _ => false

/-- Suspend calls made on handle `h`, succeeded or not. -/
def suspendCalls (calls : List OsCall) (h : HANDLE) : List OsCall :=
  calls.filter (isSuspendOn h)

/-- Resume calls made on handle `h`, succeeded or not. -/
def resumeCalls (calls : List OsCall) (h : HANDLE) : List OsCall :=
  calls.filter (isResumeOn h)

/-- Number of `CloseHandle` calls made on handle `h`. -/
def closeCount (calls : List OsCall) (h : HANDLE) : Nat :=
  (calls.filter (isCloseOn h)).length

/-- Handles open after the calls of `calls`, given those open before. -/
def openAfter : List OsCall → List HANDLE → List HANDLE
  | [], held => held
  | OsCall.openProcess _ h :: rest, held => openAfter rest (if h = 0 then held else h :: held)
  | OsCall.closeHandle h :: rest, held => openAfter rest (held.erase h)
  | _ :: rest, held => openAfter rest held

/-- Number of suspends of the process behind handle `h` left outstanding by
`calls`, starting from `n`: a successful suspend adds one, a successful resume
removes one (none to remove: the resume has no effect). -/
def outstanding (h : HANDLE) : List OsCall → Nat → Nat
  | [], n => n
  | OsCall.suspend h1 st :: rest, n =>
    outstanding h rest (if h1 = h ∧ st = 0 then n + 1 else n)
  | OsCall.resume h1 st :: rest, n =>
    outstanding h rest (if h1 = h ∧ st = 0 then n - 1 else n)
  | _ :: rest, n => outstanding h rest n

/-- Invariant of the registry: keys strictly ascending, every entry filed under
its own pid with a non-null handle, no handle stored twice. -/
def WellFormed (m : Registry) : Prop :=
  (keys m).Pairwise (fun a b => a < b) ∧
  (∀ e ∈ m, e.2.pid = e.1 ∧ e.2.hProcess ≠ 0) ∧
  (handles m).Nodup

instance (m : Registry) : Decidable (WellFormed m) := by
  unfold WellFormed
  infer_instance

/-- Value of `info.suspend_ms` after lines 157-160 of `AddProcess`. -/
def stored_suspend_ms (limit_percentage : Int) : ℚ :=
  let suspend_ms := roundDouble (200 * roundDouble ((limit_percentage : ℚ) / 100))
  if suspend_ms < 1 then 1 else suspend_ms

/-- Value of `info.resume_ms` after lines 157-160 of `AddProcess`. -/
def stored_resume_ms (limit_percentage : Int) : ℚ :=
  let suspend_ms := roundDouble (200 * roundDouble ((limit_percentage : ℚ) / 100))
  let resume_ms := roundDouble (200 - suspend_ms)
  if resume_ms < 1 then 1 else resume_ms

/-- Invariant of the engine state: a well-formed registry; both function
pointers bound while the scheduler thread exists; no entry marked suspended while
it does not. -/
def Consistent (s : State) : Prop :=
  WellFormed s.g_managed_processes ∧
  (s.joinable = true → s.g_NtSuspendProcess = true ∧ s.g_NtResumeProcess = true) ∧
  (s.joinable = false → ∀ e ∈ s.g_managed_processes, e.2.is_suspended = false)

/-- States the engine can reach from program load through its exported
functions and the passes of its scheduler thread. The operating system never
returns from `OpenProcess` a handle value that is still open, and the scheduler
runs only while its thread exists. -/
inductive Reachable : State → Prop where
  | load : Reachable initialState
  | start (s : State) (hNtdll suspendAddr resumeAddr : Bool) :
      Reachable s → Reachable (StartLimiter s hNtdll suspendAddr resumeAddr)
  | stop (s : State) (inflight : Option (TimePoint × Os)) (os : Os) :
      Reachable s → Reachable (StopLimiter s inflight os).1
  | add (s : State) (os : Os) (now : TimePoint) (pid : DWORD) (limit_percentage : Int) :
      Reachable s → os.OpenProcess pid ∉ handles s.g_managed_processes →
      Reachable (AddProcess s os now pid limit_percentage).1
  | remove (s : State) (os : Os) (pid : DWORD) :
      Reachable s → Reachable (RemoveProcess s os pid).1
  | pass (s : State) (os : Os) (now : TimePoint) :
      Reachable s → s.joinable = true → Reachable (manager_loop_iteration s os now).state

/-- An operating system giving the same answer to every call of each kind. -/
def constOs (h : HANDLE) (exit_code : Option DWORD) (suspendStatus resumeStatus : Int) : Os :=
  ⟨fun _ => h, fun _ => exit_code, fun _ => suspendStatus, fun _ => resumeStatus⟩

/-- An operating system in which every process is alive, `OpenProcess` returns
handle 5 and every suspend and resume succeeds. -/
def osAlive : Os := constOs 5 (some STILL_ACTIVE) 0 0

/-- As `osAlive`, but every resume is refused with `STATUS_ACCESS_DENIED`. -/
def osResumeDenied : Os := constOs 5 (some STILL_ACTIVE) 0 (-1073741790)

/-- As `osAlive`, but every suspend is refused with `STATUS_ACCESS_DENIED`. -/
def osSuspendDenied : Os := constOs 5 (some STILL_ACTIVE) (-1073741790) 0

/-- As `osAlive`, but every process has exited with code 0. -/
def osExited : Os := constOs 5 (some 0) 0 0

/-- The state after a successful `StartLimiter()` at program load. -/
def startedState : State := StartLimiter initialState true true true

/-- The state after `StartLimiter()` and `AddProcess(42, 50)` at time 0. -/
def addedState : State := (AddProcess startedState osAlive 0 42 50).1

/-- The state after `StartLimiter()`, `AddProcess(42, 50)` at time 0 and one
scheduler pass at time 0 in which the suspend of process 42 succeeds. -/
def suspendedState : State :=
  (manager_loop_iteration (AddProcess startedState osAlive 0 42 50).1 osAlive 0).state

/-- The calls issued on the way to `suspendedState`. -/
def suspendedStateCalls : List OsCall :=
  (AddProcess startedState osAlive 0 42 50).2 ++
    (manager_loop_iteration (AddProcess startedState osAlive 0 42 50).1 osAlive 0).calls

/-- Whether the entry filed under `pid` is marked suspended (false when there
is none). -/
def phaseSuspended (s : State) (pid : DWORD) : Bool :=
  match mapFind s.g_managed_processes pid with
  | some info => info.is_suspended
  | none => false

/-- A run of the scheduler observed for process `pid`: the engine state, the
clock reading at which the next pass starts, and the time process `pid` has spent
marked suspended and not marked suspended since the start of the run. -/
structure Timeline where
  state : State
  clock : TimePoint
  suspended_ns : Int
  running_ns : Int
  deriving DecidableEq

/-- The `while` loop of `manager_loop` without latency: each pass takes no time,
so that line 113 reads the clock of line 61, and a call `Sleep(k)` lasts exactly
`k` ms; when the call is skipped the next pass reads the same clock. Between two
passes process `pid` is in the phase the earlier pass left it in. -/
def run_on_time (os : Os) (pid : DWORD) : Nat → Timeline → Timeline
  | 0, t => t
  | n + 1, t =>
    let it := manager_loop_iteration t.state os t.clock
    let dt :=
      match loop_sleep it t.clock with
      | some k => milliseconds k
      | none => 0
    run_on_time os pid n
      ⟨it.state, t.clock + dt,
        t.suspended_ns + (if phaseSuspended it.state pid = true then dt else 0),
        t.running_ns + (if phaseSuspended it.state pid = true then 0 else dt)⟩

/-- Successful suspends minus successful resumes issued on handle `h` since
`OpenProcess` last returned it, starting from `n`. -/
def suspendBalance (h : HANDLE) : List OsCall → Int → Int
  | [], n => n
  | OsCall.openProcess _ h1 :: rest, n => suspendBalance h rest (if h1 = h then 0 else n)
  | OsCall.suspend h1 st :: rest, n =>
    suspendBalance h rest (if h1 = h ∧ st = 0 then n + 1 else n)
  | OsCall.resume h1 st :: rest, n =>
    suspendBalance h rest (if h1 = h ∧ st = 0 then n - 1 else n)
  | _ :: rest, n => suspendBalance h rest n

/-- Runs of the engine from program load, with the log of all OS calls issued so
far. The operating system never returns from `OpenProcess` a handle value that the
engine still holds open, and the scheduler runs only while its thread exists. -/
inductive Trace : State → List OsCall → Prop where
  | load : Trace initialState []
  | start (s : State) (log : List OsCall) (hNtdll suspendAddr resumeAddr : Bool) :
      Trace s log → Trace (StartLimiter s hNtdll suspendAddr resumeAddr) log
  | stop (s : State) (log : List OsCall) (inflight : Option (TimePoint × Os)) (os : Os) :
      Trace s log →
      Trace (StopLimiter s inflight os).1 (log ++ (StopLimiter s inflight os).2)
  | add (s : State) (log : List OsCall) (os : Os) (now : TimePoint) (pid : DWORD)
      (limit_percentage : Int) :
      Trace s log → os.OpenProcess pid ∉ openAfter log [] →
      Trace (AddProcess s os now pid limit_percentage).1
        (log ++ (AddProcess s os now pid limit_percentage).2)
  | remove (s : State) (log : List OsCall) (os : Os) (pid : DWORD) :
      Trace s log → Trace (RemoveProcess s os pid).1 (log ++ (RemoveProcess s os pid).2)
  | pass (s : State) (log : List OsCall) (os : Os) (now : TimePoint) :
      Trace s log → s.joinable = true →
      Trace (manager_loop_iteration s os now).state
        (log ++ (manager_loop_iteration s os now).calls)

/-- The handles open after the calls of `log` are exactly the handles stored in
the registry, none of them twice. -/
def Owned (log : List OsCall) (m : Registry) : Prop :=
  (openAfter log []).Nodup ∧ ∀ h, h ∈ openAfter log [] ↔ h ∈ handles m

/-- The calls of an operation that takes the registry from `m` to `m1` open no
handle, add no handle to the registry, and close, once each, exactly the handles of
the entries that left the registry. -/
def ClosesRemoved (m m1 : Registry) (calls : List OsCall) : Prop :=
  (∀ c ∈ calls, callHandle c ≠ none) ∧
  (∀ h ∈ handles m1, h ∈ handles m) ∧
  ∀ h, closeCount calls h = if h ∈ handles m ∧ h ∉ handles m1 then 1 else 0

/-- Every entry of the registry has one suspend outstanding on its handle if it
is marked suspended, none if it is not. -/
def Balanced (log : List OsCall) (m : Registry) : Prop :=
  ∀ e ∈ m, suspendBalance e.2.hProcess log 0 = if e.2.is_suspended = true then 1 else 0

/-- The state after `StartLimiter()` and `AddProcess(42, p)` at time 0. -/
def addedAt (p : Int) : State := (AddProcess startedState osAlive 0 42 p).1

/-- The state after the run of `suspendedState` goes on with `RemoveProcess(42)`,
the resume being refused. -/
def removedState : State := (RemoveProcess suspendedState osResumeDenied 42).1

/-- The state after the run of `removedState` goes on with `AddProcess(42, 50)` at
150 ms, `OpenProcess` returning the handle value 5 again. -/
def readdedState : State := (AddProcess removedState osAlive 150000000 42 50).1

/-- The state after the run of `readdedState` goes on with a scheduler pass at
150 ms in which the suspend of process 42 succeeds. -/
def resuspendedState : State := (manager_loop_iteration readdedState osAlive 150000000).state

/-- The calls issued on the way to `resuspendedState`. -/
def resuspendedStateCalls : List OsCall :=
  suspendedStateCalls ++ (RemoveProcess suspendedState osResumeDenied 42).2 ++
    (AddProcess removedState osAlive 150000000 42 50).2 ++
    (manager_loop_iteration readdedState osAlive 150000000).calls

/-! ## Lemmas on the ordered map -/

theorem mapFind_mapAssign_self (m : Registry) (pid : DWORD) (info : ProcessInfo) :
    mapFind (mapAssign m pid info) pid = some info := by
  induction m with
  | nil => simp [mapAssign, mapFind]
  | cons e rest ih =>
    obtain ⟨k, v⟩ := e
    unfold mapAssign
    by_cases h1 : pid < k
    · simp [h1, mapFind]
    · by_cases h2 : pid = k
      · simp [h2, mapFind]
      · have h3 : ¬ k = pid := fun h => h2 h.symm
        simp [h1, h2, h3, mapFind, ih]

theorem AddProcess_accepts (s : State) (os : Os) (now : TimePoint) (pid : DWORD) (p : Int)
    (hfree : mapFind s.g_managed_processes pid = none) (hopen : os.OpenProcess pid ≠ 0) :
    AddProcess s os now pid p =
      ({ s with g_managed_processes := (mapAssign s.g_managed_processes pid
          (ProcessInfo.mk pid (os.OpenProcess pid) (stored_suspend_ms p) (stored_resume_ms p)
            false now)) },
        [OsCall.openProcess pid (os.OpenProcess pid)]) := by
  simp [AddProcess, hfree, hopen, stored_suspend_ms, stored_resume_ms]

/-! ## Durations stored by AddProcess -/

theorem durations_table_1_99 : ∀ n : Fin 99,
    stored_suspend_ms ((n.val + 1 : Nat) : Int) =
      roundDouble (200 * roundDouble ((((n.val + 1 : Nat) : Int) : ℚ) / 100)) ∧
    stored_resume_ms ((n.val + 1 : Nat) : Int) =
      roundDouble (200 - stored_suspend_ms ((n.val + 1 : Nat) : Int)) ∧
    roundDouble (stored_suspend_ms ((n.val + 1 : Nat) : Int) +
      stored_resume_ms ((n.val + 1 : Nat) : Int)) = 200 ∧
    |stored_suspend_ms ((n.val + 1 : Nat) : Int) -
      (((n.val + 1 : Nat) : Int) : ℚ) / 100 * 200| < 1 ∧
    |stored_resume_ms ((n.val + 1 : Nat) : Int) -
      (200 - (((n.val + 1 : Nat) : Int) : ℚ) / 100 * 200)| < 1 ∧
    1 ≤ stored_suspend_ms ((n.val + 1 : Nat) : Int) ∧
    1 ≤ stored_resume_ms ((n.val + 1 : Nat) : Int) := by
  decide!

theorem percent_of_fin (p : Int) (hlo : 1 ≤ p) (hhi : p ≤ 99) :
    ∃ n : Fin 99, p = ((n.val + 1 : Nat) : Int) := by
  refine ⟨⟨(p - 1).toNat, by omega⟩, ?_⟩
  simp only [Nat.cast_add, Nat.cast_one]
  omega

/-- Claim C1. For every percentage `p` with `1 ≤ p ≤ 99`, the entry stored by
`AddProcess` has `suspend_ms + resume_ms == 200.0` (the sum and the comparison
being those of C++ `double`), `suspend_ms` within 1 ms of `p / 100 * 200` and
`resume_ms` within 1 ms of `200 - p / 100 * 200`, and neither 1 ms clamp fires:
the stored values are the computed ones. -/
theorem AddProcess_duty_split (s : State) (os : Os) (now : TimePoint) (pid : DWORD) (p : Int)
    (hfree : mapFind s.g_managed_processes pid = none) (hopen : os.OpenProcess pid ≠ 0)
    (hlo : 1 ≤ p) (hhi : p ≤ 99) :
    ∃ info, mapFind (AddProcess s os now pid p).1.g_managed_processes pid = some info ∧
      roundDouble (info.suspend_ms + info.resume_ms) = 200 ∧
      |info.suspend_ms - (p : ℚ) / 100 * 200| < 1 ∧
      |info.resume_ms - (200 - (p : ℚ) / 100 * 200)| < 1 ∧
      info.suspend_ms = roundDouble (200 * roundDouble ((p : ℚ) / 100)) ∧
      info.resume_ms = roundDouble (200 - info.suspend_ms) := by
  obtain ⟨n, hn⟩ := percent_of_fin p hlo hhi
  obtain ⟨h1, h2, h3, h4, h5, _, _⟩ := durations_table_1_99 n
  rw [AddProcess_accepts s os now pid p hfree hopen]
  refine ⟨_, mapFind_mapAssign_self _ _ _, ?_⟩
  subst hn
  exact ⟨h3, h4, h5, h1, h2⟩

/-- Witness for claim C1: percentage 7 on the initial state, where the product
`200.0 * (7 / 100.0)` is not exactly 14. -/
theorem AddProcess_duty_split_witness :
    ∃ info, mapFind (AddProcess initialState (constOs 5 none 0 0)
        0 42 7).1.g_managed_processes 42 = some info ∧
      roundDouble (info.suspend_ms + info.resume_ms) = 200 ∧
      |info.suspend_ms - ((7 : Int) : ℚ) / 100 * 200| < 1 ∧
      |info.resume_ms - (200 - ((7 : Int) : ℚ) / 100 * 200)| < 1 ∧
      info.suspend_ms = roundDouble (200 * roundDouble (((7 : Int) : ℚ) / 100)) ∧
      info.resume_ms = roundDouble (200 - info.suspend_ms) :=
  AddProcess_duty_split initialState (constOs 5 none 0 0)
    0 42 7 rfl (by decide) (by decide) (by decide)

theorem stored_durations_ge_one (p : Int) :
    1 ≤ stored_suspend_ms p ∧ 1 ≤ stored_resume_ms p := by
  constructor
  · unfold stored_suspend_ms
    simp only
    split_ifs with h
    · exact le_refl _
    · exact not_lt.mp h
  · unfold stored_resume_ms
    simp only
    split_ifs with h
    · exact le_refl _
    · exact not_lt.mp h

theorem durations_at_endpoints :
    stored_suspend_ms 0 = 1 ∧ stored_resume_ms 0 = 200 ∧
    stored_suspend_ms 100 = 200 ∧ stored_resume_ms 100 = 1 := by
  decide!

/-- Claim C2, refuted as stated: at percentage 0 the entry stored by `AddProcess`
has `suspend_ms = 1` and `resume_ms = 200`, whose sum is 201 and not the cycle
length 200, in `double` arithmetic and exactly. -/
theorem AddProcess_sum_at_zero_percent :
    ∃ info, mapFind (AddProcess initialState (constOs 5 none 0 0)
        0 42 0).1.g_managed_processes 42 = some info ∧
      info.suspend_ms = 1 ∧ info.resume_ms = 200 ∧
      roundDouble (info.suspend_ms + info.resume_ms) = 201 ∧
      info.suspend_ms + info.resume_ms ≠ 200 := by
  decide!

/-- Claim C2, amended. For every percentage `p` in `[0,100]` the entry stored by
`AddProcess` has both durations at least 1 ms; their sum is the cycle length 200
when `1 ≤ p ≤ 99`; at `p = 0` the stored pair is (1, 200) and at `p = 100` it is
(200, 1), of sum 201: the clamp raises the zero duration without shortening the
other one. -/
theorem AddProcess_durations_clamped (s : State) (os : Os) (now : TimePoint) (pid : DWORD)
    (p : Int) (hfree : mapFind s.g_managed_processes pid = none)
    (hopen : os.OpenProcess pid ≠ 0) (hlo : 0 ≤ p) (hhi : p ≤ 100) :
    ∃ info, mapFind (AddProcess s os now pid p).1.g_managed_processes pid = some info ∧
      1 ≤ info.suspend_ms ∧ 1 ≤ info.resume_ms ∧
      (1 ≤ p ∧ p ≤ 99 → roundDouble (info.suspend_ms + info.resume_ms) = 200) ∧
      (p = 0 → info.suspend_ms = 1 ∧ info.resume_ms = 200) ∧
      (p = 100 → info.suspend_ms = 200 ∧ info.resume_ms = 1) := by
  rw [AddProcess_accepts s os now pid p hfree hopen]
  refine ⟨_, mapFind_mapAssign_self _ _ _, (stored_durations_ge_one p).1,
    (stored_durations_ge_one p).2, ?_, ?_, ?_⟩
  · rintro ⟨h1, h99⟩
    obtain ⟨n, hn⟩ := percent_of_fin p h1 h99
    subst hn
    exact (durations_table_1_99 n).2.2.1
  · intro h0
    subst h0
    exact ⟨durations_at_endpoints.1, durations_at_endpoints.2.1⟩
  · intro h100
    subst h100
    exact ⟨durations_at_endpoints.2.2.1, durations_at_endpoints.2.2.2⟩

/-- Witness for claim C2 (amended): percentage 100 on the initial state. -/
theorem AddProcess_durations_clamped_witness :
    ∃ info, mapFind (AddProcess initialState (constOs 5 none 0 0)
        0 42 100).1.g_managed_processes 42 = some info ∧
      1 ≤ info.suspend_ms ∧ 1 ≤ info.resume_ms ∧
      (1 ≤ (100 : Int) ∧ (100 : Int) ≤ 99 →
        roundDouble (info.suspend_ms + info.resume_ms) = 200) ∧
      ((100 : Int) = 0 → info.suspend_ms = 1 ∧ info.resume_ms = 200) ∧
      ((100 : Int) = 100 → info.suspend_ms = 200 ∧ info.resume_ms = 1) :=
  AddProcess_durations_clamped initialState (constOs 5 none 0 0)
    0 42 100 rfl (by decide) (by decide) (by decide)

/-! ## Rejected calls of AddProcess -/

theorem mapFind_eq_none_iff (m : Registry) (pid : DWORD) :
    mapFind m pid = none ↔ ∀ e ∈ m, e.1 ≠ pid := by
  induction m with
  | nil => simp [mapFind]
  | cons e rest ih =>
    obtain ⟨k, v⟩ := e
    by_cases h : k = pid
    · simp [mapFind, h]
    · simp [mapFind, h, ih]

theorem filter_key_mapAssign (m : Registry) (pid : DWORD) (info : ProcessInfo)
    (h : ∀ e ∈ m, e.1 ≠ pid) :
    (mapAssign m pid info).filter (fun e => decide (e.1 = pid)) = [(pid, info)] := by
  induction m with
  | nil => simp [mapAssign]
  | cons e rest ih =>
    obtain ⟨k, v⟩ := e
    have hk : k ≠ pid := h (k, v) (List.mem_cons_self _ _)
    have hrest : ∀ e ∈ rest, e.1 ≠ pid := fun e he => h e (List.mem_cons_of_mem _ he)
    have hnone : List.filter (fun e => decide (e.1 = pid)) rest = [] := by
      rw [List.filter_eq_nil_iff]
      intro e he
      simpa using hrest e he
    unfold mapAssign
    by_cases h1 : pid < k
    · simp [h1, hk, hnone]
    · have h2 : ¬ pid = k := fun h => hk h.symm
      simp [h1, h2, hk, ih hrest]

/-- Claim C3. If `pid` is already a key of the registry, or `OpenProcess` returns
`NULL`, `AddProcess` leaves the engine state as it was, leaves the set of open
handles as it was, and issues no call other than the failed `OpenProcess` (so no
suspend, resume or close). In particular, when the state is the result of a first,
accepted `AddProcess` of `pid`, a second `AddProcess` of `pid` with any percentage
changes nothing and issues no call, and the registry holds exactly one entry under
`pid`, the one created by the first call. -/
theorem AddProcess_rejected_is_noop (s : State) (os : Os) (now : TimePoint) (pid : DWORD)
    (p : Int)
    (hrej : (mapFind s.g_managed_processes pid).isSome = true ∨ os.OpenProcess pid = 0) :
    (AddProcess s os now pid p).1 = s ∧
    (∀ held, openAfter (AddProcess s os now pid p).2 held = held) ∧
    (∀ c ∈ (AddProcess s os now pid p).2, c = OsCall.openProcess pid 0) ∧
    (∀ (s0 : State) (os0 : Os) (now0 : TimePoint) (p0 : Int),
      mapFind s0.g_managed_processes pid = none → os0.OpenProcess pid ≠ 0 →
      s = (AddProcess s0 os0 now0 pid p0).1 →
      AddProcess s os now pid p = (s, []) ∧
      (AddProcess s os now pid p).1.g_managed_processes.filter (fun e => decide (e.1 = pid)) =
        [(pid, ProcessInfo.mk pid (os0.OpenProcess pid) (stored_suspend_ms p0)
          (stored_resume_ms p0) false now0)]) := by
  have hstate : (AddProcess s os now pid p).1 = s := by
    unfold AddProcess
    rcases hrej with h | h
    · simp [h]
    · by_cases hk : (mapFind s.g_managed_processes pid).isSome = true
      · simp [hk]
      · simp [hk, h]
  refine ⟨hstate, ?_, ?_, ?_⟩
  · intro held
    unfold AddProcess
    rcases hrej with h | h
    · simp [h, openAfter]
    · by_cases hk : (mapFind s.g_managed_processes pid).isSome = true
      · simp [hk, openAfter]
      · simp [hk, h, openAfter]
  · intro c hc
    unfold AddProcess at hc
    rcases hrej with h | h
    · simp [h] at hc
    · by_cases hk : (mapFind s.g_managed_processes pid).isSome = true
      · simp [hk] at hc
      · simp [hk, h] at hc
        exact hc
  · intro s0 os0 now0 p0 hfree hopen hs
    have hreg : s.g_managed_processes = mapAssign s0.g_managed_processes pid
        (ProcessInfo.mk pid (os0.OpenProcess pid) (stored_suspend_ms p0)
          (stored_resume_ms p0) false now0) := by
      rw [hs, AddProcess_accepts s0 os0 now0 pid p0 hfree hopen]
    have hkey : (mapFind s.g_managed_processes pid).isSome = true := by
      rw [hreg, mapFind_mapAssign_self]
      rfl
    constructor
    · unfold AddProcess
      simp [hkey]
    · rw [hstate, hreg]
      exact filter_key_mapAssign _ _ _ ((mapFind_eq_none_iff _ _).mp hfree)

/-- Witness for claim C3: pid 42 added at 30 percent to the initial state, then
added again at 80 percent. -/
theorem AddProcess_rejected_is_noop_witness :
    AddProcess (AddProcess initialState (constOs 5 none 0 0) 0 42 30).1
        (constOs 6 none 0 0) 9 42 80 =
      ((AddProcess initialState (constOs 5 none 0 0) 0 42 30).1, []) ∧
    (AddProcess (AddProcess initialState (constOs 5 none 0 0) 0 42 30).1
        (constOs 6 none 0 0) 9 42 80).1.g_managed_processes.filter
        (fun e => decide (e.1 = 42)) =
      [(42, ProcessInfo.mk 42 5 (stored_suspend_ms 30) (stored_resume_ms 30) false 0)] :=
  (AddProcess_rejected_is_noop (AddProcess initialState (constOs 5 none 0 0) 0 42 30).1
    (constOs 6 none 0 0) 9 42 80 (Or.inl (by decide!))).2.2.2
    initialState (constOs 5 none 0 0) 0 30 rfl (by decide) rfl

/-! ## RemoveProcess -/

theorem mem_keys_of_mem {m : Registry} {e : DWORD × ProcessInfo} (h : e ∈ m) :
    e.1 ∈ keys m :=
  List.mem_map_of_mem Prod.fst h

theorem mapErase_eq_filter (m : Registry) (pid : DWORD)
    (hsorted : (keys m).Pairwise (fun a b => a < b)) :
    mapErase m pid = m.filter (fun e => decide (e.1 ≠ pid)) := by
  induction m with
  | nil => simp [mapErase]
  | cons e rest ih =>
    obtain ⟨k, v⟩ := e
    simp only [keys, List.map_cons, List.pairwise_cons] at hsorted
    obtain ⟨hhead, htail⟩ := hsorted
    by_cases hk : k = pid
    · have hall : ∀ e ∈ rest, decide (e.1 ≠ pid) = true := by
        intro e he
        have hlt : k < e.1 := hhead e.1 (mem_keys_of_mem he)
        simp only [decide_eq_true_eq]
        intro heq
        rw [heq, hk] at hlt
        exact lt_irrefl _ hlt
      simp only [mapErase, hk, if_true, ne_eq, not_true_eq_false, decide_False,
        Bool.false_eq_true, not_false_eq_true, List.filter_cons_of_neg]
      exact (List.filter_eq_self.mpr hall).symm
    · simp only [mapErase, hk, if_false, ne_eq, not_false_eq_true, decide_True,
        List.filter_cons_of_pos]
      rw [ih htail]

theorem mapFind_filter_key (m : Registry) (P : DWORD → Bool) (pid : DWORD) :
    mapFind (m.filter (fun e => P e.1)) pid = if P pid = true then mapFind m pid else none := by
  induction m with
  | nil => simp [mapFind]
  | cons e rest ih =>
    obtain ⟨k, v⟩ := e
    by_cases hP : P k = true
    · rw [List.filter_cons_of_pos (by simpa using hP)]
      by_cases hk : k = pid
      · subst hk
        simp [mapFind, hP]
      · simp only [mapFind, hk, if_false]
        exact ih
    · rw [List.filter_cons_of_neg (by simpa using hP)]
      by_cases hk : k = pid
      · subst hk
        rw [ih]
        simp [hP]
      · simp only [mapFind, hk, if_false]
        exact ih

theorem mapFind_mapErase_self (m : Registry) (pid : DWORD)
    (hsorted : (keys m).Pairwise (fun a b => a < b)) :
    mapFind (mapErase m pid) pid = none := by
  rw [mapErase_eq_filter m pid hsorted]
  have := mapFind_filter_key m (fun k => decide (k ≠ pid)) pid
  simpa using this

theorem mem_take_set_succ {α : Type} (l : List α) (n : Nat) (a x : α)
    (h : x ∈ (l.set n a).take (n + 1)) : x ∈ l.take n ∨ x = a := by
  induction l generalizing n with
  | nil => simp at h
  | cons b rest ih =>
    cases n with
    | zero =>
      simp at h
      exact Or.inr h
    | succ n =>
      simp only [List.set_cons_succ, List.take_succ_cons, List.mem_cons] at h ⊢
      rcases h with h | h
      · exact Or.inl (Or.inl h)
      · rcases ih n h with h | h
        · exact Or.inl (Or.inr h)
        · exact Or.inr h

theorem GetManagedPids_loop_mem (m : Registry) (pids_array : List DWORD) (max_size count : Int)
    (hcount : 0 ≤ count) (x : DWORD)
    (hx : x ∈ (GetManagedPids_loop m pids_array max_size count).1.take
      (GetManagedPids_loop m pids_array max_size count).2.toNat) :
    x ∈ pids_array.take count.toNat ∨ x ∈ keys m := by
  induction m generalizing pids_array count with
  | nil =>
    simp only [GetManagedPids_loop] at hx
    exact Or.inl hx
  | cons e rest ih =>
    obtain ⟨k, v⟩ := e
    unfold GetManagedPids_loop at hx
    by_cases hc : count < max_size
    · simp only [hc, if_true] at hx
      have hsucc : (count + 1).toNat = count.toNat + 1 := by omega
      rcases ih (pids_array.set count.toNat k) (count + 1) (by omega) hx with h | h
      · rw [hsucc] at h
        rcases mem_take_set_succ _ _ _ _ h with h | h
        · exact Or.inl h
        · exact Or.inr (by simp [keys, h])
      · exact Or.inr (by
          simp only [keys, List.map_cons, List.mem_cons]
          exact Or.inr h)
    · simp only [hc, if_false] at hx
      exact Or.inl hx

theorem GetManagedPids_mem_keys (s : State) (pids_array : List DWORD) (max_size : Int)
    (x : DWORD)
    (hx : x ∈ (GetManagedPids s pids_array max_size).1.take
      (GetManagedPids s pids_array max_size).2.toNat) :
    x ∈ keys s.g_managed_processes := by
  rcases GetManagedPids_loop_mem _ _ _ 0 (le_refl _) x hx with h | h
  · simp at h
  · exact h

theorem not_mem_keys_of_mapFind_none {m : Registry} {pid : DWORD}
    (h : mapFind m pid = none) : pid ∉ keys m := by
  intro hmem
  obtain ⟨e, he, hk⟩ := List.mem_map.mp hmem
  exact (mapFind_eq_none_iff m pid).mp h e he hk

theorem cleanup_calls (resumeBound : Bool) (os : Os) (info : ProcessInfo)
    (hh : info.hProcess ≠ 0) :
    (cleanup_and_resume_process resumeBound os info).2 =
      (if resumeBound = true ∧ info.is_suspended = true then
        [OsCall.resume info.hProcess (os.NtResumeProcess info.hProcess)] else []) ++
      [OsCall.closeHandle info.hProcess] := by
  simp [cleanup_and_resume_process, hh]

theorem mem_of_mapFind_some {m : Registry} {pid : DWORD} {info : ProcessInfo}
    (h : mapFind m pid = some info) : (pid, info) ∈ m := by
  induction m with
  | nil => simp [mapFind] at h
  | cons e rest ih =>
    obtain ⟨k, v⟩ := e
    by_cases hk : k = pid
    · simp only [mapFind, hk, if_true, Option.some.injEq] at h
      simp [hk, h]
    · simp only [mapFind, hk, if_false] at h
      exact List.mem_cons_of_mem _ (ih h)

theorem suspendedState_eq :
    suspendedState = ⟨true, true, [(42, ProcessInfo.mk 42 5 100 100 true 100000000)], false, true⟩ ∧
    suspendedStateCalls = [OsCall.openProcess 42 5, OsCall.getExitCode 5 (some STILL_ACTIVE),
      OsCall.suspend 5 0] := by
  decide!

/-- What `RemoveProcess(pid)` does on a well-formed registry. Afterwards `pid` is
not a key and is not among the ids returned by `GetManagedPids` for any array and
capacity. If `pid` was managed, the calls issued are one resume on its handle
exactly when its entry was Suspended (and the resume pointer is bound), followed by
the close of the handle. For an entry that was Running the count of outstanding
suspends is left as it was, and for an entry that was Suspended a granted resume
takes one off that count, whatever it was. -/
theorem RemoveProcess_erases_and_resumes (s : State) (os : Os) (pid : DWORD)
    (hwf : WellFormed s.g_managed_processes) :
    mapFind (RemoveProcess s os pid).1.g_managed_processes pid = none ∧
    (∀ (pids_array : List DWORD) (max_size : Int),
      pid ∉ (GetManagedPids (RemoveProcess s os pid).1 pids_array max_size).1.take
        (GetManagedPids (RemoveProcess s os pid).1 pids_array max_size).2.toNat) ∧
    (∀ info, mapFind s.g_managed_processes pid = some info →
      (RemoveProcess s os pid).2 =
        (if s.g_NtResumeProcess = true ∧ info.is_suspended = true then
          [OsCall.resume info.hProcess (os.NtResumeProcess info.hProcess)] else []) ++
        [OsCall.closeHandle info.hProcess] ∧
      (info.is_suspended = false →
        ∀ n, outstanding info.hProcess (RemoveProcess s os pid).2 n = n) ∧
      (info.is_suspended = true → s.g_NtResumeProcess = true →
        os.NtResumeProcess info.hProcess = 0 →
        ∀ n, outstanding info.hProcess (RemoveProcess s os pid).2 n = n - 1)) := by
  have hgone : mapFind (RemoveProcess s os pid).1.g_managed_processes pid = none := by
    unfold RemoveProcess
    cases hfind : mapFind s.g_managed_processes pid with
    | none => simpa using hfind
    | some info => simpa using mapFind_mapErase_self _ pid hwf.1
  refine ⟨hgone, ?_, ?_⟩
  · intro pids_array max_size hmem
    exact not_mem_keys_of_mapFind_none hgone (GetManagedPids_mem_keys _ _ _ _ hmem)
  · intro info hfind
    have hh : info.hProcess ≠ 0 := (hwf.2.1 _ (mem_of_mapFind_some hfind)).2
    have hcalls : (RemoveProcess s os pid).2 =
        (if s.g_NtResumeProcess = true ∧ info.is_suspended = true then
          [OsCall.resume info.hProcess (os.NtResumeProcess info.hProcess)] else []) ++
        [OsCall.closeHandle info.hProcess] := by
      unfold RemoveProcess
      simp only [hfind]
      exact cleanup_calls _ os info hh
    refine ⟨hcalls, ?_, ?_⟩
    · intro hrun n
      rw [hcalls]
      simp [hrun, outstanding]
    · intro hsusp hbound hok n
      rw [hcalls]
      simp [hsusp, hbound, hok, outstanding]

/-- The lemma above at `RemoveProcess(42)` on the state in which process 42 is
suspended, the OS granting the resume. -/
theorem RemoveProcess_erases_and_resumes_witness :
    WellFormed suspendedState.g_managed_processes ∧
    (RemoveProcess suspendedState osAlive 42).2 =
      [OsCall.resume 5 0, OsCall.closeHandle 5] ∧
    outstanding 5 (RemoveProcess suspendedState osAlive 42).2 1 = 1 - 1 :=
  ⟨by decide!,
    by
      have h := ((RemoveProcess_erases_and_resumes suspendedState osAlive 42 (by decide!)).2.2
        (ProcessInfo.mk 42 5 100 100 true 100000000) (by decide!)).1
      rw [h]
      decide!,
    ((RemoveProcess_erases_and_resumes suspendedState osAlive 42 (by decide!)).2.2
      (ProcessInfo.mk 42 5 100 100 true 100000000) (by decide!)).2.2 rfl (by decide!)
      (by decide!) 1⟩

/-! ## The scheduler pass, entry by entry -/

theorem scan_procs (os : Os) (now : TimePoint) (m : Registry) (nw : TimePoint) :
    (scan os now m nw).procs = m.map (fun e => (e.1, (visit os now e.2).info)) := by
  induction m generalizing nw with
  | nil => rfl
  | cons e rest ih =>
    obtain ⟨k, v⟩ := e
    simp only [scan, List.map_cons]
    rw [ih]

theorem scan_pids (os : Os) (now : TimePoint) (m : Registry) (nw : TimePoint) :
    (scan os now m nw).pids_to_remove =
      (m.filter (fun e => (visit os now e.2).remove)).map (fun e => e.2.pid) := by
  induction m generalizing nw with
  | nil => rfl
  | cons e rest ih =>
    obtain ⟨k, v⟩ := e
    simp only [scan]
    rw [ih]
    by_cases h : (visit os now v).remove = true
    · simp [h]
    · simp [h]

theorem scan_calls (os : Os) (now : TimePoint) (m : Registry) (nw : TimePoint) :
    (scan os now m nw).calls = m.flatMap (fun e => (visit os now e.2).calls) := by
  induction m generalizing nw with
  | nil => rfl
  | cons e rest ih =>
    obtain ⟨k, v⟩ := e
    simp only [scan, List.flatMap_cons]
    rw [ih]

theorem visit_hProcess (os : Os) (now : TimePoint) (info : ProcessInfo) :
    (visit os now info).info.hProcess = info.hProcess := by
  unfold visit
  simp only
  split_ifs <;> rfl

theorem visit_pid (os : Os) (now : TimePoint) (info : ProcessInfo) :
    (visit os now info).info.pid = info.pid := by
  unfold visit
  simp only
  split_ifs <;> rfl

theorem visit_remove_info (os : Os) (now : TimePoint) (info : ProcessInfo)
    (h : (visit os now info).remove = true) : (visit os now info).info = info := by
  unfold visit at h ⊢
  simp only at h ⊢
  split_ifs at h ⊢ <;> rfl

theorem visit_calls_handle (os : Os) (now : TimePoint) (info : ProcessInfo) :
    ∀ c ∈ (visit os now info).calls, callHandle c = some info.hProcess := by
  unfold visit
  simp only
  intro c hc
  split_ifs at hc <;> simp at hc <;> rcases hc with rfl | rfl <;> rfl

theorem cleanup_calls_handle (resumeBound : Bool) (os : Os) (info : ProcessInfo) :
    ∀ c ∈ (cleanup_and_resume_process resumeBound os info).2,
      callHandle c = some info.hProcess := by
  unfold cleanup_and_resume_process
  intro c hc
  split_ifs at hc <;> simp at hc
  · rcases hc with rfl | rfl <;> rfl
  · subst hc
    rfl

theorem mapFind_of_mem (m : Registry) (k : DWORD) (v : ProcessInfo)
    (hsorted : (keys m).Pairwise (fun a b => a < b)) (hmem : (k, v) ∈ m) :
    mapFind m k = some v := by
  induction m with
  | nil => simp at hmem
  | cons e rest ih =>
    obtain ⟨k1, v1⟩ := e
    simp only [keys, List.map_cons, List.pairwise_cons] at hsorted
    obtain ⟨hhead, htail⟩ := hsorted
    rcases List.mem_cons.mp hmem with heq | hrest
    · simp only [Prod.mk.injEq] at heq
      simp [mapFind, heq.1, heq.2]
    · have hlt : k1 < k := hhead k (mem_keys_of_mem hrest)
      have hne : ¬ k1 = k := fun h => by
        rw [h] at hlt
        exact lt_irrefl _ hlt
      simp only [mapFind, hne, if_false]
      exact ih htail hrest

theorem mapFind_mapErase_of_ne (m : Registry) (pid q : DWORD) (hne : q ≠ pid) :
    mapFind (mapErase m pid) q = mapFind m q := by
  induction m with
  | nil => rfl
  | cons e rest ih =>
    obtain ⟨k, v⟩ := e
    by_cases hk : k = pid
    · have hkq : ¬ k = q := fun h => hne (h.symm.trans hk)
      simp only [mapErase, mapFind, hk, if_true]
      rw [if_neg (fun h => hne h.symm)]
    · by_cases hkq : k = q
      · subst hkq
        simp only [mapErase, mapFind, hk, if_false, if_true]
      · simp only [mapErase, mapFind, hk, hkq, if_false, ih]

theorem keys_filter_sorted (m : Registry) (P : DWORD × ProcessInfo → Bool)
    (hsorted : (keys m).Pairwise (fun a b => a < b)) :
    (keys (m.filter P)).Pairwise (fun a b => a < b) := by
  have hsub : List.Sublist (keys (m.filter P)) (keys m) :=
    List.Sublist.map _ (List.filter_sublist m)
  exact List.Pairwise.sublist hsub hsorted

/-- Calls of the removal loop for one pid, given the registry it is looked up in. -/
theorem remove_marked_spec (resumeBound : Bool) (os : Os) (pids : List DWORD) (m : Registry)
    (hsorted : (keys m).Pairwise (fun a b => a < b)) (hnodup : pids.Nodup) :
    (remove_marked resumeBound os pids m).1 = m.filter (fun e => decide (e.1 ∉ pids)) ∧
    (remove_marked resumeBound os pids m).2 =
      pids.flatMap (fun q => match mapFind m q with
        | some info => (cleanup_and_resume_process resumeBound os info).2
        | none => []) := by
  induction pids generalizing m with
  | nil => simp [remove_marked]
  | cons pid pids ih =>
    obtain ⟨hpid, hrest⟩ := List.nodup_cons.mp hnodup
    cases hfind : mapFind m pid with
    | none =>
      obtain ⟨h1, h2⟩ := ih m hsorted hrest
      have hall : ∀ e ∈ m, e.1 ≠ pid := (mapFind_eq_none_iff m pid).mp hfind
      simp only [remove_marked, hfind, List.flatMap_cons, List.nil_append]
      refine ⟨?_, h2⟩
      rw [h1]
      apply List.filter_congr
      intro e he
      simp [hall e he]
    | some info =>
      have hsorted1 : (keys (mapErase m pid)).Pairwise (fun a b => a < b) := by
        rw [mapErase_eq_filter m pid hsorted]
        exact keys_filter_sorted m _ hsorted
      obtain ⟨h1, h2⟩ := ih (mapErase m pid) hsorted1 hrest
      simp only [remove_marked, hfind, List.flatMap_cons]
      constructor
      · rw [h1, mapErase_eq_filter m pid hsorted, List.filter_filter]
        apply List.filter_congr
        intro e _
        by_cases hp : e.1 = pid
        · simp [hp]
        · simp [hp]
      · rw [h2]
        congr 1
        apply List.flatMap_congr
        intro q hq
        have hne : q ≠ pid := fun h => hpid (h ▸ hq)
        rw [mapFind_mapErase_of_ne m pid q hne]

theorem flatMap_map_pid {β : Type} (l : Registry) (g : DWORD → List β) :
    (l.map (fun e => e.2.pid)).flatMap g = l.flatMap (fun e => g e.2.pid) := by
  induction l with
  | nil => rfl
  | cons e rest ih => simp only [List.map_cons, List.flatMap_cons, ih]

theorem flatMap_filter_if {α β : Type} (l : List α) (P : α → Bool) (f : α → List β) :
    (l.filter P).flatMap f = l.flatMap (fun e => if P e = true then f e else []) := by
  induction l with
  | nil => rfl
  | cons e rest ih =>
    by_cases h : P e = true
    · rw [List.filter_cons_of_pos h]
      simp only [List.flatMap_cons, h, if_true, ih]
    · rw [List.filter_cons_of_neg h]
      simp only [List.flatMap_cons, h, if_false, List.nil_append, ih]
      simp

theorem keys_map_visit (os : Os) (now : TimePoint) (m : Registry) :
    keys (m.map (fun e => (e.1, (visit os now e.2).info))) = keys m := by
  simp [keys, List.map_map, Function.comp_def]

theorem handles_map_visit (os : Os) (now : TimePoint) (m : Registry) :
    handles (m.map (fun e => (e.1, (visit os now e.2).info))) = handles m := by
  simp [handles, List.map_map, Function.comp_def, visit_hProcess]

theorem entry_unique {m : Registry} (hsorted : (keys m).Pairwise (fun a b => a < b))
    {e1 e2 : DWORD × ProcessInfo} (h1 : e1 ∈ m) (h2 : e2 ∈ m) (hk : e1.1 = e2.1) : e1 = e2 := by
  have a := mapFind_of_mem m e1.1 e1.2 hsorted h1
  have b := mapFind_of_mem m e2.1 e2.2 hsorted h2
  rw [hk, b] at a
  exact Prod.ext hk (Option.some.inj a).symm

theorem marked_pids_nodup (os : Os) (now : TimePoint) (m : Registry) (hwf : WellFormed m) :
    ((m.filter (fun e => (visit os now e.2).remove)).map (fun e => e.2.pid)).Nodup := by
  have heq : (m.filter (fun e => (visit os now e.2).remove)).map (fun e => e.2.pid) =
      keys (m.filter (fun e => (visit os now e.2).remove)) := by
    unfold keys
    apply List.map_congr_left
    intro e he
    exact (hwf.2.1 e (List.mem_of_mem_filter he)).1
  rw [heq]
  have hs := keys_filter_sorted m (fun e => (visit os now e.2).remove) hwf.1
  exact hs.imp (fun h => ne_of_lt h)

theorem key_marked_iff (os : Os) (now : TimePoint) (m : Registry) (hwf : WellFormed m)
    (e : DWORD × ProcessInfo) (he : e ∈ m) :
    e.1 ∈ (m.filter (fun e => (visit os now e.2).remove)).map (fun e => e.2.pid) ↔
      (visit os now e.2).remove = true := by
  constructor
  · intro h
    obtain ⟨e1, he1, hpid⟩ := List.mem_map.mp h
    obtain ⟨hm1, hr1⟩ := List.mem_filter.mp he1
    have hk : e1.1 = e.1 := by
      rw [← (hwf.2.1 e1 hm1).1]
      exact hpid
    rw [← entry_unique hwf.1 hm1 he hk]
    exact hr1
  · intro h
    exact List.mem_map.mpr ⟨e, List.mem_filter.mpr ⟨he, h⟩, (hwf.2.1 e he).1⟩

/-- One scheduler pass over a well-formed registry, entry by entry: the entries
kept are those whose visit did not mark them, as the visit left them; the calls are
those of the visits in key order, followed by the cleanups of the marked entries in
key order. -/
theorem manager_loop_iteration_spec (s : State) (os : Os) (now : TimePoint)
    (hwf : WellFormed s.g_managed_processes) :
    (manager_loop_iteration s os now).state.g_managed_processes =
      (s.g_managed_processes.filter (fun e => !(visit os now e.2).remove)).map
        (fun e => (e.1, (visit os now e.2).info)) ∧
    (manager_loop_iteration s os now).calls =
      s.g_managed_processes.flatMap (fun e => (visit os now e.2).calls) ++
      s.g_managed_processes.flatMap (fun e =>
        if (visit os now e.2).remove = true then
          (cleanup_and_resume_process s.g_NtResumeProcess os e.2).2 else []) := by
  unfold manager_loop_iteration
  by_cases hempty : s.g_managed_processes.isEmpty = true
  · have hnil : s.g_managed_processes = [] := List.isEmpty_iff.mp hempty
    simp [hempty, hnil]
  · simp only [hempty, Bool.false_eq_true, if_false]
    have hsortedM : (keys (s.g_managed_processes.map
        (fun e => (e.1, (visit os now e.2).info)))).Pairwise (fun a b => a < b) := by
      rw [keys_map_visit]
      exact hwf.1
    obtain ⟨h1, h2⟩ := remove_marked_spec s.g_NtResumeProcess os
      ((s.g_managed_processes.filter (fun e => (visit os now e.2).remove)).map
        (fun e => e.2.pid))
      (s.g_managed_processes.map (fun e => (e.1, (visit os now e.2).info)))
      hsortedM (marked_pids_nodup os now _ hwf)
    rw [scan_procs, scan_pids, scan_calls, h1, h2]
    constructor
    · rw [List.filter_map]
      congr 1
      apply List.filter_congr
      intro e he
      have := key_marked_iff os now _ hwf e he
      by_cases hr : (visit os now e.2).remove = true
      · simp [Function.comp, this.mpr hr, hr]
      · have hn : ¬ e.1 ∈ (s.g_managed_processes.filter
            (fun e => (visit os now e.2).remove)).map (fun e => e.2.pid) :=
          fun h => hr (this.mp h)
        have hb : (visit os now e.2).remove = false := by simpa using hr
        simp only [Function.comp, hb, Bool.not_false]
        exact decide_eq_true hn
    · congr 1
      rw [flatMap_map_pid, flatMap_filter_if]
      apply List.flatMap_congr
      intro e he
      by_cases hr : (visit os now e.2).remove = true
      · simp only [hr, if_true]
        have hmem : (e.1, (visit os now e.2).info) ∈
            s.g_managed_processes.map (fun e => (e.1, (visit os now e.2).info)) :=
          List.mem_map_of_mem (fun e => (e.1, (visit os now e.2).info)) he
        have hfind := mapFind_of_mem _ _ _ hsortedM hmem
        rw [(hwf.2.1 e he).1, hfind, visit_remove_info os now e.2 hr]
      · simp only [hr, Bool.false_eq_true, if_false]

/-! ## Calls issued on one handle -/

theorem isSuspendOn_handle (h : HANDLE) (c : OsCall) (hc : isSuspendOn h c = true) :
    callHandle c = some h := by
  cases c <;> simp [isSuspendOn] at hc
  simp [callHandle, hc]

theorem isResumeOn_handle (h : HANDLE) (c : OsCall) (hc : isResumeOn h c = true) :
    callHandle c = some h := by
  cases c <;> simp [isResumeOn] at hc
  simp [callHandle, hc]

theorem isCloseOn_handle (h : HANDLE) (c : OsCall) (hc : isCloseOn h c = true) :
    callHandle c = some h := by
  cases c <;> simp [isCloseOn] at hc
  simp [callHandle, hc]

theorem filter_flatMap_absent (m : Registry) (f : DWORD × ProcessInfo → List OsCall)
    (Q : OsCall → Bool) (h : HANDLE)
    (hf : ∀ e ∈ m, ∀ c ∈ f e, callHandle c = some e.2.hProcess)
    (hQ : ∀ c, Q c = true → callHandle c = some h)
    (habs : h ∉ handles m) :
    (m.flatMap f).filter Q = [] := by
  rw [List.filter_eq_nil_iff]
  intro c hc hq
  obtain ⟨e, he, hce⟩ := List.mem_flatMap.mp hc
  have h1 := hf e he c hce
  rw [hQ c hq] at h1
  apply habs
  rw [Option.some.inj h1]
  exact List.mem_map_of_mem (fun e => e.2.hProcess) he

theorem filter_flatMap_entry (m : Registry) (f : DWORD × ProcessInfo → List OsCall)
    (Q : OsCall → Bool) (e0 : DWORD × ProcessInfo)
    (hf : ∀ e ∈ m, ∀ c ∈ f e, callHandle c = some e.2.hProcess)
    (hQ : ∀ c, Q c = true → callHandle c = some e0.2.hProcess)
    (hnodup : (handles m).Nodup) (hmem : e0 ∈ m) :
    (m.flatMap f).filter Q = (f e0).filter Q := by
  induction m with
  | nil => simp at hmem
  | cons e rest ih =>
    simp only [handles, List.map_cons, List.nodup_cons] at hnodup
    obtain ⟨hhead, htail⟩ := hnodup
    have hfrest : ∀ e ∈ rest, ∀ c ∈ f e, callHandle c = some e.2.hProcess :=
      fun e he => hf e (List.mem_cons_of_mem _ he)
    rw [List.flatMap_cons, List.filter_append]
    rcases List.mem_cons.mp hmem with heq | hrest
    · subst heq
      rw [filter_flatMap_absent rest f Q e0.2.hProcess hfrest hQ hhead, List.append_nil]
    · have hne : e.2.hProcess ≠ e0.2.hProcess := by
        intro heq
        apply hhead
        rw [heq]
        exact List.mem_map_of_mem (fun e => e.2.hProcess) hrest
      have hnil : (f e).filter Q = [] := by
        rw [List.filter_eq_nil_iff]
        intro c hc hq
        have h1 := hf e (List.mem_cons_self _ _) c hc
        rw [hQ c hq] at h1
        exact hne (Option.some.inj h1).symm
      rw [hnil, List.nil_append]
      exact ih hfrest htail hrest

theorem cleanup_if_calls_handle (resumeBound : Bool) (os : Os) (now : TimePoint)
    (m : Registry) :
    ∀ e ∈ m, ∀ c ∈ (if (visit os now e.2).remove = true then
      (cleanup_and_resume_process resumeBound os e.2).2 else []),
      callHandle c = some e.2.hProcess := by
  intro e _ c hc
  split_ifs at hc
  · exact cleanup_calls_handle resumeBound os e.2 c hc
  · simp at hc

/-- Calls of one scheduler pass that act on the handle of a given entry: those
of its visit, then those of its cleanup if the visit marked it. -/
theorem iteration_calls_entry (s : State) (os : Os) (now : TimePoint)
    (hwf : WellFormed s.g_managed_processes) (e0 : DWORD × ProcessInfo)
    (hmem : e0 ∈ s.g_managed_processes) (Q : OsCall → Bool)
    (hQ : ∀ c, Q c = true → callHandle c = some e0.2.hProcess) :
    (manager_loop_iteration s os now).calls.filter Q =
      ((visit os now e0.2).calls ++
        (if (visit os now e0.2).remove = true then
          (cleanup_and_resume_process s.g_NtResumeProcess os e0.2).2 else [])).filter Q := by
  rw [(manager_loop_iteration_spec s os now hwf).2, List.filter_append, List.filter_append]
  rw [filter_flatMap_entry _ (fun e => (visit os now e.2).calls) Q e0
      (fun e _ => visit_calls_handle os now e.2) hQ hwf.2.2 hmem]
  rw [filter_flatMap_entry _ (fun e => if (visit os now e.2).remove = true then
        (cleanup_and_resume_process s.g_NtResumeProcess os e.2).2 else []) Q e0
      (cleanup_if_calls_handle s.g_NtResumeProcess os now _) hQ hwf.2.2 hmem]

/-- Calls of one scheduler pass acting on a handle that no entry holds: none. -/
theorem iteration_calls_absent (s : State) (os : Os) (now : TimePoint)
    (hwf : WellFormed s.g_managed_processes) (h : HANDLE)
    (habs : h ∉ handles s.g_managed_processes) (Q : OsCall → Bool)
    (hQ : ∀ c, Q c = true → callHandle c = some h) :
    (manager_loop_iteration s os now).calls.filter Q = [] := by
  rw [(manager_loop_iteration_spec s os now hwf).2, List.filter_append]
  rw [filter_flatMap_absent _ (fun e => (visit os now e.2).calls) Q h
      (fun e _ => visit_calls_handle os now e.2) hQ habs]
  rw [filter_flatMap_absent _ (fun e => if (visit os now e.2).remove = true then
        (cleanup_and_resume_process s.g_NtResumeProcess os e.2).2 else []) Q h
      (cleanup_if_calls_handle s.g_NtResumeProcess os now _) hQ habs]
  rfl

theorem wellFormed_filter_map_visit (os : Os) (now : TimePoint) (m : Registry)
    (P : DWORD × ProcessInfo → Bool) (hwf : WellFormed m) :
    WellFormed ((m.filter P).map (fun e => (e.1, (visit os now e.2).info))) := by
  refine ⟨?_, ?_, ?_⟩
  · rw [keys_map_visit]
    exact keys_filter_sorted m P hwf.1
  · intro e he
    obtain ⟨e1, he1, rfl⟩ := List.mem_map.mp he
    have := hwf.2.1 e1 (List.mem_of_mem_filter he1)
    exact ⟨by rw [visit_pid]; exact this.1, by rw [visit_hProcess]; exact this.2⟩
  · rw [handles_map_visit]
    exact List.Nodup.sublist (List.Sublist.map _ (List.filter_sublist m)) hwf.2.2

theorem iteration_wellFormed (s : State) (os : Os) (now : TimePoint)
    (hwf : WellFormed s.g_managed_processes) :
    WellFormed (manager_loop_iteration s os now).state.g_managed_processes := by
  rw [(manager_loop_iteration_spec s os now hwf).1]
  exact wellFormed_filter_map_visit os now _ _ hwf

theorem iteration_handles_subset (s : State) (os : Os) (now : TimePoint)
    (hwf : WellFormed s.g_managed_processes) (h : HANDLE)
    (hh : h ∈ handles (manager_loop_iteration s os now).state.g_managed_processes) :
    h ∈ handles s.g_managed_processes := by
  rw [(manager_loop_iteration_spec s os now hwf).1, handles_map_visit] at hh
  exact List.Sublist.subset (List.Sublist.map _ (List.filter_sublist _)) hh

/-- Lookup of an entry after one scheduler pass: gone if its visit marked it,
else as its visit left it. -/
theorem iteration_find_entry (s : State) (os : Os) (now : TimePoint)
    (hwf : WellFormed s.g_managed_processes) (e0 : DWORD × ProcessInfo)
    (hmem : e0 ∈ s.g_managed_processes) :
    mapFind (manager_loop_iteration s os now).state.g_managed_processes e0.1 =
      if (visit os now e0.2).remove = true then none else some (visit os now e0.2).info := by
  rw [(manager_loop_iteration_spec s os now hwf).1]
  by_cases hr : (visit os now e0.2).remove = true
  · rw [if_pos hr, mapFind_eq_none_iff]
    intro e he hk
    obtain ⟨e1, he1, rfl⟩ := List.mem_map.mp he
    obtain ⟨hm1, hkeep⟩ := List.mem_filter.mp he1
    have := entry_unique hwf.1 hm1 hmem hk
    rw [this, hr] at hkeep
    simp at hkeep
  · rw [if_neg hr]
    apply mapFind_of_mem
    · exact (wellFormed_filter_map_visit os now _ _ hwf).1
    · have hb : (visit os now e0.2).remove = false := by simpa using hr
      have hkeep : e0 ∈ s.g_managed_processes.filter (fun e => !(visit os now e.2).remove) :=
        List.mem_filter.mpr ⟨hmem, by simp [hb]⟩
      exact List.mem_map_of_mem (fun e => (e.1, (visit os now e.2).info)) hkeep

/-- The handle of an entry marked by its visit is held by no entry after the pass. -/
theorem iteration_handle_released (s : State) (os : Os) (now : TimePoint)
    (hwf : WellFormed s.g_managed_processes) (e0 : DWORD × ProcessInfo)
    (hmem : e0 ∈ s.g_managed_processes) (hr : (visit os now e0.2).remove = true) :
    e0.2.hProcess ∉ handles (manager_loop_iteration s os now).state.g_managed_processes := by
  rw [(manager_loop_iteration_spec s os now hwf).1, handles_map_visit]
  intro hh
  obtain ⟨e1, he1, hh1⟩ := List.mem_map.mp hh
  obtain ⟨hm1, hkeep⟩ := List.mem_filter.mp he1
  have hinj : e1 = e0 := by
    have := List.inj_on_of_nodup_map hwf.2.2 hm1 hmem hh1
    exact this
  rw [hinj, hr] at hkeep
  simp at hkeep

theorem run_iterations_wellFormed (s : State) (later : List (TimePoint × Os))
    (hwf : WellFormed s.g_managed_processes) :
    WellFormed (run_iterations s later).1.g_managed_processes := by
  induction later generalizing s with
  | nil => exact hwf
  | cons x rest ih =>
    obtain ⟨now, os⟩ := x
    exact ih _ (iteration_wellFormed s os now hwf)

/-- Later scheduler passes issue no call on a handle that no entry holds. -/
theorem run_iterations_calls_absent (s : State) (later : List (TimePoint × Os))
    (hwf : WellFormed s.g_managed_processes) (h : HANDLE)
    (habs : h ∉ handles s.g_managed_processes) (Q : OsCall → Bool)
    (hQ : ∀ c, Q c = true → callHandle c = some h) :
    (run_iterations s later).2.filter Q = [] := by
  induction later generalizing s with
  | nil => rfl
  | cons x rest ih =>
    obtain ⟨now, os⟩ := x
    simp only [run_iterations, List.filter_append]
    rw [iteration_calls_absent s os now hwf h habs Q hQ, List.nil_append]
    exact ih _ (iteration_wellFormed s os now hwf)
      (fun hh => habs (iteration_handles_subset s os now hwf h hh))

/-! ## The visit of one entry, case by case -/

theorem visit_dead (os : Os) (now : TimePoint) (info : ProcessInfo)
    (hdead : os.GetExitCodeProcess info.hProcess ≠ some STILL_ACTIVE) :
    visit os now info =
      ⟨info, true, [OsCall.getExitCode info.hProcess (os.GetExitCodeProcess info.hProcess)]⟩ := by
  simp [visit, hdead]

theorem visit_not_due (os : Os) (now : TimePoint) (info : ProcessInfo)
    (halive : os.GetExitCodeProcess info.hProcess = some STILL_ACTIVE)
    (hwait : now < info.next_state_change_time) :
    visit os now info = ⟨info, false, [OsCall.getExitCode info.hProcess (some STILL_ACTIVE)]⟩ := by
  have h : ¬ now ≥ info.next_state_change_time := not_le.mpr hwait
  simp [visit, halive, h]

theorem visit_resume (os : Os) (now : TimePoint) (info : ProcessInfo)
    (halive : os.GetExitCodeProcess info.hProcess = some STILL_ACTIVE)
    (hdue : now ≥ info.next_state_change_time) (hsusp : info.is_suspended = true) :
    visit os now info =
      ⟨{ info with
          is_suspended := (if os.NtResumeProcess info.hProcess = 0 then false else true)
          next_state_change_time := now + milliseconds (toLongLong info.resume_ms) },
        false,
        [OsCall.getExitCode info.hProcess (some STILL_ACTIVE),
          OsCall.resume info.hProcess (os.NtResumeProcess info.hProcess)]⟩ := by
  simp [visit, halive, hdue, hsusp]

theorem visit_suspend_ok (os : Os) (now : TimePoint) (info : ProcessInfo)
    (halive : os.GetExitCodeProcess info.hProcess = some STILL_ACTIVE)
    (hdue : now ≥ info.next_state_change_time) (hrun : info.is_suspended = false)
    (hok : os.NtSuspendProcess info.hProcess = 0) :
    visit os now info =
      ⟨{ info with
          is_suspended := true
          next_state_change_time := now + milliseconds (toLongLong info.suspend_ms) },
        false,
        [OsCall.getExitCode info.hProcess (some STILL_ACTIVE),
          OsCall.suspend info.hProcess 0]⟩ := by
  simp [visit, halive, hdue, hrun, hok]

theorem visit_suspend_refused (os : Os) (now : TimePoint) (info : ProcessInfo)
    (halive : os.GetExitCodeProcess info.hProcess = some STILL_ACTIVE)
    (hdue : now ≥ info.next_state_change_time) (hrun : info.is_suspended = false)
    (hfail : os.NtSuspendProcess info.hProcess ≠ 0) :
    visit os now info =
      ⟨info, true,
        [OsCall.getExitCode info.hProcess (some STILL_ACTIVE),
          OsCall.suspend info.hProcess (os.NtSuspendProcess info.hProcess)]⟩ := by
  simp [visit, halive, hdue, hrun, hfail]

/-! ## Unsupported target, process exit, resume failure -/

/-- Claim C6. In one scheduler pass, an entry that is alive, Running, due and
whose suspend is refused receives exactly one suspend call and no resume call, its
handle is closed (once), the entry is absent from the registry at the end of the
pass, no entry holds its handle any more, and no later pass issues a suspend on
that handle. -/
theorem unsupported_target_dropped (s : State) (os : Os) (now : TimePoint)
    (k : DWORD) (info : ProcessInfo)
    (hwf : WellFormed s.g_managed_processes) (hmem : (k, info) ∈ s.g_managed_processes)
    (halive : os.GetExitCodeProcess info.hProcess = some STILL_ACTIVE)
    (hrun : info.is_suspended = false) (hdue : now ≥ info.next_state_change_time)
    (hfail : os.NtSuspendProcess info.hProcess ≠ 0) :
    suspendCalls (manager_loop_iteration s os now).calls info.hProcess =
      [OsCall.suspend info.hProcess (os.NtSuspendProcess info.hProcess)] ∧
    resumeCalls (manager_loop_iteration s os now).calls info.hProcess = [] ∧
    closeCount (manager_loop_iteration s os now).calls info.hProcess = 1 ∧
    mapFind (manager_loop_iteration s os now).state.g_managed_processes k = none ∧
    info.hProcess ∉ handles (manager_loop_iteration s os now).state.g_managed_processes ∧
    (∀ later : List (TimePoint × Os),
      suspendCalls (run_iterations (manager_loop_iteration s os now).state later).2
        info.hProcess = []) := by
  have hv := visit_suspend_refused os now info halive hdue hrun hfail
  have hh : info.hProcess ≠ 0 := (hwf.2.1 _ hmem).2
  have hrem : (visit os now info).remove = true := by rw [hv]
  have hgone := iteration_handle_released s os now hwf (k, info) hmem hrem
  refine ⟨?_, ?_, ?_, ?_, hgone, ?_⟩
  · unfold suspendCalls
    rw [iteration_calls_entry s os now hwf (k, info) hmem _ (isSuspendOn_handle info.hProcess)]
    simp [hv, cleanup_calls _ os info hh, hrun, List.filter, isSuspendOn]
  · unfold resumeCalls
    rw [iteration_calls_entry s os now hwf (k, info) hmem _ (isResumeOn_handle info.hProcess)]
    simp [hv, cleanup_calls _ os info hh, hrun, List.filter, isResumeOn]
  · unfold closeCount
    rw [iteration_calls_entry s os now hwf (k, info) hmem _ (isCloseOn_handle info.hProcess)]
    simp [hv, cleanup_calls _ os info hh, hrun, List.filter, isCloseOn]
  · have := iteration_find_entry s os now hwf (k, info) hmem
    simpa [hrem] using this
  · intro later
    exact run_iterations_calls_absent _ later (iteration_wellFormed s os now hwf)
      info.hProcess hgone _ (isSuspendOn_handle info.hProcess)

theorem addedState_eq :
    addedState = ⟨true, true, [(42, ProcessInfo.mk 42 5 100 100 false 0)], false, true⟩ := by
  decide!

/-- Witness for claim C6: process 42, just added, is refused its first suspend. -/
theorem unsupported_target_dropped_witness :
    WellFormed addedState.g_managed_processes ∧
    suspendCalls (manager_loop_iteration addedState osSuspendDenied 0).calls 5 =
      [OsCall.suspend 5 (-1073741790)] ∧
    closeCount (manager_loop_iteration addedState osSuspendDenied 0).calls 5 = 1 ∧
    mapFind (manager_loop_iteration addedState osSuspendDenied 0).state.g_managed_processes 42
      = none ∧
    suspendCalls (run_iterations (manager_loop_iteration addedState osSuspendDenied 0).state
      [(7, osSuspendDenied)]).2 5 = [] :=
  ⟨by decide!,
    (unsupported_target_dropped addedState osSuspendDenied 0 42
      (ProcessInfo.mk 42 5 100 100 false 0) (by decide!) (by decide!) (by decide!) rfl
      (by decide!) (by decide!)).1,
    (unsupported_target_dropped addedState osSuspendDenied 0 42
      (ProcessInfo.mk 42 5 100 100 false 0) (by decide!) (by decide!) (by decide!) rfl
      (by decide!) (by decide!)).2.2.1,
    (unsupported_target_dropped addedState osSuspendDenied 0 42
      (ProcessInfo.mk 42 5 100 100 false 0) (by decide!) (by decide!) (by decide!) rfl
      (by decide!) (by decide!)).2.2.2.1,
    (unsupported_target_dropped addedState osSuspendDenied 0 42
      (ProcessInfo.mk 42 5 100 100 false 0) (by decide!) (by decide!) (by decide!) rfl
      (by decide!) (by decide!)).2.2.2.2.2 [(7, osSuspendDenied)]⟩

/-- Claim C7, refuted as stated: process 42 is Suspended when the scheduler finds
that it has exited; the pass removes the entry through the common cleanup, which
issues a resume on its handle before closing it. -/
theorem exited_suspended_entry_is_resumed :
    (42, ProcessInfo.mk 42 5 100 100 true 100000000) ∈ suspendedState.g_managed_processes ∧
    osExited.GetExitCodeProcess 5 ≠ some STILL_ACTIVE ∧
    (manager_loop_iteration suspendedState osExited 5).calls =
      [OsCall.getExitCode 5 (some 0), OsCall.resume 5 0, OsCall.closeHandle 5] ∧
    resumeCalls (manager_loop_iteration suspendedState osExited 5).calls 5 ≠ [] := by
  decide!

/-- Claim C7, amended. In one scheduler pass, an entry whose liveness check
fails, whatever its phase, is removed from the registry within that pass and its
handle is closed (once) and held by no entry afterwards; no suspend call is issued
on it in that pass or in any later pass; no resume call is issued on it in any
later pass; in the pass itself the cleanup issues one resume call on it exactly
when the entry was Suspended (and the resume pointer is bound), none when it was
Running. -/
theorem exited_entry_dropped (s : State) (os : Os) (now : TimePoint)
    (k : DWORD) (info : ProcessInfo)
    (hwf : WellFormed s.g_managed_processes) (hmem : (k, info) ∈ s.g_managed_processes)
    (hdead : os.GetExitCodeProcess info.hProcess ≠ some STILL_ACTIVE) :
    mapFind (manager_loop_iteration s os now).state.g_managed_processes k = none ∧
    info.hProcess ∉ handles (manager_loop_iteration s os now).state.g_managed_processes ∧
    closeCount (manager_loop_iteration s os now).calls info.hProcess = 1 ∧
    suspendCalls (manager_loop_iteration s os now).calls info.hProcess = [] ∧
    resumeCalls (manager_loop_iteration s os now).calls info.hProcess =
      (if s.g_NtResumeProcess = true ∧ info.is_suspended = true then
        [OsCall.resume info.hProcess (os.NtResumeProcess info.hProcess)] else []) ∧
    (∀ later : List (TimePoint × Os),
      suspendCalls (run_iterations (manager_loop_iteration s os now).state later).2
        info.hProcess = [] ∧
      resumeCalls (run_iterations (manager_loop_iteration s os now).state later).2
        info.hProcess = []) := by
  have hv := visit_dead os now info hdead
  have hh : info.hProcess ≠ 0 := (hwf.2.1 _ hmem).2
  have hrem : (visit os now info).remove = true := by rw [hv]
  have hgone := iteration_handle_released s os now hwf (k, info) hmem hrem
  refine ⟨?_, hgone, ?_, ?_, ?_, ?_⟩
  · have := iteration_find_entry s os now hwf (k, info) hmem
    simpa [hrem] using this
  · unfold closeCount
    rw [iteration_calls_entry s os now hwf (k, info) hmem _ (isCloseOn_handle info.hProcess)]
    by_cases hc : s.g_NtResumeProcess = true ∧ info.is_suspended = true
    · simp [hv, cleanup_calls _ os info hh, hc, List.filter, isCloseOn]
    · simp [hv, cleanup_calls _ os info hh, hc, List.filter, isCloseOn]
  · unfold suspendCalls
    rw [iteration_calls_entry s os now hwf (k, info) hmem _ (isSuspendOn_handle info.hProcess)]
    by_cases hc : s.g_NtResumeProcess = true ∧ info.is_suspended = true
    · simp [hv, cleanup_calls _ os info hh, hc, List.filter, isSuspendOn]
    · simp [hv, cleanup_calls _ os info hh, hc, List.filter, isSuspendOn]
  · unfold resumeCalls
    rw [iteration_calls_entry s os now hwf (k, info) hmem _ (isResumeOn_handle info.hProcess)]
    by_cases hc : s.g_NtResumeProcess = true ∧ info.is_suspended = true
    · simp [hv, cleanup_calls _ os info hh, hc, List.filter, isResumeOn]
    · simp [hv, cleanup_calls _ os info hh, hc, List.filter, isResumeOn]
  · intro later
    exact ⟨run_iterations_calls_absent _ later (iteration_wellFormed s os now hwf)
        info.hProcess hgone _ (isSuspendOn_handle info.hProcess),
      run_iterations_calls_absent _ later (iteration_wellFormed s os now hwf)
        info.hProcess hgone _ (isResumeOn_handle info.hProcess)⟩

/-- Witness for claim C7 (amended): process 42, Running, is found exited. -/
theorem exited_entry_dropped_witness :
    WellFormed addedState.g_managed_processes ∧
    mapFind (manager_loop_iteration addedState osExited 3).state.g_managed_processes 42
      = none ∧
    closeCount (manager_loop_iteration addedState osExited 3).calls 5 = 1 ∧
    suspendCalls (manager_loop_iteration addedState osExited 3).calls 5 = [] :=
  ⟨by decide!,
    (exited_entry_dropped addedState osExited 3 42 (ProcessInfo.mk 42 5 100 100 false 0)
      (by decide!) (by decide!) (by decide!)).1,
    (exited_entry_dropped addedState osExited 3 42 (ProcessInfo.mk 42 5 100 100 false 0)
      (by decide!) (by decide!) (by decide!)).2.2.1,
    (exited_entry_dropped addedState osExited 3 42 (ProcessInfo.mk 42 5 100 100 false 0)
      (by decide!) (by decide!) (by decide!)).2.2.2.1⟩

/-- Claim C8, refuted as stated: process 42 is Suspended with deadline 100 ms; at
the pass taken at 100 ms the resume is refused. The entry stays Suspended but its
deadline is moved to 200 ms, and a pass taken at 150 ms issues no resume for it. -/
theorem failed_resume_advances_deadline :
    mapFind suspendedState.g_managed_processes 42 =
      some (ProcessInfo.mk 42 5 100 100 true 100000000) ∧
    mapFind (manager_loop_iteration suspendedState osResumeDenied
        100000000).state.g_managed_processes 42 =
      some (ProcessInfo.mk 42 5 100 100 true 200000000) ∧
    (manager_loop_iteration (manager_loop_iteration suspendedState osResumeDenied
        100000000).state osAlive 150000000).calls = [OsCall.getExitCode 5 (some STILL_ACTIVE)]
    := by
  decide!

/-- Claim C8, amended. In one scheduler pass taken at `now`, an entry that is
alive, Suspended, due and whose resume is refused receives that one resume call,
stays in the registry in Suspended phase, and has its deadline moved to `now` plus
its resume duration (truncated to whole milliseconds). The resume is therefore
not retried by a pass taken before that new deadline, and is retried by the first
pass taken at or after it. -/
theorem failed_resume_keeps_suspended (s : State) (os : Os) (now : TimePoint)
    (k : DWORD) (info : ProcessInfo)
    (hwf : WellFormed s.g_managed_processes) (hmem : (k, info) ∈ s.g_managed_processes)
    (halive : os.GetExitCodeProcess info.hProcess = some STILL_ACTIVE)
    (hsusp : info.is_suspended = true) (hdue : now ≥ info.next_state_change_time)
    (hfail : os.NtResumeProcess info.hProcess ≠ 0) :
    mapFind (manager_loop_iteration s os now).state.g_managed_processes k =
      some { info with
        next_state_change_time := now + milliseconds (toLongLong info.resume_ms) } ∧
    resumeCalls (manager_loop_iteration s os now).calls info.hProcess =
      [OsCall.resume info.hProcess (os.NtResumeProcess info.hProcess)] ∧
    suspendCalls (manager_loop_iteration s os now).calls info.hProcess = [] ∧
    closeCount (manager_loop_iteration s os now).calls info.hProcess = 0 ∧
    (∀ (os1 : Os) (now1 : TimePoint),
      os1.GetExitCodeProcess info.hProcess = some STILL_ACTIVE →
      (now1 < now + milliseconds (toLongLong info.resume_ms) →
        resumeCalls (manager_loop_iteration (manager_loop_iteration s os now).state
          os1 now1).calls info.hProcess = []) ∧
      (now1 ≥ now + milliseconds (toLongLong info.resume_ms) →
        resumeCalls (manager_loop_iteration (manager_loop_iteration s os now).state
          os1 now1).calls info.hProcess =
          [OsCall.resume info.hProcess (os1.NtResumeProcess info.hProcess)])) := by
  have hv : visit os now info =
      ⟨{ info with
          next_state_change_time := now + milliseconds (toLongLong info.resume_ms) },
        false,
        [OsCall.getExitCode info.hProcess (some STILL_ACTIVE),
          OsCall.resume info.hProcess (os.NtResumeProcess info.hProcess)]⟩ := by
    rw [visit_resume os now info halive hdue hsusp]
    simp [hfail, hsusp]
  have hfind : mapFind (manager_loop_iteration s os now).state.g_managed_processes k =
      some { info with
        next_state_change_time := now + milliseconds (toLongLong info.resume_ms) } := by
    have := iteration_find_entry s os now hwf (k, info) hmem
    simpa [hv] using this
  refine ⟨hfind, ?_, ?_, ?_, ?_⟩
  · unfold resumeCalls
    rw [iteration_calls_entry s os now hwf (k, info) hmem _ (isResumeOn_handle info.hProcess)]
    simp [hv, List.filter, isResumeOn]
  · unfold suspendCalls
    rw [iteration_calls_entry s os now hwf (k, info) hmem _ (isSuspendOn_handle info.hProcess)]
    simp [hv, List.filter, isSuspendOn]
  · unfold closeCount
    rw [iteration_calls_entry s os now hwf (k, info) hmem _ (isCloseOn_handle info.hProcess)]
    simp [hv, List.filter, isCloseOn]
  · intro os1 now1 halive1
    have hwf1 := iteration_wellFormed s os now hwf
    obtain ⟨info1, hinfo1⟩ : ∃ i : ProcessInfo, i = { info with
        next_state_change_time := now + milliseconds (toLongLong info.resume_ms) } := ⟨_, rfl⟩
    rw [← hinfo1] at hfind
    have hh1 : info1.hProcess = info.hProcess := by rw [hinfo1]
    have hs1 : info1.is_suspended = true := by rw [hinfo1]; exact hsusp
    have hn1 : info1.next_state_change_time =
        now + milliseconds (toLongLong info.resume_ms) := by rw [hinfo1]
    have hmem1 := mem_of_mapFind_some hfind
    rw [← hh1] at halive1 ⊢
    have hcalls := iteration_calls_entry _ os1 now1 hwf1 (k, info1) hmem1 _
      (isResumeOn_handle info1.hProcess)
    unfold resumeCalls
    constructor
    · intro hbefore
      rw [← hn1] at hbefore
      rw [hcalls]
      dsimp only
      rw [visit_not_due os1 now1 info1 halive1 hbefore]
      simp [List.filter, isResumeOn]
    · intro hafter
      rw [← hn1] at hafter
      rw [hcalls]
      dsimp only
      rw [visit_resume os1 now1 info1 halive1 hafter hs1]
      simp [List.filter, isResumeOn]

/-- Witness for claim C8 (amended): process 42, Suspended with deadline 100 ms,
is refused its resume at 100 ms. -/
theorem failed_resume_keeps_suspended_witness :
    WellFormed suspendedState.g_managed_processes ∧
    mapFind (manager_loop_iteration suspendedState osResumeDenied
        100000000).state.g_managed_processes 42 =
      some (ProcessInfo.mk 42 5 100 100 true (100000000 + milliseconds (toLongLong 100))) ∧
    resumeCalls (manager_loop_iteration suspendedState osResumeDenied 100000000).calls 5 =
      [OsCall.resume 5 (-1073741790)] :=
  ⟨by decide!,
    (failed_resume_keeps_suspended suspendedState osResumeDenied 100000000 42
      (ProcessInfo.mk 42 5 100 100 true 100000000) (by decide!) (by decide!) (by decide!) rfl
      (by decide!) (by decide!)).1,
    (failed_resume_keeps_suspended suspendedState osResumeDenied 100000000 42
      (ProcessInfo.mk 42 5 100 100 true 100000000) (by decide!) (by decide!) (by decide!) rfl
      (by decide!) (by decide!)).2.1⟩

/-! ## StartLimiter with unresolved bindings -/

/-- Claim C9, refuted as stated: `StartLimiter` resolves neither function, so no
thread is launched; `AddProcess(42, 50)` then stores an entry all the same. -/
theorem AddProcess_accepts_without_scheduler :
    (StartLimiter initialState true false false).joinable = false ∧
    (StartLimiter initialState true false false).g_NtSuspendProcess = false ∧
    (AddProcess (StartLimiter initialState true false false) osAlive 0 42
      50).1.g_managed_processes = [(42, ProcessInfo.mk 42 5 100 100 false 0)] := by
  decide!

/-- Claim C9, amended. If after `StartLimiter` either function pointer is null,
the call launched no scheduler thread and left the registry as it was. `AddProcess`
does not look at the pointers: a later `AddProcess` of an unmanaged pid whose handle
can be opened stores its entry exactly as it would in any other state, and with no
thread `StopLimiter` returns at once, leaving that entry and its handle in place. -/
theorem StartLimiter_unresolved (s : State) (hNtdll suspendAddr resumeAddr : Bool)
    (hnull : (StartLimiter s hNtdll suspendAddr resumeAddr).g_NtSuspendProcess = false ∨
      (StartLimiter s hNtdll suspendAddr resumeAddr).g_NtResumeProcess = false) :
    (StartLimiter s hNtdll suspendAddr resumeAddr).joinable = s.joinable ∧
    (StartLimiter s hNtdll suspendAddr resumeAddr).g_managed_processes =
      s.g_managed_processes ∧
    (∀ (os : Os) (now : TimePoint) (pid : DWORD) (p : Int),
      mapFind s.g_managed_processes pid = none → os.OpenProcess pid ≠ 0 →
      (AddProcess (StartLimiter s hNtdll suspendAddr resumeAddr) os now pid
        p).1.g_managed_processes =
        mapAssign s.g_managed_processes pid
          (ProcessInfo.mk pid (os.OpenProcess pid) (stored_suspend_ms p) (stored_resume_ms p)
            false now) ∧
      (s.joinable = false → ∀ (inflight : Option (TimePoint × Os)) (os1 : Os),
        StopLimiter (AddProcess (StartLimiter s hNtdll suspendAddr resumeAddr) os now pid p).1
          inflight os1 =
          ((AddProcess (StartLimiter s hNtdll suspendAddr resumeAddr) os now pid p).1, []))) := by
  have hjoin : (StartLimiter s hNtdll suspendAddr resumeAddr).joinable = s.joinable := by
    obtain ⟨a, b, m, st, j⟩ := s
    cases a <;> cases b <;> cases j <;> cases hNtdll <;> cases suspendAddr <;>
      cases resumeAddr <;> simp [StartLimiter] at hnull ⊢
  have hreg : (StartLimiter s hNtdll suspendAddr resumeAddr).g_managed_processes =
      s.g_managed_processes := by
    obtain ⟨a, b, m, st, j⟩ := s
    cases a <;> cases b <;> cases j <;> cases hNtdll <;> cases suspendAddr <;>
      cases resumeAddr <;> simp [StartLimiter]
  refine ⟨hjoin, hreg, ?_⟩
  intro os now pid p hfree hopen
  have hfree1 : mapFind (StartLimiter s hNtdll suspendAddr resumeAddr).g_managed_processes
      pid = none := by rw [hreg]; exact hfree
  have hadd := AddProcess_accepts (StartLimiter s hNtdll suspendAddr resumeAddr) os now pid p
    hfree1 hopen
  constructor
  · rw [hadd, hreg]
  · intro hidle inflight os1
    have hj1 : (AddProcess (StartLimiter s hNtdll suspendAddr resumeAddr) os now pid
        p).1.joinable = false := by
      rw [hadd]
      simpa [hidle] using hjoin
    unfold StopLimiter
    simp [hj1]

/-- Witness for claim C9 (amended): neither function is resolved at program
load, then `AddProcess(42, 50)` is called. -/
theorem StartLimiter_unresolved_witness :
    (StartLimiter initialState true false false).joinable = initialState.joinable ∧
    (StartLimiter initialState true false false).g_managed_processes =
      initialState.g_managed_processes ∧
    (AddProcess (StartLimiter initialState true false false) osAlive 0 42
      50).1.g_managed_processes =
      mapAssign initialState.g_managed_processes 42
        (ProcessInfo.mk 42 (osAlive.OpenProcess 42) (stored_suspend_ms 50)
          (stored_resume_ms 50) false 0) :=
  ⟨(StartLimiter_unresolved initialState true false false (Or.inl (by decide))).1,
    (StartLimiter_unresolved initialState true false false (Or.inl (by decide))).2.1,
    ((StartLimiter_unresolved initialState true false false (Or.inl (by decide))).2.2
      osAlive 0 42 50 rfl (by decide)).1⟩

/-! ## Reachable states are consistent -/

theorem wellFormed_sublist {m1 m2 : Registry} (hsub : List.Sublist m1 m2)
    (hwf : WellFormed m2) : WellFormed m1 :=
  ⟨List.Pairwise.sublist (List.Sublist.map _ hsub) hwf.1,
    fun e he => hwf.2.1 e (hsub.subset he),
    List.Nodup.sublist (List.Sublist.map _ hsub) hwf.2.2⟩

theorem mem_mapAssign {m : Registry} {pid : DWORD} {info : ProcessInfo}
    {e : DWORD × ProcessInfo} (h : e ∈ mapAssign m pid info) : e = (pid, info) ∨ e ∈ m := by
  induction m with
  | nil =>
    simp only [mapAssign, List.mem_singleton] at h
    exact Or.inl h
  | cons x rest ih =>
    obtain ⟨k, v⟩ := x
    unfold mapAssign at h
    split_ifs at h with h1 h2
    · rcases List.mem_cons.mp h with h | h
      · exact Or.inl h
      · exact Or.inr h
    · rcases List.mem_cons.mp h with h | h
      · exact Or.inl (by rw [h, h2])
      · exact Or.inr (List.mem_cons_of_mem _ h)
    · rcases List.mem_cons.mp h with h | h
      · exact Or.inr (by rw [h]; exact List.mem_cons_self _ _)
      · rcases ih h with h | h
        · exact Or.inl h
        · exact Or.inr (List.mem_cons_of_mem _ h)

theorem mapAssign_perm (m : Registry) (pid : DWORD) (info : ProcessInfo)
    (hfree : mapFind m pid = none) : List.Perm (mapAssign m pid info) ((pid, info) :: m) := by
  induction m with
  | nil => exact List.Perm.refl _
  | cons x rest ih =>
    obtain ⟨k, v⟩ := x
    have hk : k ≠ pid := (mapFind_eq_none_iff _ _).mp hfree (k, v) (List.mem_cons_self _ _)
    have hrest : mapFind rest pid = none := by
      simpa [mapFind, hk] using hfree
    unfold mapAssign
    split_ifs with h1 h2
    · exact List.Perm.refl _
    · exact absurd h2.symm hk
    · exact List.Perm.trans (List.Perm.cons _ (ih hrest)) (List.Perm.swap _ _ _)

theorem mapAssign_sorted (m : Registry) (pid : DWORD) (info : ProcessInfo)
    (hsorted : (keys m).Pairwise (fun a b => a < b)) :
    (keys (mapAssign m pid info)).Pairwise (fun a b => a < b) := by
  induction m with
  | nil => simp [mapAssign, keys]
  | cons x rest ih =>
    obtain ⟨k, v⟩ := x
    simp only [keys, List.map_cons, List.pairwise_cons] at hsorted
    obtain ⟨hhead, htail⟩ := hsorted
    unfold mapAssign
    split_ifs with h1 h2
    · simp only [keys, List.map_cons, List.pairwise_cons, List.mem_cons]
      refine ⟨?_, hhead, htail⟩
      intro a ha
      rcases ha with ha | ha
      · rw [ha]; exact h1
      · exact lt_trans h1 (hhead a ha)
    · simp only [keys, List.map_cons, List.pairwise_cons]
      exact ⟨hhead, htail⟩
    · simp only [keys, List.map_cons, List.pairwise_cons]
      refine ⟨?_, ih htail⟩
      intro a ha
      obtain ⟨e, he, hea⟩ := List.mem_map.mp ha
      rcases mem_mapAssign he with h | h
      · rw [← hea, h]
        exact lt_of_le_of_ne (not_lt.mp h1) (fun hkp => h2 hkp.symm)
      · rw [← hea]
        exact hhead e.1 (mem_keys_of_mem h)

theorem wellFormed_mapAssign (m : Registry) (pid : DWORD) (info : ProcessInfo)
    (hwf : WellFormed m) (hfree : mapFind m pid = none) (hpid : info.pid = pid)
    (hh : info.hProcess ≠ 0) (hfresh : info.hProcess ∉ handles m) :
    WellFormed (mapAssign m pid info) := by
  refine ⟨mapAssign_sorted m pid info hwf.1, ?_, ?_⟩
  · intro e he
    rcases mem_mapAssign he with h | h
    · rw [h]
      exact ⟨hpid, hh⟩
    · exact hwf.2.1 e h
  · have hperm := List.Perm.map (fun e : DWORD × ProcessInfo => e.2.hProcess)
      (mapAssign_perm m pid info hfree)
    unfold handles
    rw [List.Perm.nodup_iff hperm]
    exact List.nodup_cons.mpr ⟨hfresh, hwf.2.2⟩

theorem mapErase_sublist (m : Registry) (pid : DWORD) : List.Sublist (mapErase m pid) m := by
  induction m with
  | nil => exact List.Sublist.refl _
  | cons x rest ih =>
    obtain ⟨k, v⟩ := x
    unfold mapErase
    split_ifs
    · exact List.sublist_cons_self _ _
    · exact List.Sublist.cons₂ _ ih

theorem StartLimiter_consistent (s : State) (hNtdll suspendAddr resumeAddr : Bool)
    (h : Consistent s) : Consistent (StartLimiter s hNtdll suspendAddr resumeAddr) := by
  obtain ⟨a, b, m, st, j⟩ := s
  obtain ⟨hwf, hbound, hidle⟩ := h
  cases a <;> cases b <;> cases j <;> cases hNtdll <;> cases suspendAddr <;>
    cases resumeAddr <;> simp [StartLimiter, Consistent] at hbound hidle ⊢ <;>
    first | exact hwf | exact ⟨hwf, hidle⟩

theorem iteration_flags (s : State) (os : Os) (now : TimePoint) :
    (manager_loop_iteration s os now).state.joinable = s.joinable ∧
    (manager_loop_iteration s os now).state.g_NtSuspendProcess = s.g_NtSuspendProcess ∧
    (manager_loop_iteration s os now).state.g_NtResumeProcess = s.g_NtResumeProcess := by
  unfold manager_loop_iteration
  simp only
  split_ifs <;> exact ⟨rfl, rfl, rfl⟩

theorem iteration_consistent (s : State) (os : Os) (now : TimePoint)
    (h : Consistent s) (hjoin : s.joinable = true) :
    Consistent (manager_loop_iteration s os now).state := by
  obtain ⟨hj, hs, hr⟩ := iteration_flags s os now
  refine ⟨iteration_wellFormed s os now h.1, ?_, ?_⟩
  · intro _
    rw [hs, hr]
    exact h.2.1 hjoin
  · intro hidle
    rw [hj, hjoin] at hidle
    exact absurd hidle (by simp)

theorem StopLimiter_consistent (s : State) (inflight : Option (TimePoint × Os)) (os : Os)
    (h : Consistent s) : Consistent (StopLimiter s inflight os).1 := by
  unfold StopLimiter
  by_cases hj : s.joinable = true
  · simp only [hj, Bool.not_true, Bool.false_eq_true, if_false]
    refine ⟨?_, ?_, ?_⟩
    · exact ⟨List.Pairwise.nil, fun e he => absurd he (List.not_mem_nil _), List.nodup_nil⟩
    · intro hjt
      simp at hjt
    · intro _ e he
      exact absurd he (List.not_mem_nil _)
  · simp only [hj, Bool.not_false, if_true]
    simpa using h

theorem AddProcess_consistent (s : State) (os : Os) (now : TimePoint) (pid : DWORD) (p : Int)
    (h : Consistent s) (hfresh : os.OpenProcess pid ∉ handles s.g_managed_processes) :
    Consistent (AddProcess s os now pid p).1 := by
  by_cases hrej : (mapFind s.g_managed_processes pid).isSome = true ∨ os.OpenProcess pid = 0
  · have hsame : (AddProcess s os now pid p).1 = s := by
      unfold AddProcess
      rcases hrej with h1 | h1
      · simp [h1]
      · by_cases hk : (mapFind s.g_managed_processes pid).isSome = true
        · simp [hk]
        · simp [hk, h1]
    rw [hsame]
    exact h
  · have hfree : mapFind s.g_managed_processes pid = none := by
      cases hf : mapFind s.g_managed_processes pid with
      | none => rfl
      | some v => exact absurd (Or.inl (by simp [hf])) hrej
    have hopen : os.OpenProcess pid ≠ 0 := fun h0 => hrej (Or.inr h0)
    rw [AddProcess_accepts s os now pid p hfree hopen]
    refine ⟨wellFormed_mapAssign _ pid _ h.1 hfree rfl hopen hfresh, h.2.1, ?_⟩
    intro hidle e he
    rcases mem_mapAssign he with h1 | h1
    · rw [h1]
    · exact h.2.2 hidle e h1

theorem RemoveProcess_consistent (s : State) (os : Os) (pid : DWORD) (h : Consistent s) :
    Consistent (RemoveProcess s os pid).1 := by
  unfold RemoveProcess
  cases hf : mapFind s.g_managed_processes pid with
  | none => simpa using h
  | some info =>
    refine ⟨wellFormed_sublist (mapErase_sublist _ pid) h.1, h.2.1, ?_⟩
    intro hidle e he
    exact h.2.2 hidle e ((mapErase_sublist _ pid).subset he)

/-- Every reachable state is consistent. -/
theorem reachable_consistent (s : State) (h : Reachable s) : Consistent s := by
  induction h with
  | load =>
    exact ⟨⟨List.Pairwise.nil, fun e he => absurd he (List.not_mem_nil _), List.nodup_nil⟩,
      fun hj => by simp [initialState] at hj,
      fun _ e he => absurd he (List.not_mem_nil _)⟩
  | start s a b c _ ih => exact StartLimiter_consistent s a b c ih
  | stop s inflight os _ ih => exact StopLimiter_consistent s inflight os ih
  | add s os now pid p _ hfresh ih => exact AddProcess_consistent s os now pid p ih hfresh
  | remove s os pid _ ih => exact RemoveProcess_consistent s os pid ih
  | pass s os now _ hjoin ih => exact iteration_consistent s os now ih hjoin

/-! ## StopLimiter -/

theorem drain_eq_flatMap (resumeBound : Bool) (os : Os) (m : Registry) :
    drain resumeBound os m =
      m.flatMap (fun e => (cleanup_and_resume_process resumeBound os e.2).2) := by
  induction m with
  | nil => rfl
  | cons e rest ih =>
    obtain ⟨k, v⟩ := e
    simp only [drain, List.flatMap_cons, ih]

theorem onHandle_handle (h : HANDLE) (c : OsCall) (hc : onHandle h c = true) :
    callHandle c = some h := by
  simpa [onHandle] using hc

theorem outstanding_filter (h : HANDLE) (calls : List OsCall) (n : Nat) :
    outstanding h calls n = outstanding h (calls.filter (onHandle h)) n := by
  induction calls generalizing n with
  | nil => rfl
  | cons c rest ih =>
    cases c with
    | openProcess pid r =>
      simp only [outstanding, List.filter, onHandle, callHandle]
      simpa using ih n
    | getExitCode h1 r =>
      by_cases hh : h1 = h
      · simp only [outstanding, List.filter, onHandle, callHandle, hh]
        simpa [outstanding] using ih n
      · have : ¬ some h1 = some h := fun hs => hh (Option.some.inj hs)
        simp only [outstanding, List.filter, onHandle, callHandle, this]
        simpa using ih n
    | suspend h1 st =>
      by_cases hh : h1 = h
      · simp only [outstanding, List.filter, onHandle, callHandle, hh]
        simpa [outstanding] using ih _
      · have : ¬ some h1 = some h := fun hs => hh (Option.some.inj hs)
        simp only [outstanding, List.filter, onHandle, callHandle, this, hh, false_and, if_false]
        simpa using ih n
    | resume h1 st =>
      by_cases hh : h1 = h
      · simp only [outstanding, List.filter, onHandle, callHandle, hh]
        simpa [outstanding] using ih _
      · have : ¬ some h1 = some h := fun hs => hh (Option.some.inj hs)
        simp only [outstanding, List.filter, onHandle, callHandle, this, hh, false_and, if_false]
        simpa using ih n
    | closeHandle h1 =>
      by_cases hh : h1 = h
      · simp only [outstanding, List.filter, onHandle, callHandle, hh]
        simpa [outstanding] using ih n
      · have : ¬ some h1 = some h := fun hs => hh (Option.some.inj hs)
        simp only [outstanding, List.filter, onHandle, callHandle, this]
        simpa using ih n

/-- Calls of a pass followed by the final loop of `StopLimiter` that act on the
handle of a given entry: those of its visit, those of its cleanup by the pass if
the visit marked it, else those of its cleanup by the final loop. -/
theorem pass_then_drain_calls_entry (s : State) (os1 : Os) (now1 : TimePoint) (os : Os)
    (hwf : WellFormed s.g_managed_processes)
    (e0 : DWORD × ProcessInfo) (hmem : e0 ∈ s.g_managed_processes) (Q : OsCall → Bool)
    (hQ : ∀ c, Q c = true → callHandle c = some e0.2.hProcess) :
    ((manager_loop_iteration s os1 now1).calls ++
      drain (manager_loop_iteration s os1 now1).state.g_NtResumeProcess os
        (manager_loop_iteration s os1 now1).state.g_managed_processes).filter Q =
      ((visit os1 now1 e0.2).calls ++
        (if (visit os1 now1 e0.2).remove = true then
          (cleanup_and_resume_process s.g_NtResumeProcess os1 e0.2).2
        else
          (cleanup_and_resume_process s.g_NtResumeProcess os
            (visit os1 now1 e0.2).info).2)).filter Q := by
  have hit := iteration_calls_entry s os1 now1 hwf e0 hmem Q hQ
  have hfl := (iteration_flags s os1 now1).2.2
  have hwf1 := iteration_wellFormed s os1 now1 hwf
  rw [List.filter_append, drain_eq_flatMap, hit, List.filter_append, hfl, List.filter_append,
    List.append_assoc]
  congr 1
  by_cases hr : (visit os1 now1 e0.2).remove = true
  · simp only [hr, if_true]
    have hgone := iteration_handle_released s os1 now1 hwf e0 hmem hr
    rw [filter_flatMap_absent _ _ Q e0.2.hProcess
      (fun e _ => cleanup_calls_handle _ os e.2) hQ hgone, List.append_nil]
  · simp only [hr, if_false, List.filter_nil, List.nil_append]
    have hfind := iteration_find_entry s os1 now1 hwf e0 hmem
    rw [if_neg hr] at hfind
    have hmem1 := mem_of_mapFind_some hfind
    have hQ1 : ∀ c, Q c = true →
        callHandle c = some (e0.1, (visit os1 now1 e0.2).info).2.hProcess := by
      intro c hc
      rw [hQ c hc]
      exact congrArg some (visit_hProcess os1 now1 e0.2).symm
    exact filter_flatMap_entry _ _ Q _ (fun e _ => cleanup_calls_handle _ os e.2) hQ1
      hwf1.2.2 hmem1

/-- Calls of `StopLimiter`, with a running thread, that act on the handle of a
given entry. -/
theorem StopLimiter_calls_entry (s : State) (inflight : Option (TimePoint × Os)) (os : Os)
    (hwf : WellFormed s.g_managed_processes) (hjoin : s.joinable = true)
    (e0 : DWORD × ProcessInfo) (hmem : e0 ∈ s.g_managed_processes) (Q : OsCall → Bool)
    (hQ : ∀ c, Q c = true → callHandle c = some e0.2.hProcess) :
    (StopLimiter s inflight os).2.filter Q =
      (match inflight with
        | none => (cleanup_and_resume_process s.g_NtResumeProcess os e0.2).2
        | some (now1, os1) =>
          (visit os1 now1 e0.2).calls ++
            (if (visit os1 now1 e0.2).remove = true then
              (cleanup_and_resume_process s.g_NtResumeProcess os1 e0.2).2
            else
              (cleanup_and_resume_process s.g_NtResumeProcess os
                (visit os1 now1 e0.2).info).2)).filter Q := by
  unfold StopLimiter
  rw [if_neg (by simp [hjoin])]
  cases inflight with
  | none =>
    simp only [List.nil_append, drain_eq_flatMap]
    exact filter_flatMap_entry _ _ Q e0 (fun e _ => cleanup_calls_handle _ os e.2) hQ
      hwf.2.2 hmem
  | some x =>
    obtain ⟨now1, os1⟩ := x
    exact pass_then_drain_calls_entry { s with g_should_stop := true } os1 now1 os hwf e0 hmem
      Q hQ

theorem visit_calls_kind (os : Os) (now : TimePoint) (info : ProcessInfo) :
    ∀ c ∈ (visit os now info).calls,
      isCloseOn info.hProcess c = false ∧ onHandle info.hProcess c = true := by
  unfold visit
  simp only
  intro c hc
  split_ifs at hc <;> simp at hc <;> rcases hc with rfl | rfl <;>
    simp [isCloseOn, onHandle, callHandle]

theorem cleanup_shape (resumeBound : Bool) (os : Os) (info : ProcessInfo)
    (hh : info.hProcess ≠ 0) :
    ∃ pre, (cleanup_and_resume_process resumeBound os info).2 =
        pre ++ [OsCall.closeHandle info.hProcess] ∧
      ∀ c ∈ pre, isCloseOn info.hProcess c = false ∧ onHandle info.hProcess c = true := by
  refine ⟨_, cleanup_calls resumeBound os info hh, ?_⟩
  intro c hc
  split_ifs at hc
  · simp at hc
    subst hc
    simp [isCloseOn, onHandle, callHandle]
  · simp at hc

/-- Shape of the calls of `StopLimiter` on the handle of one entry: calls that
are not closes, then the close of the handle. -/
theorem stop_entry_shape (resumeBound : Bool) (os : Os) (inflight : Option (TimePoint × Os))
    (info : ProcessInfo) (hh : info.hProcess ≠ 0) :
    ∃ pre,
      (match inflight with
        | none => (cleanup_and_resume_process resumeBound os info).2
        | some (now1, os1) =>
          (visit os1 now1 info).calls ++
            (if (visit os1 now1 info).remove = true then
              (cleanup_and_resume_process resumeBound os1 info).2
            else
              (cleanup_and_resume_process resumeBound os (visit os1 now1 info).info).2)) =
        pre ++ [OsCall.closeHandle info.hProcess] ∧
      ∀ c ∈ pre, isCloseOn info.hProcess c = false ∧ onHandle info.hProcess c = true := by
  cases inflight with
  | none => exact cleanup_shape resumeBound os info hh
  | some x =>
    obtain ⟨now1, os1⟩ := x
    simp only
    by_cases hr : (visit os1 now1 info).remove = true
    · obtain ⟨pre, hpre, hall⟩ := cleanup_shape resumeBound os1 info hh
      refine ⟨(visit os1 now1 info).calls ++ pre, ?_, ?_⟩
      · rw [if_pos hr, hpre, List.append_assoc]
      · intro c hc
        rcases List.mem_append.mp hc with h | h
        · exact visit_calls_kind os1 now1 info c h
        · exact hall c h
    · have hh1 : (visit os1 now1 info).info.hProcess ≠ 0 := by
        rw [visit_hProcess]
        exact hh
      obtain ⟨pre, hpre, hall⟩ := cleanup_shape resumeBound os (visit os1 now1 info).info hh1
      rw [visit_hProcess] at hpre hall
      refine ⟨(visit os1 now1 info).calls ++ pre, ?_, ?_⟩
      · rw [if_neg hr, hpre, List.append_assoc]
      · intro c hc
        rcases List.mem_append.mp hc with h | h
        · exact visit_calls_kind os1 now1 info c h
        · exact hall c h

theorem filter_shape_close (pre : List OsCall) (h : HANDLE)
    (hall : ∀ c ∈ pre, isCloseOn h c = false ∧ onHandle h c = true) :
    ((pre ++ [OsCall.closeHandle h]).filter (isCloseOn h)).length = 1 ∧
    ((pre ++ [OsCall.closeHandle h]).filter (onHandle h)).getLast? =
      some (OsCall.closeHandle h) := by
  have h1 : pre.filter (isCloseOn h) = [] := by
    rw [List.filter_eq_nil_iff]
    intro c hc
    simp [(hall c hc).1]
  have h2 : pre.filter (onHandle h) = pre :=
    List.filter_eq_self.mpr (fun c hc => (hall c hc).2)
  constructor
  · rw [List.filter_append, h1]
    simp [List.filter, isCloseOn]
  · rw [List.filter_append, h2]
    simp [List.filter, onHandle, callHandle]

/-- Calls of `StopLimiter` on the handle of an entry that was Suspended, with the
resume pointer bound: a resume is among them, and if the resumes are granted no
suspend is left outstanding. -/
theorem stop_entry_suspended (os : Os) (inflight : Option (TimePoint × Os))
    (info : ProcessInfo) (hh : info.hProcess ≠ 0) (hsusp : info.is_suspended = true) :
    ((match inflight with
        | none => (cleanup_and_resume_process true os info).2
        | some (now1, os1) =>
          (visit os1 now1 info).calls ++
            (if (visit os1 now1 info).remove = true then
              (cleanup_and_resume_process true os1 info).2
            else
              (cleanup_and_resume_process true os (visit os1 now1 info).info).2)).filter
        (isResumeOn info.hProcess) ≠ []) ∧
    (os.NtResumeProcess info.hProcess = 0 →
      (∀ now1 os1, inflight = some (now1, os1) → os1.NtResumeProcess info.hProcess = 0) →
      outstanding info.hProcess
        (match inflight with
          | none => (cleanup_and_resume_process true os info).2
          | some (now1, os1) =>
            (visit os1 now1 info).calls ++
              (if (visit os1 now1 info).remove = true then
                (cleanup_and_resume_process true os1 info).2
              else
                (cleanup_and_resume_process true os (visit os1 now1 info).info).2)) 1 = 0) := by
  cases inflight with
  | none =>
    simp only [cleanup_calls true os info hh, hsusp]
    constructor
    · simp [List.filter, isResumeOn]
    · intro hok _
      simp [outstanding, hok]
  | some x =>
    obtain ⟨now1, os1⟩ := x
    simp only
    by_cases hdead : os1.GetExitCodeProcess info.hProcess ≠ some STILL_ACTIVE
    · rw [visit_dead os1 now1 info hdead]
      simp only [if_true, cleanup_calls true os1 info hh, hsusp]
      constructor
      · simp [List.filter, isResumeOn]
      · intro _ hok1
        have := hok1 now1 os1 rfl
        simp [outstanding, this]
    · have halive : os1.GetExitCodeProcess info.hProcess = some STILL_ACTIVE :=
        not_not.mp hdead
      by_cases hdue : now1 ≥ info.next_state_change_time
      · rw [visit_resume os1 now1 info halive hdue hsusp]
        constructor
        · simp [List.filter, isResumeOn]
        · intro hok hok1
          have h1 := hok1 now1 os1 rfl
          simp [outstanding, h1, hok, cleanup_and_resume_process, hh]
      · rw [visit_not_due os1 now1 info halive (not_le.mp hdue)]
        simp only [Bool.false_eq_true, if_false, cleanup_calls true os info hh, hsusp]
        constructor
        · simp [List.filter, isResumeOn]
        · intro hok _
          simp [outstanding, hok]

theorem addedState_reachable : Reachable addedState :=
  Reachable.add startedState osAlive 0 42 50
    (Reachable.start initialState true true true Reachable.load) (by decide)

theorem suspendedState_reachable : Reachable suspendedState :=
  Reachable.pass addedState osAlive 0 addedState_reachable (by decide!)

/-- Claim C5, refuted as stated: `AddProcess(42, 50)` at program load, with no
scheduler thread, reaches a state from which `StopLimiter` returns at once on line
135: the registry still holds the entry, whose handle is open and was never
closed. -/
theorem StopLimiter_returns_early_without_thread :
    Reachable (AddProcess initialState osAlive 0 42 50).1 ∧
    (AddProcess initialState osAlive 0 42 50).1.joinable = false ∧
    (AddProcess initialState osAlive 0 42 50).1.g_managed_processes =
      [(42, ProcessInfo.mk 42 5 100 100 false 0)] ∧
    StopLimiter (AddProcess initialState osAlive 0 42 50).1 none osAlive =
      ((AddProcess initialState osAlive 0 42 50).1, []) ∧
    (StopLimiter (AddProcess initialState osAlive 0 42 50).1 none osAlive).1.g_managed_processes
      ≠ [] ∧
    openAfter ((AddProcess initialState osAlive 0 42 50).2 ++
      (StopLimiter (AddProcess initialState osAlive 0 42 50).1 none osAlive).2) [] = [5] :=
  ⟨Reachable.add initialState osAlive 0 42 50 Reachable.load (by decide), by decide!,
    by decide!, by decide!, by decide!, by decide!⟩

/-- Claim C5, amended. From a reachable state with no scheduler thread,
`StopLimiter` returns at once and changes nothing. From a reachable state with the
thread running, when `StopLimiter` returns the registry is empty and the thread is
joined; the handle of every entry held at the call has been closed exactly once,
that close being the last call on it; and for every entry that was Suspended at the
call a resume was issued on its handle, hence before that close. -/
theorem StopLimiter_drains (s : State) (inflight : Option (TimePoint × Os)) (os : Os)
    (hreach : Reachable s) :
    (s.joinable = false → StopLimiter s inflight os = (s, [])) ∧
    (s.joinable = true →
      (StopLimiter s inflight os).1.g_managed_processes = [] ∧
      (StopLimiter s inflight os).1.joinable = false ∧
      ∀ (k : DWORD) (info : ProcessInfo), (k, info) ∈ s.g_managed_processes →
        closeCount (StopLimiter s inflight os).2 info.hProcess = 1 ∧
        ((StopLimiter s inflight os).2.filter (onHandle info.hProcess)).getLast? =
          some (OsCall.closeHandle info.hProcess) ∧
        (info.is_suspended = true →
          resumeCalls (StopLimiter s inflight os).2 info.hProcess ≠ [])) := by
  obtain ⟨hwf, hbound, _⟩ := reachable_consistent s hreach
  constructor
  · intro hidle
    unfold StopLimiter
    simp [hidle]
  · intro hjoin
    have hb : s.g_NtResumeProcess = true := (hbound hjoin).2
    refine ⟨?_, ?_, ?_⟩
    · unfold StopLimiter
      simp [hjoin]
    · unfold StopLimiter
      simp [hjoin]
    · intro k info hmem
      have hh : info.hProcess ≠ 0 := (hwf.2.1 _ hmem).2
      obtain ⟨pre, hpre, hall⟩ := stop_entry_shape s.g_NtResumeProcess os inflight info hh
      have hshape := filter_shape_close pre info.hProcess hall
      refine ⟨?_, ?_, ?_⟩
      · unfold closeCount
        rw [StopLimiter_calls_entry s inflight os hwf hjoin (k, info) hmem _
          (isCloseOn_handle info.hProcess)]
        dsimp only
        rw [hpre]
        exact hshape.1
      · rw [StopLimiter_calls_entry s inflight os hwf hjoin (k, info) hmem _
          (onHandle_handle info.hProcess)]
        dsimp only
        rw [hpre]
        exact hshape.2
      · intro hsusp
        have hs := stop_entry_suspended os inflight info hh hsusp
        unfold resumeCalls
        rw [StopLimiter_calls_entry s inflight os hwf hjoin (k, info) hmem _
          (isResumeOn_handle info.hProcess), hb]
        exact hs.1

/-- Witness for claim C5 (amended): `StopLimiter` from the reachable state in
which process 42 is Suspended, no pass in flight. -/
theorem StopLimiter_drains_witness :
    Reachable suspendedState ∧
    (StopLimiter suspendedState none osAlive).1.g_managed_processes = [] ∧
    closeCount (StopLimiter suspendedState none osAlive).2 5 = 1 ∧
    resumeCalls (StopLimiter suspendedState none osAlive).2 5 ≠ [] :=
  ⟨suspendedState_reachable,
    ((StopLimiter_drains suspendedState none osAlive suspendedState_reachable).2
      (by decide!)).1,
    (((StopLimiter_drains suspendedState none osAlive suspendedState_reachable).2
      (by decide!)).2.2 42 (ProcessInfo.mk 42 5 100 100 true 100000000) (by decide!)).1,
    (((StopLimiter_drains suspendedState none osAlive suspendedState_reachable).2
      (by decide!)).2.2 42 (ProcessInfo.mk 42 5 100 100 true 100000000) (by decide!)).2.2
      (by decide!)⟩

/-! ## Bounds on rounding to `double` -/

theorem roundNearestEven_ge (n d : Nat) : n / d ≤ roundNearestEven n d := by
  unfold roundNearestEven
  simp only
  split_ifs <;> omega

theorem ilog2_spec (f n : Nat) (hn : 1 ≤ n) (hf : n ≤ f) :
    2 ^ ilog2 f n ≤ n ∧ n < 2 ^ (ilog2 f n + 1) := by
  induction f generalizing n with
  | zero => omega
  | succ f ih =>
    unfold ilog2
    by_cases h2 : n < 2
    · simp only [h2, if_true]
      have : n = 1 := by omega
      subst this
      simp
    · simp only [h2, if_false]
      obtain ⟨h1, h3⟩ := ih (n / 2) (by omega) (by omega)
      rw [pow_succ] at h3 ⊢
      rw [pow_succ]
      constructor <;> omega

theorem two_zpow_split (e : Int) :
    (2 : ℚ) ^ e = (2 : ℚ) ^ e.toNat / (2 : ℚ) ^ (-e).toNat := by
  rcases le_or_lt 0 e with h | h
  · have h1 : (-e).toNat = 0 := by omega
    have h2 : (e.toNat : Int) = e := Int.toNat_of_nonneg h
    rw [h1, pow_zero, div_one, ← zpow_natCast, h2]
  · have h1 : e.toNat = 0 := by omega
    have h2 : ((-e).toNat : Int) = -e := Int.toNat_of_nonneg (by omega)
    rw [h1, pow_zero, one_div, ← zpow_natCast, h2, zpow_neg, inv_inv]

theorem binaryExponent_le (n d : Nat) (hn : 0 < n) (hd : 0 < d) :
    (2 : ℚ) ^ binaryExponent n d ≤ (n : ℚ) / (d : ℚ) := by
  obtain ⟨ha, _⟩ := ilog2_spec n n hn (le_refl _)
  obtain ⟨_, hb⟩ := ilog2_spec d d hd (le_refl _)
  have hdq : (0 : ℚ) < d := by exact_mod_cast hd
  unfold binaryExponent
  simp only
  split_ifs with htest
  · have h1 : (2 : ℚ) ^ ((ilog2 n n : Int) - (ilog2 d d : Int) - 1) =
        (2 : ℚ) ^ (ilog2 n n) / (2 : ℚ) ^ (ilog2 d d + 1) := by
      rw [show ((ilog2 n n : Int) - (ilog2 d d : Int) - 1) =
        (ilog2 n n : Int) - ((ilog2 d d + 1 : Nat) : Int) by push_cast; ring]
      rw [zpow_sub₀ (by norm_num), zpow_natCast, zpow_natCast]
    rw [h1, div_le_div_iff₀ (by positivity) hdq]
    have haq : (2 : ℚ) ^ ilog2 n n ≤ n := by exact_mod_cast ha
    have hbq : (d : ℚ) ≤ 2 ^ (ilog2 d d + 1) := by exact_mod_cast hb.le
    calc (2 : ℚ) ^ ilog2 n n * d ≤ n * d := by gcongr
      _ ≤ n * 2 ^ (ilog2 d d + 1) := by gcongr
  · rw [two_zpow_split, div_le_div_iff₀ (by positivity) hdq]
    have := not_lt.mp htest
    rw [mul_comm]
    exact_mod_cast this

theorem roundDouble_pos_eq (x : ℚ) (hx : 0 < x) :
    roundDouble x =
      (roundNearestEven (x.num.natAbs * 2 ^ (-(binaryExponent x.num.natAbs x.den - 52)).toNat)
        (x.den * 2 ^ (binaryExponent x.num.natAbs x.den - 52).toNat) : ℚ) *
      (2 : ℚ) ^ (binaryExponent x.num.natAbs x.den - 52) := by
  unfold roundDouble
  simp [ne_of_gt hx, not_lt.mpr hx.le]

theorem rat_eq_natAbs_div (x : ℚ) (hx : 0 < x) : x = (x.num.natAbs : ℚ) / (x.den : ℚ) := by
  have hnum : 0 < x.num := Rat.num_pos.mpr hx
  have h1 : (x.num.natAbs : Int) = x.num := Int.natAbs_of_nonneg hnum.le
  have h2 : (x.num.natAbs : ℚ) = (x.num : ℚ) := by
    have : ((x.num.natAbs : Int) : ℚ) = (x.num : ℚ) := congrArg (fun z : Int => (z : ℚ)) h1
    rwa [Int.cast_natCast] at this
  rw [h2]
  exact (Rat.num_div_den x).symm

/-- An integer below the scaled significand is below its rounding. -/
theorem le_roundNearestEven (a n d : Nat) (hd : 0 < d) (h : (a : ℚ) ≤ (n : ℚ) / (d : ℚ)) :
    a ≤ roundNearestEven n d := by
  have hdq : (0 : ℚ) < d := by exact_mod_cast hd
  have h1 : (a : ℚ) * d ≤ n := (le_div_iff₀ hdq).mp h
  have h2 : a * d ≤ n := by exact_mod_cast h1
  exact le_trans ((Nat.le_div_iff_mul_le hd).mpr h2) (roundNearestEven_ge n d)

theorem scaled_eq (x : ℚ) (hx : 0 < x) (e : Int) :
    ((x.num.natAbs * 2 ^ (-e).toNat : Nat) : ℚ) / ((x.den * 2 ^ e.toNat : Nat) : ℚ) =
      x * (2 : ℚ) ^ (-e) := by
  have hden : (0 : ℚ) < x.den := by exact_mod_cast x.den_pos
  rw [two_zpow_split (-e), neg_neg]
  push_cast
  nth_rewrite 3 [rat_eq_natAbs_div x hx]
  field_simp

/-- A value at least `T * 2^j`, with `T` below `2^53`, rounds to at least `T * 2^j`. -/
theorem le_roundDouble (x : ℚ) (T : Nat) (j : Int) (hT : T < 2 ^ 53)
    (hx0 : 0 < x) (h : (T : ℚ) * (2 : ℚ) ^ j ≤ x) :
    (T : ℚ) * (2 : ℚ) ^ j ≤ roundDouble x := by
  have hnum : 0 < x.num.natAbs := Int.natAbs_pos.mpr (ne_of_gt (Rat.num_pos.mpr hx0))
  have hk := binaryExponent_le x.num.natAbs x.den hnum x.den_pos
  rw [← rat_eq_natAbs_div x hx0] at hk
  rw [roundDouble_pos_eq x hx0]
  generalize he : binaryExponent x.num.natAbs x.den - 52 = e
  have hk' : (2 : ℚ) ^ (e + 52) ≤ x := by
    rw [← he]
    simpa using hk
  have hD : 0 < x.den * 2 ^ e.toNat := Nat.mul_pos x.den_pos (by positivity)
  have h2e : (0 : ℚ) < (2 : ℚ) ^ e := by positivity
  rcases le_or_lt e j with hej | hej
  · -- the bound is a multiple of the unit in the last place
    have hA : ((T * 2 ^ (j - e).toNat : Nat) : ℚ) ≤
        ((x.num.natAbs * 2 ^ (-e).toNat : Nat) : ℚ) / ((x.den * 2 ^ e.toNat : Nat) : ℚ) := by
      rw [scaled_eq x hx0 e]
      have hje : ((2 : ℚ) ^ (j - e).toNat) = (2 : ℚ) ^ j * (2 : ℚ) ^ (-e) := by
        rw [← zpow_natCast, Int.toNat_of_nonneg (by omega), ← zpow_add₀ (by norm_num)]
        congr 1
      push_cast
      rw [hje, ← mul_assoc]
      exact mul_le_mul_of_nonneg_right h (by positivity)
    have hm := le_roundNearestEven _ _ _ hD hA
    have hmq : ((T * 2 ^ (j - e).toNat : Nat) : ℚ) ≤
        (roundNearestEven (x.num.natAbs * 2 ^ (-e).toNat) (x.den * 2 ^ e.toNat) : ℚ) := by
      exact_mod_cast hm
    have hTj : (T : ℚ) * (2 : ℚ) ^ j = ((T * 2 ^ (j - e).toNat : Nat) : ℚ) * (2 : ℚ) ^ e := by
      push_cast
      rw [← zpow_natCast, Int.toNat_of_nonneg (by omega), mul_assoc,
        ← zpow_add₀ (by norm_num)]
      congr 2
      ring
    rw [hTj]
    exact mul_le_mul_of_nonneg_right hmq h2e.le
  · -- the value is at least twice the bound
    have hA : ((2 ^ 52 : Nat) : ℚ) ≤
        ((x.num.natAbs * 2 ^ (-e).toNat : Nat) : ℚ) / ((x.den * 2 ^ e.toNat : Nat) : ℚ) := by
      rw [scaled_eq x hx0 e]
      have : (2 : ℚ) ^ (e + 52) * (2 : ℚ) ^ (-e) = ((2 ^ 52 : Nat) : ℚ) := by
        rw [← zpow_add₀ (by norm_num)]
        norm_num
      rw [← this]
      exact mul_le_mul_of_nonneg_right hk' (by positivity)
    have hm := le_roundNearestEven _ _ _ hD hA
    have hmq : ((2 ^ 52 : Nat) : ℚ) ≤
        (roundNearestEven (x.num.natAbs * 2 ^ (-e).toNat) (x.den * 2 ^ e.toNat) : ℚ) := by
      exact_mod_cast hm
    have hTq : (T : ℚ) ≤ 2 ^ 53 := by exact_mod_cast hT.le
    have hpow : (2 : ℚ) ^ (j + 1) ≤ (2 : ℚ) ^ e :=
      zpow_le_zpow_right₀ (by norm_num) (by omega)
    calc (T : ℚ) * (2 : ℚ) ^ j ≤ 2 ^ 53 * (2 : ℚ) ^ j := by gcongr
      _ = ((2 ^ 52 : Nat) : ℚ) * (2 : ℚ) ^ (j + 1) := by
          rw [zpow_add₀ (by norm_num)]
          norm_num
          ring
      _ ≤ ((2 ^ 52 : Nat) : ℚ) * (2 : ℚ) ^ e := by gcongr
      _ ≤ _ := mul_le_mul_of_nonneg_right hmq h2e.le

theorem roundDouble_neg (x : ℚ) : roundDouble (-x) = -roundDouble x := by
  unfold roundDouble
  by_cases h0 : x = 0
  · simp [h0]
  · have hne : -x ≠ 0 := neg_ne_zero.mpr h0
    simp only [h0, hne, if_false, Rat.num_neg, Int.natAbs_neg, Rat.den_neg_eq_den, Left.neg_neg_iff]
    rcases lt_or_gt_of_ne h0 with hlt | hgt
    · simp [hlt, not_lt.mpr hlt.le]
    · simp [hgt, not_lt.mpr hgt.le]

theorem roundDouble_le_neg (x : ℚ) (T : Nat) (j : Int) (hT : T < 2 ^ 53)
    (hx0 : x < 0) (h : x ≤ -((T : ℚ) * (2 : ℚ) ^ j)) :
    roundDouble x ≤ -((T : ℚ) * (2 : ℚ) ^ j) := by
  have := le_roundDouble (-x) T j hT (by linarith) (by linarith)
  rw [roundDouble_neg] at this
  linarith


/-! ## Percentages outside the range -/

theorem raw_suspend_of_negative (p : Int) (hp : p < 0) :
    roundDouble (200 * roundDouble ((p : ℚ) / 100)) ≤ -1 := by
  have hpq : (p : ℚ) ≤ -1 := by exact_mod_cast (by omega : p ≤ -1)
  have hq : roundDouble ((p : ℚ) / 100) ≤ -(((1 : Nat) : ℚ) * (2 : ℚ) ^ (-7 : Int)) := by
    apply roundDouble_le_neg _ 1 (-7) (by norm_num)
    · linarith
    · norm_num
      linarith
  norm_num at hq
  have := roundDouble_le_neg (200 * roundDouble ((p : ℚ) / 100)) 1 0 (by norm_num)
    (by linarith) (by norm_num; linarith)
  simpa using this

theorem raw_resume_of_negative (p : Int) (hp : p < 0) :
    201 ≤ roundDouble (200 - roundDouble (200 * roundDouble ((p : ℚ) / 100))) := by
  have h := raw_suspend_of_negative p hp
  have := le_roundDouble (200 - roundDouble (200 * roundDouble ((p : ℚ) / 100))) 201 0
    (by norm_num) (by linarith) (by norm_num; linarith)
  simpa using this

theorem raw_suspend_of_above (p : Int) (hp : 100 < p) :
    201 ≤ roundDouble (200 * roundDouble ((p : ℚ) / 100)) := by
  have hpq : (101 : ℚ) ≤ (p : ℚ) := by exact_mod_cast (by omega : (101 : Int) ≤ p)
  have hq : ((129 : Nat) : ℚ) * (2 : ℚ) ^ (-7 : Int) ≤ roundDouble ((p : ℚ) / 100) := by
    apply le_roundDouble _ 129 (-7) (by norm_num)
    · linarith
    · norm_num
      linarith
  norm_num at hq
  have := le_roundDouble (200 * roundDouble ((p : ℚ) / 100)) 201 0 (by norm_num)
    (by linarith) (by norm_num; linarith)
  simpa using this

theorem raw_resume_of_above (p : Int) (hp : 100 < p) :
    roundDouble (200 - roundDouble (200 * roundDouble ((p : ℚ) / 100))) ≤ -1 := by
  have h := raw_suspend_of_above p hp
  have := roundDouble_le_neg (200 - roundDouble (200 * roundDouble ((p : ℚ) / 100))) 1 0
    (by norm_num) (by linarith) (by norm_num; linarith)
  simpa using this

/-- Claim C10, refuted as stated: `AddProcess(42, -50)` is accepted and stores
the durations (1 ms, 300 ms), which are not those stored for percentage 0,
(1 ms, 200 ms); `AddProcess(42, 150)` is accepted and stores (300 ms, 1 ms), not
the (200 ms, 1 ms) of percentage 100. -/
theorem AddProcess_neither_clamps_nor_rejects :
    (AddProcess initialState osAlive 0 42 (-50)).1.g_managed_processes =
      [(42, ProcessInfo.mk 42 5 1 300 false 0)] ∧
    (AddProcess initialState osAlive 0 42 0).1.g_managed_processes =
      [(42, ProcessInfo.mk 42 5 1 200 false 0)] ∧
    (AddProcess initialState osAlive 0 42 150).1.g_managed_processes =
      [(42, ProcessInfo.mk 42 5 300 1 false 0)] ∧
    (AddProcess initialState osAlive 0 42 100).1.g_managed_processes =
      [(42, ProcessInfo.mk 42 5 200 1 false 0)] := by
  decide!

/-- Claim C10, amended. For every 32-bit percentage `p` outside `[0,100]` and
every unmanaged pid whose handle can be opened, `AddProcess` accepts the call and
applies only the two 1 ms floors. For `p < 0` the stored suspend duration is 1 ms,
as for percentage 0, and the stored resume duration is the computed
`200 - 200 * (p / 100)`, at least 201 ms. For `p > 100` the stored resume duration
is 1 ms, as for percentage 100, and the stored suspend duration is the computed
`200 * (p / 100)`, at least 201 ms. -/
theorem AddProcess_out_of_range (s : State) (os : Os) (now : TimePoint) (pid : DWORD)
    (p : Int) (hfree : mapFind s.g_managed_processes pid = none)
    (hopen : os.OpenProcess pid ≠ 0)
    (_hmin : -2147483648 ≤ p) (_hmax : p ≤ 2147483647) (_hout : p < 0 ∨ 100 < p) :
    ∃ info, mapFind (AddProcess s os now pid p).1.g_managed_processes pid = some info ∧
      (p < 0 →
        info.suspend_ms = 1 ∧ info.suspend_ms = stored_suspend_ms 0 ∧
        info.resume_ms = roundDouble (200 - roundDouble (200 * roundDouble ((p : ℚ) / 100))) ∧
        201 ≤ info.resume_ms ∧ stored_resume_ms 0 = 200) ∧
      (100 < p →
        info.resume_ms = 1 ∧ info.resume_ms = stored_resume_ms 100 ∧
        info.suspend_ms = roundDouble (200 * roundDouble ((p : ℚ) / 100)) ∧
        201 ≤ info.suspend_ms ∧ stored_suspend_ms 100 = 200) := by
  rw [AddProcess_accepts s os now pid p hfree hopen]
  refine ⟨_, mapFind_mapAssign_self _ _ _, ?_, ?_⟩
  · intro hneg
    have hs := raw_suspend_of_negative p hneg
    have hr := raw_resume_of_negative p hneg
    have hs1 : stored_suspend_ms p = 1 := by
      unfold stored_suspend_ms
      simp only
      rw [if_pos (by linarith)]
    have hr1 : stored_resume_ms p =
        roundDouble (200 - roundDouble (200 * roundDouble ((p : ℚ) / 100))) := by
      unfold stored_resume_ms
      simp only
      rw [if_neg (by linarith)]
    refine ⟨hs1, ?_, hr1, ?_, durations_at_endpoints.2.1⟩
    · show stored_suspend_ms p = stored_suspend_ms 0
      rw [hs1, durations_at_endpoints.1]
    · show 201 ≤ stored_resume_ms p
      rw [hr1]
      exact hr
  · intro habove
    have hs := raw_suspend_of_above p habove
    have hr := raw_resume_of_above p habove
    have hs1 : stored_suspend_ms p = roundDouble (200 * roundDouble ((p : ℚ) / 100)) := by
      unfold stored_suspend_ms
      simp only
      rw [if_neg (by linarith)]
    have hr1 : stored_resume_ms p = 1 := by
      unfold stored_resume_ms
      simp only
      rw [if_pos (by linarith)]
    refine ⟨hr1, ?_, hs1, ?_, durations_at_endpoints.2.2.1⟩
    · show stored_resume_ms p = stored_resume_ms 100
      rw [hr1, durations_at_endpoints.2.2.2]
    · show 201 ≤ stored_suspend_ms p
      rw [hs1]
      exact hs

/-- Witness for claim C10 (amended): percentage 150 on the initial state. -/
theorem AddProcess_out_of_range_witness :
    ∃ info, mapFind (AddProcess initialState osAlive 0 42 150).1.g_managed_processes 42 =
        some info ∧
      ((150 : Int) < 0 →
        info.suspend_ms = 1 ∧ info.suspend_ms = stored_suspend_ms 0 ∧
        info.resume_ms =
          roundDouble (200 - roundDouble (200 * roundDouble (((150 : Int) : ℚ) / 100))) ∧
        201 ≤ info.resume_ms ∧ stored_resume_ms 0 = 200) ∧
      ((100 : Int) < 150 →
        info.resume_ms = 1 ∧ info.resume_ms = stored_resume_ms 100 ∧
        info.suspend_ms = roundDouble (200 * roundDouble (((150 : Int) : ℚ) / 100)) ∧
        201 ≤ info.suspend_ms ∧ stored_suspend_ms 100 = 200) :=
  AddProcess_out_of_range initialState osAlive 0 42 150 rfl (by decide) (by decide)
    (by decide) (Or.inr (by decide))

/-! ## GetManagedPids -/

theorem take_set_succ {α : Type} (l : List α) (n : Nat) (a : α) (h : n < l.length) :
    (l.set n a).take (n + 1) = l.take n ++ [a] := by
  induction l generalizing n with
  | nil => simp at h
  | cons b rest ih =>
    cases n with
    | zero => simp
    | succ n =>
      simp only [List.length_cons, Nat.add_lt_add_iff_right] at h
      simp [ih n h]

theorem drop_set_succ {α : Type} (l : List α) (n j : Nat) (a : α) :
    (l.set n a).drop (n + 1 + j) = l.drop (n + 1 + j) := by
  induction l generalizing n with
  | nil => simp
  | cons b rest ih =>
    cases n with
    | zero =>
      have : 0 + 1 + j = j + 1 := by omega
      rw [this]
      simp
    | succ n =>
      have : n + 1 + 1 + j = (n + 1 + j) + 1 := by omega
      rw [this]
      simp [ih n]

theorem GetManagedPids_loop_spec (m : Registry) (pids_array : List DWORD) (max_size count : Int)
    (hcount : 0 ≤ count) (hcap : max_size ≤ pids_array.length) :
    (GetManagedPids_loop m pids_array max_size count).2 =
      count + (min m.length (max_size - count).toNat : Nat) ∧
    (GetManagedPids_loop m pids_array max_size count).1 =
      pids_array.take count.toNat ++ (keys m).take (min m.length (max_size - count).toNat) ++
        pids_array.drop (count.toNat + min m.length (max_size - count).toNat) := by
  induction m generalizing pids_array count with
  | nil => simp [GetManagedPids_loop, keys]
  | cons e rest ih =>
    obtain ⟨k, v⟩ := e
    unfold GetManagedPids_loop
    by_cases hc : count < max_size
    · simp only [hc, if_true]
      have hlen : count.toNat < pids_array.length := by omega
      obtain ⟨h1, h2⟩ := ih (pids_array.set count.toNat k) (count + 1) (by omega)
        (by simpa using hcap)
      have hj : (max_size - count).toNat = (max_size - (count + 1)).toNat + 1 := by omega
      have hmin : min (rest.length + 1) ((max_size - (count + 1)).toNat + 1) =
          min rest.length (max_size - (count + 1)).toNat + 1 := by omega
      have hsucc : (count + 1).toNat = count.toNat + 1 := by omega
      constructor
      · rw [h1, List.length_cons, hj, hmin]
        push_cast
        ring
      · rw [h2, List.length_cons, hj, hmin, hsucc, take_set_succ _ _ _ hlen,
          drop_set_succ]
        simp only [keys, List.map_cons, List.take_succ_cons, List.append_assoc,
          List.singleton_append]
        congr 3
        omega
    · simp only [hc, if_false]
      have : (max_size - count).toNat = 0 := by omega
      simp [this]

theorem mapFind_isSome_of_mem_keys {m : Registry} {x : DWORD} (h : x ∈ keys m) :
    (mapFind m x).isSome = true := by
  cases hf : mapFind m x with
  | none => exact absurd h (not_mem_keys_of_mapFind_none hf)
  | some v => rfl

/-- Claim C11. `GetManagedPids` is a truncating snapshot. On a registry with `n`
entries, called with an array of at least `max_size` slots, it returns
`count = min(n, max(max_size, 0))`; the first `count` slots of the array hold the
first `count` keys of the registry, which are pairwise distinct and are keys of the
registry; the array keeps its length and its slots from `count` on are untouched;
when `n ≤ max_size` the ids written are all the keys. The function reads the
registry and returns no new state: the registry is unchanged. -/
theorem GetManagedPids_snapshot (s : State) (pids_array : List DWORD) (max_size : Int)
    (hsorted : (keys s.g_managed_processes).Pairwise (fun a b => a < b))
    (hcap : max_size ≤ pids_array.length) :
    (GetManagedPids s pids_array max_size).2 =
      min (s.g_managed_processes.length : Int) (max max_size 0) ∧
    (GetManagedPids s pids_array max_size).1.take
        (GetManagedPids s pids_array max_size).2.toNat =
      (keys s.g_managed_processes).take (GetManagedPids s pids_array max_size).2.toNat ∧
    ((GetManagedPids s pids_array max_size).1.take
        (GetManagedPids s pids_array max_size).2.toNat).length =
      (GetManagedPids s pids_array max_size).2.toNat ∧
    ((GetManagedPids s pids_array max_size).1.take
        (GetManagedPids s pids_array max_size).2.toNat).Nodup ∧
    (∀ x ∈ (GetManagedPids s pids_array max_size).1.take
        (GetManagedPids s pids_array max_size).2.toNat,
      (mapFind s.g_managed_processes x).isSome = true) ∧
    (GetManagedPids s pids_array max_size).1.length = pids_array.length ∧
    (GetManagedPids s pids_array max_size).1.drop
        (GetManagedPids s pids_array max_size).2.toNat =
      pids_array.drop (GetManagedPids s pids_array max_size).2.toNat ∧
    ((s.g_managed_processes.length : Int) ≤ max_size →
      (GetManagedPids s pids_array max_size).1.take
          (GetManagedPids s pids_array max_size).2.toNat =
        keys s.g_managed_processes) := by
  obtain ⟨h1, h2⟩ := GetManagedPids_loop_spec s.g_managed_processes pids_array max_size 0
    (le_refl _) hcap
  have hklen : (keys s.g_managed_processes).length = s.g_managed_processes.length := by
    simp [keys]
  generalize hc : min s.g_managed_processes.length (max_size - 0).toNat = c at h1 h2
  have hcn : c ≤ s.g_managed_processes.length := by omega
  have hcl : c ≤ pids_array.length := by omega
  have hcount : (GetManagedPids s pids_array max_size).2 = (c : Int) := by
    unfold GetManagedPids
    rw [h1]
    simp
  have harr : (GetManagedPids s pids_array max_size).1 =
      (keys s.g_managed_processes).take c ++ pids_array.drop c := by
    unfold GetManagedPids
    rw [h2]
    simp
  have htl : ((keys s.g_managed_processes).take c).length = c := by
    rw [List.length_take, hklen]
    omega
  have htake : (GetManagedPids s pids_array max_size).1.take c =
      (keys s.g_managed_processes).take c := by
    rw [harr, List.take_append_of_le_length (by omega), List.take_take, min_self]
  rw [hcount, Int.toNat_ofNat, htake]
  refine ⟨by omega, rfl, htl, ?_, ?_, ?_, ?_, ?_⟩
  · exact List.Nodup.sublist (List.take_sublist _ _) (hsorted.imp (fun h => ne_of_lt h))
  · intro x hx
    exact mapFind_isSome_of_mem_keys (List.mem_of_mem_take hx)
  · rw [harr, List.length_append, htl, List.length_drop]
    omega
  · rw [harr, List.drop_append_of_le_length (by omega)]
    rw [List.drop_eq_nil_of_le (by omega), List.nil_append]
  · intro hn
    have : c = s.g_managed_processes.length := by omega
    rw [this, ← hklen, List.take_length]

/-- Witness for claim C11: one managed process, an array of three slots, capacity 2. -/
theorem GetManagedPids_snapshot_witness :
    (GetManagedPids addedState [7, 8, 9] 2).2 =
      min (addedState.g_managed_processes.length : Int) (max 2 0) ∧
    (GetManagedPids addedState [7, 8, 9] 2).1 = [42, 8, 9] :=
  ⟨(GetManagedPids_snapshot addedState [7, 8, 9] 2 (by decide!) (by decide)).1, by decide!⟩

/-! ## Accepted calls of AddProcess, absent ids of RemoveProcess -/

theorem mapFind_mapAssign_of_ne (m : Registry) (pid q : DWORD) (info : ProcessInfo)
    (hne : q ≠ pid) : mapFind (mapAssign m pid info) q = mapFind m q := by
  induction m with
  | nil =>
    have : ¬ pid = q := fun h => hne h.symm
    simp [mapAssign, mapFind, this]
  | cons e rest ih =>
    obtain ⟨k, v⟩ := e
    have hpq : ¬ pid = q := fun h => hne h.symm
    unfold mapAssign
    split_ifs with h1 h2
    · simp only [mapFind, hpq, if_false]
    · have hkq : ¬ k = q := fun h => hpq (h2.trans h)
      simp only [mapFind, hkq, if_false]
    · by_cases hkq : k = q
      · simp only [mapFind, hkq, if_true]
      · simp only [mapFind, hkq, if_false, ih]

/-- Claim C14. When `pid` is not a key of the registry and its handle can be
opened, `AddProcess(pid, p)` called at time `now` yields a registry that is the old
one plus exactly one entry, filed under `pid`, whose pid field is `pid`, whose
phase is Running and whose deadline is `now`, so that it is due at any later pass;
every lookup of another id gives what it gave before, and the rest of the engine
state is unchanged. -/
theorem AddProcess_postcondition (s : State) (os : Os) (now : TimePoint) (pid : DWORD)
    (p : Int) (hfree : mapFind s.g_managed_processes pid = none)
    (hopen : os.OpenProcess pid ≠ 0) :
    (∃ info, mapFind (AddProcess s os now pid p).1.g_managed_processes pid = some info ∧
      info.pid = pid ∧ info.hProcess = os.OpenProcess pid ∧
      info.is_suspended = false ∧ info.next_state_change_time = now ∧
      (∀ now1 : TimePoint, now ≤ now1 → now1 ≥ info.next_state_change_time) ∧
      List.Perm (AddProcess s os now pid p).1.g_managed_processes
        ((pid, info) :: s.g_managed_processes)) ∧
    (∀ q, q ≠ pid →
      mapFind (AddProcess s os now pid p).1.g_managed_processes q =
        mapFind s.g_managed_processes q) ∧
    (AddProcess s os now pid p).1.g_managed_processes.length =
      s.g_managed_processes.length + 1 ∧
    (AddProcess s os now pid p).1.g_NtSuspendProcess = s.g_NtSuspendProcess ∧
    (AddProcess s os now pid p).1.g_NtResumeProcess = s.g_NtResumeProcess ∧
    (AddProcess s os now pid p).1.g_should_stop = s.g_should_stop ∧
    (AddProcess s os now pid p).1.joinable = s.joinable := by
  rw [AddProcess_accepts s os now pid p hfree hopen]
  refine ⟨⟨_, mapFind_mapAssign_self _ _ _, rfl, rfl, rfl, rfl, fun now1 h => h,
    mapAssign_perm _ _ _ hfree⟩, ?_, ?_, rfl, rfl, rfl, rfl⟩
  · intro q hq
    exact mapFind_mapAssign_of_ne _ pid q _ hq
  · exact (mapAssign_perm _ pid _ hfree).length_eq

/-- Witness for claim C14: pid 42 added at time 0 after a successful start. -/
theorem AddProcess_postcondition_witness :
    (AddProcess startedState osAlive 0 42 50).1.g_managed_processes.length =
      startedState.g_managed_processes.length + 1 ∧
    (AddProcess startedState osAlive 0 42 50).1.joinable = startedState.joinable :=
  ⟨(AddProcess_postcondition startedState osAlive 0 42 50 (by decide) (by decide)).2.2.1,
    (AddProcess_postcondition startedState osAlive 0 42 50 (by decide)
      (by decide)).2.2.2.2.2.2⟩

/-- Claim C15. `RemoveProcess` of an id that is not managed changes nothing and
issues no call. Hence, on a registry with unique sorted keys, `RemoveProcess(pid)`
followed by `RemoveProcess(pid)` gives the state and the calls of a single
`RemoveProcess(pid)`: the second call finds nothing, changes nothing and issues no
call. -/
theorem RemoveProcess_idempotent (s : State) (os os2 : Os) (pid : DWORD)
    (hsorted : (keys s.g_managed_processes).Pairwise (fun a b => a < b)) :
    (mapFind s.g_managed_processes pid = none → RemoveProcess s os pid = (s, [])) ∧
    RemoveProcess (RemoveProcess s os pid).1 os2 pid = ((RemoveProcess s os pid).1, []) ∧
    (RemoveProcess (RemoveProcess s os pid).1 os2 pid).1 = (RemoveProcess s os pid).1 ∧
    (RemoveProcess s os pid).2 ++ (RemoveProcess (RemoveProcess s os pid).1 os2 pid).2 =
      (RemoveProcess s os pid).2 := by
  have habsent : ∀ (t : State) (o : Os), mapFind t.g_managed_processes pid = none →
      RemoveProcess t o pid = (t, []) := by
    intro t o h
    unfold RemoveProcess
    rw [h]
  have hgone : mapFind (RemoveProcess s os pid).1.g_managed_processes pid = none := by
    unfold RemoveProcess
    cases hfind : mapFind s.g_managed_processes pid with
    | none => simpa using hfind
    | some info => simpa using mapFind_mapErase_self _ pid hsorted
  have h2 := habsent (RemoveProcess s os pid).1 os2 hgone
  refine ⟨habsent s os, h2, ?_, ?_⟩
  · rw [h2]
  · rw [h2, List.append_nil]

/-- Witness for claim C15: `RemoveProcess(42)` twice on the state in which
process 42 is suspended. -/
theorem RemoveProcess_idempotent_witness :
    RemoveProcess (RemoveProcess suspendedState osAlive 42).1 osAlive 42 =
      ((RemoveProcess suspendedState osAlive 42).1, []) :=
  (RemoveProcess_idempotent suspendedState osAlive osAlive 42 (by decide!)).2.1

/-! ## The per-entry state machine -/

/-- Claim C16, refuted as stated: process 42, added at 29 percent, has a stored
suspend duration strictly between 57 and 58 ms (the `double` nearest below 58).
The pass taken at time 0 suspends it and sets its deadline to 57 ms after `now`:
the duration is truncated to whole milliseconds, so the deadline is not `now` plus
the stored duration. -/
theorem deadline_is_truncated_at_29_percent :
    mapFind (addedAt 29).g_managed_processes 42 =
      some (ProcessInfo.mk 42 5 (stored_suspend_ms 29) (stored_resume_ms 29) false 0) ∧
    57 < stored_suspend_ms 29 ∧ stored_suspend_ms 29 < 58 ∧
    mapFind (manager_loop_iteration (addedAt 29) osAlive 0).state.g_managed_processes 42 =
      some (ProcessInfo.mk 42 5 (stored_suspend_ms 29) (stored_resume_ms 29) true 57000000) ∧
    ((57000000 : Int) : ℚ) ≠ ((0 : Int) : ℚ) + stored_suspend_ms 29 * 1000000 := by
  decide!

/-- Claim C16, amended. In one scheduler pass taken at `now` over a well-formed
registry, an alive entry that is due becomes Suspended with deadline `now` plus
its suspend duration truncated to whole milliseconds if it was Running and the
suspend succeeds, and becomes Running with deadline `now` plus its resume duration
truncated to whole milliseconds if it was Suspended and the resume succeeds; an
alive entry that is not due is left unchanged and receives no suspend and no
resume call. -/
theorem entry_state_machine (s : State) (os : Os) (now : TimePoint)
    (k : DWORD) (info : ProcessInfo)
    (hwf : WellFormed s.g_managed_processes) (hmem : (k, info) ∈ s.g_managed_processes)
    (halive : os.GetExitCodeProcess info.hProcess = some STILL_ACTIVE) :
    (now ≥ info.next_state_change_time → info.is_suspended = false →
      os.NtSuspendProcess info.hProcess = 0 →
      mapFind (manager_loop_iteration s os now).state.g_managed_processes k =
        some { info with
          is_suspended := true
          next_state_change_time := now + milliseconds (toLongLong info.suspend_ms) }) ∧
    (now ≥ info.next_state_change_time → info.is_suspended = true →
      os.NtResumeProcess info.hProcess = 0 →
      mapFind (manager_loop_iteration s os now).state.g_managed_processes k =
        some { info with
          is_suspended := false
          next_state_change_time := now + milliseconds (toLongLong info.resume_ms) }) ∧
    (now < info.next_state_change_time →
      mapFind (manager_loop_iteration s os now).state.g_managed_processes k = some info ∧
      suspendCalls (manager_loop_iteration s os now).calls info.hProcess = [] ∧
      resumeCalls (manager_loop_iteration s os now).calls info.hProcess = []) := by
  have hfind := iteration_find_entry s os now hwf (k, info) hmem
  refine ⟨?_, ?_, ?_⟩
  · intro hdue hrun hok
    have hv := visit_suspend_ok os now info halive hdue hrun hok
    simpa [hv] using hfind
  · intro hdue hsusp hok
    have hv := visit_resume os now info halive hdue hsusp
    simpa [hv, hok] using hfind
  · intro hwait
    have hv := visit_not_due os now info halive hwait
    refine ⟨by simpa [hv] using hfind, ?_, ?_⟩
    · unfold suspendCalls
      rw [iteration_calls_entry s os now hwf (k, info) hmem _
        (isSuspendOn_handle info.hProcess)]
      simp [hv, List.filter, isSuspendOn]
    · unfold resumeCalls
      rw [iteration_calls_entry s os now hwf (k, info) hmem _
        (isResumeOn_handle info.hProcess)]
      simp [hv, List.filter, isResumeOn]

/-- Witness for claim C16 (amended): process 42, just added at 50 percent, is
suspended by the pass taken at time 0. -/
theorem entry_state_machine_witness :
    WellFormed addedState.g_managed_processes ∧
    mapFind (manager_loop_iteration addedState osAlive 0).state.g_managed_processes 42 =
      some (ProcessInfo.mk 42 5 100 100 true (0 + milliseconds (toLongLong 100))) :=
  ⟨by decide!,
    (entry_state_machine addedState osAlive 0 42 (ProcessInfo.mk 42 5 100 100 false 0)
      (by decide!) (by decide!) (by decide!)).1 (by decide) rfl (by decide!)⟩

/-! ## The next wakeup -/

theorem scan_next_wakeup (os : Os) (now : TimePoint) (m : Registry) (nw : TimePoint) :
    (scan os now m nw).next_wakeup =
      ((m.filter (fun e => !(visit os now e.2).remove)).map
        (fun e => (visit os now e.2).info.next_state_change_time)).foldl min nw := by
  induction m generalizing nw with
  | nil => rfl
  | cons e rest ih =>
    obtain ⟨k, v⟩ := e
    simp only [scan]
    rw [ih]
    by_cases hr : (visit os now v).remove = true
    · simp [hr]
    · have hb : (visit os now v).remove = false := by simpa using hr
      simp only [hb, Bool.false_eq_true, if_false, Bool.not_false, List.filter_cons_of_pos,
        List.map_cons, List.foldl_cons]
      congr 1
      by_cases hlt : (visit os now v).info.next_state_change_time < nw
      · rw [if_pos hlt, min_eq_right hlt.le]
      · rw [if_neg hlt, min_eq_left (not_lt.mp hlt)]

theorem foldl_min_le (l : List Int) (a : Int) :
    l.foldl min a ≤ a ∧ ∀ x ∈ l, l.foldl min a ≤ x := by
  induction l generalizing a with
  | nil => simp
  | cons b rest ih =>
    obtain ⟨h1, h2⟩ := ih (min a b)
    simp only [List.foldl_cons, List.mem_cons]
    refine ⟨le_trans h1 (min_le_left _ _), ?_⟩
    intro x hx
    rcases hx with hx | hx
    · rw [hx]
      exact le_trans h1 (min_le_right _ _)
    · exact h2 x hx

theorem foldl_min_attained (l : List Int) (a : Int) :
    l.foldl min a = a ∨ l.foldl min a ∈ l := by
  induction l generalizing a with
  | nil => simp
  | cons b rest ih =>
    simp only [List.foldl_cons, List.mem_cons]
    rcases ih (min a b) with h | h
    · rcases min_choice a b with hm | hm
      · exact Or.inl (by rw [h, hm])
      · exact Or.inr (Or.inl (by rw [h, hm]))
    · exact Or.inr (Or.inr h)

theorem iteration_next_wakeup (s : State) (os : Os) (now : TimePoint)
    (hwf : WellFormed s.g_managed_processes) :
    (manager_loop_iteration s os now).next_wakeup =
      ((manager_loop_iteration s os now).state.g_managed_processes.map
        (fun e => e.2.next_state_change_time)).foldl min (now + milliseconds 500) := by
  rw [(manager_loop_iteration_spec s os now hwf).1, List.map_map]
  unfold manager_loop_iteration
  by_cases hempty : s.g_managed_processes.isEmpty = true
  · have hnil : s.g_managed_processes = [] := List.isEmpty_iff.mp hempty
    simp [hempty, hnil]
  · simp only [hempty, Bool.false_eq_true, if_false]
    rw [scan_next_wakeup]
    rfl

/-- Claim C17. For a scheduler pass taken at `now` over a well-formed registry,
the computed `next_wakeup` is the minimum of `now + 500 ms` and of the deadlines,
after the pass, of the entries that remain in the registry: it is the fold of
`min` over those deadlines started at `now + 500 ms`; it is at most `now + 500 ms`
and at most every remaining deadline, and it is one of these values. Entries
removed by the pass are not in that list. -/
theorem next_wakeup_is_earliest_deadline (s : State) (os : Os) (now : TimePoint)
    (hwf : WellFormed s.g_managed_processes) :
    (manager_loop_iteration s os now).next_wakeup =
      ((manager_loop_iteration s os now).state.g_managed_processes.map
        (fun e => e.2.next_state_change_time)).foldl min (now + milliseconds 500) ∧
    (manager_loop_iteration s os now).next_wakeup ≤ now + milliseconds 500 ∧
    (∀ e ∈ (manager_loop_iteration s os now).state.g_managed_processes,
      (manager_loop_iteration s os now).next_wakeup ≤ e.2.next_state_change_time) ∧
    ((manager_loop_iteration s os now).next_wakeup = now + milliseconds 500 ∨
      ∃ e ∈ (manager_loop_iteration s os now).state.g_managed_processes,
        (manager_loop_iteration s os now).next_wakeup = e.2.next_state_change_time) := by
  have heq := iteration_next_wakeup s os now hwf
  refine ⟨heq, ?_, ?_, ?_⟩
  · rw [heq]
    exact (foldl_min_le _ _).1
  · intro e he
    rw [heq]
    exact (foldl_min_le _ _).2 _ (List.mem_map_of_mem (fun e => e.2.next_state_change_time) he)
  · rcases foldl_min_attained
      ((manager_loop_iteration s os now).state.g_managed_processes.map
        (fun e => e.2.next_state_change_time)) (now + milliseconds 500) with h | h
    · exact Or.inl (heq.trans h)
    · obtain ⟨e, he, hval⟩ := List.mem_map.mp h
      exact Or.inr ⟨e, he, heq.trans hval.symm⟩

/-- Witness for claim C17: the pass at time 0 that suspends process 42 for 100 ms. -/
theorem next_wakeup_is_earliest_deadline_witness :
    WellFormed addedState.g_managed_processes ∧
    (manager_loop_iteration addedState osAlive 0).next_wakeup ≤ 0 + milliseconds 500 ∧
    (manager_loop_iteration addedState osAlive 0).next_wakeup = 100000000 :=
  ⟨by decide!,
    (next_wakeup_is_earliest_deadline addedState osAlive 0 (by decide!)).2.1,
    by decide!⟩

/-! ## The wakeup bounds and the sleep of the loop -/

theorem visit_durations (os : Os) (now : TimePoint) (info : ProcessInfo) :
    (visit os now info).info.suspend_ms = info.suspend_ms ∧
    (visit os now info).info.resume_ms = info.resume_ms := by
  unfold visit
  simp only
  split_ifs <;> exact ⟨rfl, rfl⟩

theorem StartLimiter_registry (s : State) (hNtdll suspendAddr resumeAddr : Bool) :
    (StartLimiter s hNtdll suspendAddr resumeAddr).g_managed_processes =
      s.g_managed_processes := by
  obtain ⟨a, b, m, st, j⟩ := s
  cases a <;> cases b <;> cases j <;> cases hNtdll <;> cases suspendAddr <;>
    cases resumeAddr <;> simp [StartLimiter]

theorem AddProcess_rejected_state (s : State) (os : Os) (now : TimePoint) (pid : DWORD)
    (p : Int)
    (hrej : (mapFind s.g_managed_processes pid).isSome = true ∨ os.OpenProcess pid = 0) :
    AddProcess s os now pid p =
      (s, if (mapFind s.g_managed_processes pid).isSome = true then []
        else [OsCall.openProcess pid 0]) := by
  unfold AddProcess
  by_cases hk : (mapFind s.g_managed_processes pid).isSome = true
  · simp [hk]
  · rcases hrej with h1 | h1
    · exact absurd h1 hk
    · simp [hk, h1]

/-- In every reachable state both durations of every entry are at least 1 ms. -/
theorem reachable_durations (s : State) (h : Reachable s) :
    ∀ e ∈ s.g_managed_processes, 1 ≤ e.2.suspend_ms ∧ 1 ≤ e.2.resume_ms := by
  induction h with
  | load =>
    intro e he
    exact absurd he (List.not_mem_nil _)
  | start s a b c _ ih =>
    rw [StartLimiter_registry]
    exact ih
  | stop s inflight os _ ih =>
    unfold StopLimiter
    by_cases hj : s.joinable = true
    · intro e he
      simp [hj] at he
    · simpa [hj] using ih
  | add s os now pid p _ hfresh ih =>
    by_cases hrej : (mapFind s.g_managed_processes pid).isSome = true ∨ os.OpenProcess pid = 0
    · rw [AddProcess_rejected_state s os now pid p hrej]
      exact ih
    · have hfree : mapFind s.g_managed_processes pid = none := by
        cases hf : mapFind s.g_managed_processes pid with
        | none => rfl
        | some v => exact absurd (Or.inl (by simp [hf])) hrej
      have hopen : os.OpenProcess pid ≠ 0 := fun h0 => hrej (Or.inr h0)
      rw [AddProcess_accepts s os now pid p hfree hopen]
      intro e he
      rcases mem_mapAssign he with h1 | h1
      · rw [h1]
        exact stored_durations_ge_one p
      · exact ih e h1
  | remove s os pid _ ih =>
    unfold RemoveProcess
    cases hf : mapFind s.g_managed_processes pid with
    | none => simpa using ih
    | some info =>
      intro e he
      exact ih e ((mapErase_sublist _ pid).subset he)
  | pass s os now hreach _ ih =>
    rw [(manager_loop_iteration_spec s os now (reachable_consistent s hreach).1).1]
    intro e he
    obtain ⟨e1, he1, rfl⟩ := List.mem_map.mp he
    have := ih e1 (List.mem_of_mem_filter he1)
    simp only
    rw [(visit_durations os now e1.2).1, (visit_durations os now e1.2).2]
    exact this

theorem toLongLong_ge_one (x : ℚ) (hx : 1 ≤ x) : 1 ≤ toLongLong x := by
  unfold toLongLong
  have hden : (0 : Int) < x.den := by exact_mod_cast x.den_pos
  have hnum : (x.den : Int) ≤ x.num := by
    have h1 : (1 : ℚ) * x.den ≤ x.num := by
      have := (le_div_iff₀ (by exact_mod_cast x.den_pos : (0 : ℚ) < x.den)).mp
        (by rw [Rat.num_div_den]; exact hx : (1 : ℚ) ≤ (x.num : ℚ) / (x.den : ℚ))
      exact this
    rw [one_mul] at h1
    exact_mod_cast h1
  rw [Int.tdiv_eq_ediv (by omega) hden.le]
  exact (Int.le_ediv_iff_mul_le hden).mpr (by omega)

theorem milliseconds_pos (k : Int) (hk : 1 ≤ k) : 0 < milliseconds k := by
  unfold milliseconds
  omega

/-- An entry kept by its visit, with durations of at least 1 ms, has its
deadline strictly after the clock reading of the pass. -/
theorem visit_next_gt (os : Os) (now : TimePoint) (info : ProcessInfo)
    (hs : 1 ≤ info.suspend_ms) (hr : 1 ≤ info.resume_ms)
    (hkeep : (visit os now info).remove = false) :
    now < (visit os now info).info.next_state_change_time := by
  have h1 := milliseconds_pos _ (toLongLong_ge_one _ hs)
  have h2 := milliseconds_pos _ (toLongLong_ge_one _ hr)
  by_cases hdead : os.GetExitCodeProcess info.hProcess ≠ some STILL_ACTIVE
  · rw [visit_dead os now info hdead] at hkeep
    simp at hkeep
  · have halive : os.GetExitCodeProcess info.hProcess = some STILL_ACTIVE := not_not.mp hdead
    by_cases hdue : now ≥ info.next_state_change_time
    · cases hsusp : info.is_suspended with
      | true =>
        rw [visit_resume os now info halive hdue hsusp]
        exact lt_add_of_pos_right now h2
      | false =>
        by_cases hok : os.NtSuspendProcess info.hProcess = 0
        · rw [visit_suspend_ok os now info halive hdue hsusp hok]
          exact lt_add_of_pos_right now h1
        · rw [visit_suspend_refused os now info halive hdue hsusp hok] at hkeep
          simp at hkeep
    · rw [visit_not_due os now info halive (not_le.mp hdue)]
      exact not_le.mp hdue

theorem foldl_min_gt (l : List Int) (a b : Int) (ha : b < a) (hl : ∀ x ∈ l, b < x) :
    b < l.foldl min a := by
  induction l generalizing a with
  | nil => exact ha
  | cons c rest ih =>
    simp only [List.foldl_cons]
    exact ih (min a c) (lt_min ha (hl c (List.mem_cons_self _ _)))
      (fun x hx => hl x (List.mem_cons_of_mem _ hx))

theorem duration_cast_milliseconds_pos (d : Int) (h : 1000000 ≤ d) :
    duration_cast_milliseconds d = d / 1000000 ∧ 0 < d / 1000000 := by
  unfold duration_cast_milliseconds
  rw [Int.tdiv_eq_ediv (by omega) (by norm_num)]
  exact ⟨rfl, by omega⟩

theorem duration_cast_milliseconds_nonpos (d : Int) (h : d < 1000000) :
    duration_cast_milliseconds d ≤ 0 := by
  unfold duration_cast_milliseconds
  by_cases hneg : d < 0
  · have h1 : (0 : Int) ≤ (-d).tdiv 1000000 := Int.tdiv_nonneg (by omega) (by norm_num)
    rw [Int.neg_tdiv] at h1
    omega
  · rw [Int.tdiv_eq_ediv (by omega) (by norm_num)]
    omega

theorem sleep_arith (a b : Int) (hle : a ≤ b + 500 * 1000000) :
    (∀ k, sleep_after_pass a b = some k →
      1 ≤ k ∧ k ≤ 500 ∧ b + k * 1000000 ≤ a ∧ a < b + (k + 1) * 1000000) ∧
    (sleep_after_pass a b = none ↔ a < b + 1 * 1000000) := by
  unfold sleep_after_pass
  simp only
  by_cases hd : 1000000 ≤ a - b
  · obtain ⟨h1, h2⟩ := duration_cast_milliseconds_pos _ hd
    rw [h1, if_pos h2, Int.emod_eq_of_lt (by omega) (by omega)]
    refine ⟨?_, ?_⟩
    · intro k hk
      simp only [Option.some.injEq] at hk
      subst hk
      omega
    · constructor
      · intro h
        simp at h
      · intro h
        omega
  · have h0 := duration_cast_milliseconds_nonpos _ (not_le.mp hd)
    rw [if_neg (by omega)]
    refine ⟨fun k hk => by simp at hk, ?_⟩
    constructor
    · intro _
      omega
    · intro _
      rfl

/-- Lines 113-114 after a pass whose `next_wakeup` is at most 500 ms after the
clock reading `now2`: `Sleep(k)` is called with the whole milliseconds left, from 1
to 500, and is skipped exactly when less than 1 ms is left. -/
theorem sleep_after_pass_spec (next_wakeup now2 : TimePoint)
    (hle : next_wakeup ≤ now2 + milliseconds 500) :
    (∀ k, sleep_after_pass next_wakeup now2 = some k →
      1 ≤ k ∧ k ≤ 500 ∧ now2 + milliseconds k ≤ next_wakeup ∧
      next_wakeup < now2 + milliseconds (k + 1)) ∧
    (sleep_after_pass next_wakeup now2 = none ↔ next_wakeup < now2 + milliseconds 1) :=
  sleep_arith next_wakeup now2 hle

theorem iteration_idle (s : State) (os : Os) (now : TimePoint)
    (hne : s.g_managed_processes ≠ []) : (manager_loop_iteration s os now).idle = false := by
  unfold manager_loop_iteration
  cases hm : s.g_managed_processes with
  | nil => exact absurd hm hne
  | cons e rest => simp

/-- Claim C19, refuted as stated: the loop can turn without sleeping. Process 42
is added and the pass at time 0 suspends it until 100 ms. Line 113 reads the clock
at 0.5 ms, the 99.5 ms left are truncated and line 114 calls `Sleep(99)`: the
thread wakes at 99.5 ms. The pass at 99.5 ms finds the entry not due, changes
nothing and computes `next_wakeup` = 100 ms, which is after its clock reading; the
0.5 ms left truncate to 0 and line 114 skips `Sleep`. The passes that follow at
once, here at 99.6, 99.7 and 99.8 ms, do the same. -/
theorem loop_spins_within_last_millisecond :
    Reachable suspendedState ∧
    suspendedState.g_managed_processes ≠ [] ∧
    (manager_loop_iteration addedState osAlive 0).state = suspendedState ∧
    (manager_loop_iteration addedState osAlive 0).next_wakeup = 100000000 ∧
    loop_sleep (manager_loop_iteration addedState osAlive 0) 500000 = some 99 ∧
    (manager_loop_iteration suspendedState osAlive 99500000).state = suspendedState ∧
    (manager_loop_iteration suspendedState osAlive 99500000).calls =
      [OsCall.getExitCode 5 (some STILL_ACTIVE)] ∧
    (manager_loop_iteration suspendedState osAlive 99500000).next_wakeup = 100000000 ∧
    (99500000 : Int) < (manager_loop_iteration suspendedState osAlive 99500000).next_wakeup ∧
    loop_sleep (manager_loop_iteration suspendedState osAlive 99500000) 99500000 = none ∧
    (manager_loop_iteration suspendedState osAlive 99600000).state = suspendedState ∧
    loop_sleep (manager_loop_iteration suspendedState osAlive 99600000) 99600000 = none ∧
    (manager_loop_iteration suspendedState osAlive 99700000).state = suspendedState ∧
    loop_sleep (manager_loop_iteration suspendedState osAlive 99700000) 99700000 = none ∧
    (manager_loop_iteration suspendedState osAlive 99800000).state = suspendedState ∧
    loop_sleep (manager_loop_iteration suspendedState osAlive 99800000) 99800000 = none :=
  ⟨suspendedState_reachable, by decide!, by decide!, by decide!, by decide!, by decide!,
    by decide!, by decide!, by decide!, by decide!, by decide!, by decide!, by decide!,
    by decide!, by decide!, by decide!⟩

/-- Claim C19, amended. For every 32-bit percentage both durations stored by
`AddProcess` are at least 1 ms, and every entry of a reachable state has durations
of at least 1 ms. Therefore after a scheduler pass taken at `now` from a reachable
state, every entry that remains has its deadline strictly after `now`, and the
computed `next_wakeup` lies in the interval `(now, now + 500 ms]`. Over a non-empty
registry, with line 113 reading the clock at `now2`, the loop then calls `Sleep`
with the whole milliseconds left until `next_wakeup`, from 1 to 500, so that the
sleep ends no later than `next_wakeup` and less than 1 ms before it; the call is
skipped, and the next pass starts at once, exactly when less than 1 ms is left
until `next_wakeup`. -/
theorem wakeup_bounds_and_sleep (s : State) (os : Os) (now : TimePoint)
    (hreach : Reachable s) :
    (∀ p : Int, -2147483648 ≤ p → p ≤ 2147483647 →
      1 ≤ stored_suspend_ms p ∧ 1 ≤ stored_resume_ms p) ∧
    (∀ e ∈ s.g_managed_processes, 1 ≤ e.2.suspend_ms ∧ 1 ≤ e.2.resume_ms) ∧
    (∀ e ∈ (manager_loop_iteration s os now).state.g_managed_processes,
      now < e.2.next_state_change_time) ∧
    now < (manager_loop_iteration s os now).next_wakeup ∧
    (manager_loop_iteration s os now).next_wakeup ≤ now + milliseconds 500 ∧
    (s.g_managed_processes ≠ [] → ∀ now2 : TimePoint, now ≤ now2 →
      (∀ k, loop_sleep (manager_loop_iteration s os now) now2 = some k →
        1 ≤ k ∧ k ≤ 500 ∧
        now2 + milliseconds k ≤ (manager_loop_iteration s os now).next_wakeup ∧
        (manager_loop_iteration s os now).next_wakeup < now2 + milliseconds (k + 1)) ∧
      (loop_sleep (manager_loop_iteration s os now) now2 = none ↔
        (manager_loop_iteration s os now).next_wakeup < now2 + milliseconds 1)) := by
  have hwf := (reachable_consistent s hreach).1
  have hdur := reachable_durations s hreach
  have hnext : ∀ e ∈ (manager_loop_iteration s os now).state.g_managed_processes,
      now < e.2.next_state_change_time := by
    rw [(manager_loop_iteration_spec s os now hwf).1]
    intro e he
    obtain ⟨e1, he1, rfl⟩ := List.mem_map.mp he
    obtain ⟨hm1, hkeep⟩ := List.mem_filter.mp he1
    exact visit_next_gt os now e1.2 (hdur e1 hm1).1 (hdur e1 hm1).2 (by simpa using hkeep)
  have heq := iteration_next_wakeup s os now hwf
  have hupper : (manager_loop_iteration s os now).next_wakeup ≤ now + milliseconds 500 := by
    rw [heq]
    exact (foldl_min_le _ _).1
  refine ⟨fun p _ _ => stored_durations_ge_one p, hdur, hnext, ?_, hupper, ?_⟩
  · rw [heq]
    apply foldl_min_gt
    · have := milliseconds_pos 500 (by norm_num)
      omega
    · intro x hx
      obtain ⟨e, he, rfl⟩ := List.mem_map.mp hx
      exact hnext e he
  · intro hne now2 hnow2
    have hidle := iteration_idle s os now hne
    have hsl : loop_sleep (manager_loop_iteration s os now) now2 =
        sleep_after_pass (manager_loop_iteration s os now).next_wakeup now2 := by
      unfold loop_sleep
      rw [hidle]
      rfl
    rw [hsl]
    exact sleep_after_pass_spec _ now2 (hupper.trans (add_le_add_right hnow2 _))

/-- Witness for claim C19 (amended): the pass at time 100 ms that resumes process
42, followed by `Sleep(100)`. -/
theorem wakeup_bounds_and_sleep_witness :
    Reachable suspendedState ∧
    100000000 < (manager_loop_iteration suspendedState osAlive 100000000).next_wakeup ∧
    (manager_loop_iteration suspendedState osAlive 100000000).next_wakeup ≤
      100000000 + milliseconds 500 ∧
    loop_sleep (manager_loop_iteration suspendedState osAlive 100000000) 100000000 =
      some 100 ∧
    (1 : Int) ≤ 100 ∧ (100 : Int) ≤ 500 :=
  ⟨suspendedState_reachable,
    (wakeup_bounds_and_sleep suspendedState osAlive 100000000 suspendedState_reachable).2.2.2.1,
    (wakeup_bounds_and_sleep suspendedState osAlive 100000000
      suspendedState_reachable).2.2.2.2.1,
    by decide!,
    (((wakeup_bounds_and_sleep suspendedState osAlive 100000000
      suspendedState_reachable).2.2.2.2.2 (by decide!) 100000000 (le_refl _)).1 100
      (by decide!)).1,
    (((wakeup_bounds_and_sleep suspendedState osAlive 100000000
      suspendedState_reachable).2.2.2.2.2 (by decide!) 100000000 (le_refl _)).1 100
      (by decide!)).2.1⟩

/-! ## The duty cycle without latency -/

theorem whole_ms_table_1_99 : ∀ n : Fin 99,
    toLongLong (stored_suspend_ms ((n.val + 1 : Nat) : Int)) =
      (if n.val + 1 = 29 ∨ n.val + 1 = 57 ∨ n.val + 1 = 58 then
        2 * ((n.val + 1 : Nat) : Int) - 1 else 2 * ((n.val + 1 : Nat) : Int)) ∧
    toLongLong (stored_resume_ms ((n.val + 1 : Nat) : Int)) =
      (if n.val + 1 = 55 ∨ n.val + 1 = 56 then
        199 - 2 * ((n.val + 1 : Nat) : Int) else 200 - 2 * ((n.val + 1 : Nat) : Int)) := by
  decide!

theorem whole_ms_at_50 :
    toLongLong (stored_suspend_ms 50) = 100 ∧ toLongLong (stored_resume_ms 50) = 100 := by
  decide!

theorem single_pass (s : State) (os : Os) (now : TimePoint) (pid : DWORD)
    (info : ProcessInfo) (hreg : s.g_managed_processes = [(pid, info)])
    (hkeep : (visit os now info).remove = false) :
    (manager_loop_iteration s os now).state =
      { s with g_managed_processes := [(pid, (visit os now info).info)] } ∧
    (manager_loop_iteration s os now).next_wakeup =
      min (now + milliseconds 500) (visit os now info).info.next_state_change_time ∧
    (manager_loop_iteration s os now).idle = false := by
  unfold manager_loop_iteration
  simp only [hreg, List.isEmpty_cons, Bool.false_eq_true, if_false, scan, hkeep,
    List.nil_append, remove_marked]
  refine ⟨trivial, ?_, trivial⟩
  by_cases hlt : (visit os now info).info.next_state_change_time < now + milliseconds 500
  · rw [if_pos hlt, min_eq_right hlt.le]
  · rw [if_neg hlt, min_eq_left (not_lt.mp hlt)]

/-- A deadline a whole number `k` of milliseconds ahead, `k` from 1 to 500, read
with no latency: line 114 calls `Sleep(k)`. -/
theorem sleep_after_pass_exact (t k : Int) (h1 : 1 ≤ k) (h2 : k ≤ 500) :
    sleep_after_pass (t + milliseconds k) t = some k := by
  have hd : duration_cast_milliseconds (t + milliseconds k - t) = k := by
    unfold duration_cast_milliseconds milliseconds
    rw [add_sub_cancel_left]
    exact Int.mul_tdiv_cancel k (by norm_num)
  unfold sleep_after_pass
  simp only [hd]
  rw [if_pos (by omega), Int.emod_eq_of_lt (by omega) (by omega)]

theorem milliseconds_mono (a b : Int) (h : a ≤ b) : milliseconds a ≤ milliseconds b := by
  unfold milliseconds
  omega

theorem phaseSuspended_single (s : State) (pid : DWORD) (info : ProcessInfo) :
    phaseSuspended { s with g_managed_processes := [(pid, info)] } pid = info.is_suspended := by
  simp [phaseSuspended, mapFind]

theorem run_on_time_add (os : Os) (pid : DWORD) (m n : Nat) (t : Timeline) :
    run_on_time os pid (m + n) t = run_on_time os pid n (run_on_time os pid m t) := by
  induction m generalizing t with
  | zero => simp [run_on_time]
  | succ m ih =>
    rw [Nat.add_right_comm]
    simp only [run_on_time]
    exact ih _

/-- The pass that suspends the single entry, then the sleep to its deadline. -/
theorem run_suspend_pass (os : Os) (pid : DWORD) (h : HANDLE) (sm rm : ℚ)
    (s : State) (t d a b : Int)
    (halive : os.GetExitCodeProcess h = some STILL_ACTIVE)
    (hsok : os.NtSuspendProcess h = 0)
    (hS1 : 1 ≤ toLongLong sm) (hS : toLongLong sm ≤ 500)
    (hreg : s.g_managed_processes = [(pid, ProcessInfo.mk pid h sm rm false d)])
    (hdue : d ≤ t) :
    run_on_time os pid 1 ⟨s, t, a, b⟩ =
      ⟨{ s with g_managed_processes :=
          [(pid, ProcessInfo.mk pid h sm rm true (t + milliseconds (toLongLong sm)))] },
        t + milliseconds (toLongLong sm), a + milliseconds (toLongLong sm), b⟩ := by
  have hv := visit_suspend_ok os t (ProcessInfo.mk pid h sm rm false d) halive hdue rfl hsok
  obtain ⟨h1, h2, h3⟩ := single_pass s os t pid _ hreg (by rw [hv])
  rw [hv] at h1 h2
  simp only at h1 h2
  rw [min_eq_right (add_le_add_left (milliseconds_mono _ _ hS) t)] at h2
  have h4 : loop_sleep (manager_loop_iteration s os t) t = some (toLongLong sm) := by
    unfold loop_sleep
    rw [h3, h2]
    exact sleep_after_pass_exact t _ hS1 hS
  simp only [run_on_time, h1, h4, phaseSuspended_single]
  simp

/-- The pass that resumes the single entry, then the sleep to its deadline. -/
theorem run_resume_pass (os : Os) (pid : DWORD) (h : HANDLE) (sm rm : ℚ)
    (s : State) (t d a b : Int)
    (halive : os.GetExitCodeProcess h = some STILL_ACTIVE)
    (hrok : os.NtResumeProcess h = 0)
    (hR1 : 1 ≤ toLongLong rm) (hR : toLongLong rm ≤ 500)
    (hreg : s.g_managed_processes = [(pid, ProcessInfo.mk pid h sm rm true d)])
    (hdue : d ≤ t) :
    run_on_time os pid 1 ⟨s, t, a, b⟩ =
      ⟨{ s with g_managed_processes :=
          [(pid, ProcessInfo.mk pid h sm rm false (t + milliseconds (toLongLong rm)))] },
        t + milliseconds (toLongLong rm), a, b + milliseconds (toLongLong rm)⟩ := by
  have hv := visit_resume os t (ProcessInfo.mk pid h sm rm true d) halive hdue rfl
  obtain ⟨h1, h2, h3⟩ := single_pass s os t pid _ hreg (by rw [hv])
  rw [hv] at h1 h2
  simp only [hrok, if_true] at h1 h2
  rw [min_eq_right (add_le_add_left (milliseconds_mono _ _ hR) t)] at h2
  have h4 : loop_sleep (manager_loop_iteration s os t) t = some (toLongLong rm) := by
    unfold loop_sleep
    rw [h3, h2]
    exact sleep_after_pass_exact t _ hR1 hR
  simp only [run_on_time, h1, h4, phaseSuspended_single]
  simp

theorem state_eq_of_registry (s : State) (m : Registry) (h : s.g_managed_processes = m) :
    s = { s with g_managed_processes := m } := by
  subst h
  rfl

/-- Whole cycles of a single live entry whose suspends and resumes succeed: `k`
cycles take `k` times the two whole-millisecond durations, spent suspended and
running respectively. -/
theorem run_cycles (os : Os) (pid : DWORD) (h : HANDLE) (sm rm : ℚ)
    (halive : os.GetExitCodeProcess h = some STILL_ACTIVE)
    (hsok : os.NtSuspendProcess h = 0) (hrok : os.NtResumeProcess h = 0)
    (hS1 : 1 ≤ toLongLong sm) (hS : toLongLong sm ≤ 500)
    (hR1 : 1 ≤ toLongLong rm) (hR : toLongLong rm ≤ 500) (k : Nat) :
    ∀ (s : State) (t d a b : Int),
      s.g_managed_processes = [(pid, ProcessInfo.mk pid h sm rm false d)] → d ≤ t →
      ∃ d1, d1 ≤ t + k * (milliseconds (toLongLong sm) + milliseconds (toLongLong rm)) ∧
        run_on_time os pid (2 * k) ⟨s, t, a, b⟩ =
          ⟨{ s with g_managed_processes := [(pid, ProcessInfo.mk pid h sm rm false d1)] },
            t + k * (milliseconds (toLongLong sm) + milliseconds (toLongLong rm)),
            a + k * milliseconds (toLongLong sm),
            b + k * milliseconds (toLongLong rm)⟩ := by
  induction k with
  | zero =>
    intro s t d a b hreg hdue
    refine ⟨d, by simpa using hdue, ?_⟩
    simp only [Nat.mul_zero, run_on_time, Nat.cast_zero, zero_mul, add_zero]
    rw [← state_eq_of_registry s _ hreg]
  | succ k ih =>
    intro s t d a b hreg hdue
    have h1 := run_suspend_pass os pid h sm rm s t d a b halive hsok hS1 hS hreg hdue
    have h2 := run_resume_pass os pid h sm rm
      { s with g_managed_processes :=
          [(pid, ProcessInfo.mk pid h sm rm true (t + milliseconds (toLongLong sm)))] }
      (t + milliseconds (toLongLong sm)) (t + milliseconds (toLongLong sm))
      (a + milliseconds (toLongLong sm)) b halive hrok hR1 hR rfl (le_refl _)
    obtain ⟨d1, hd1, hrun⟩ := ih
      { s with g_managed_processes :=
          [(pid, ProcessInfo.mk pid h sm rm false
            (t + milliseconds (toLongLong sm) + milliseconds (toLongLong rm)))] }
      (t + milliseconds (toLongLong sm) + milliseconds (toLongLong rm))
      (t + milliseconds (toLongLong sm) + milliseconds (toLongLong rm))
      (a + milliseconds (toLongLong sm)) (b + milliseconds (toLongLong rm)) rfl (le_refl _)
    have harith : t + milliseconds (toLongLong sm) + milliseconds (toLongLong rm) +
        (k : Int) * (milliseconds (toLongLong sm) + milliseconds (toLongLong rm)) =
        t + ((k + 1 : Nat) : Int) *
          (milliseconds (toLongLong sm) + milliseconds (toLongLong rm)) := by
      push_cast
      ring
    refine ⟨d1, by rw [← harith]; exact hd1, ?_⟩
    rw [show 2 * (k + 1) = 1 + (1 + 2 * k) by ring, run_on_time_add, h1, run_on_time_add, h2]
    simp only at hrun ⊢
    rw [hrun, ← harith]
    congr 1
    · push_cast
      ring
    · push_cast
      ring

/-- Claim C13, refuted as stated: process 42 is added at 29 percent; in the run
without latency the pass at time 0 suspends it and the next pass, which resumes
it, runs at 57 ms, not at 58 ms = 2 * 29 ms; the cycle ends at 199 ms, with 57 ms
spent suspended and 142 ms running. -/
theorem suspended_slice_at_29_percent :
    (run_on_time osAlive 42 1 ⟨addedAt 29, 0, 0, 0⟩).clock = 57000000 ∧
    phaseSuspended (run_on_time osAlive 42 1 ⟨addedAt 29, 0, 0, 0⟩).state 42 = true ∧
    (run_on_time osAlive 42 2 ⟨addedAt 29, 0, 0, 0⟩).clock = 199000000 ∧
    (run_on_time osAlive 42 2 ⟨addedAt 29, 0, 0, 0⟩).suspended_ns = 57000000 ∧
    (run_on_time osAlive 42 2 ⟨addedAt 29, 0, 0, 0⟩).running_ns = 142000000 ∧
    (57000000 : Int) ≠ milliseconds (2 * 29) := by
  decide!

/-- Claim C13, amended. A single process is added at percentage `p` in `[1,99]`
to an empty registry; it stays alive, its suspends and resumes succeed, the first
pass runs at `t1` and each later pass exactly at the wakeup time computed by the
one before. Then the process alternates Suspended for exactly `S` and Running for
exactly `R`, the stored durations truncated to whole milliseconds: after `2k`
passes the clock reads `t1 + k (S + R)`, the entry is Running, and `k S` has been
spent suspended and `k R` running; after one more pass the entry is Suspended and
the next pass runs `S` later. `S` is `2p` ms, except `2p - 1` ms at
`p = 29, 57, 58`; `R` is `200 - 2p` ms, except `199 - 2p` ms at `p = 55, 56`. At
`p = 50`, after any number `k` of cycles, `100 k` ms have been spent suspended and
`100 k` ms running. -/
theorem duty_cycle_without_latency (s : State) (os osr : Os) (t0 t1 : TimePoint)
    (pid : DWORD) (p : Int) (k : Nat)
    (hempty : s.g_managed_processes = []) (hopen : os.OpenProcess pid ≠ 0)
    (hlo : 1 ≤ p) (hhi : p ≤ 99) (hfirst : t0 ≤ t1)
    (halive : osr.GetExitCodeProcess (os.OpenProcess pid) = some STILL_ACTIVE)
    (hsok : osr.NtSuspendProcess (os.OpenProcess pid) = 0)
    (hrok : osr.NtResumeProcess (os.OpenProcess pid) = 0) :
    ((run_on_time osr pid (2 * k) ⟨(AddProcess s os t0 pid p).1, t1, 0, 0⟩).clock =
        t1 + k * (milliseconds (toLongLong (stored_suspend_ms p)) +
          milliseconds (toLongLong (stored_resume_ms p))) ∧
      phaseSuspended
        (run_on_time osr pid (2 * k) ⟨(AddProcess s os t0 pid p).1, t1, 0, 0⟩).state pid
        = false ∧
      (run_on_time osr pid (2 * k) ⟨(AddProcess s os t0 pid p).1, t1, 0, 0⟩).suspended_ns =
        k * milliseconds (toLongLong (stored_suspend_ms p)) ∧
      (run_on_time osr pid (2 * k) ⟨(AddProcess s os t0 pid p).1, t1, 0, 0⟩).running_ns =
        k * milliseconds (toLongLong (stored_resume_ms p))) ∧
    ((run_on_time osr pid (2 * k + 1) ⟨(AddProcess s os t0 pid p).1, t1, 0, 0⟩).clock =
        t1 + k * (milliseconds (toLongLong (stored_suspend_ms p)) +
          milliseconds (toLongLong (stored_resume_ms p))) +
          milliseconds (toLongLong (stored_suspend_ms p)) ∧
      phaseSuspended
        (run_on_time osr pid (2 * k + 1) ⟨(AddProcess s os t0 pid p).1, t1, 0, 0⟩).state pid
        = true) ∧
    (milliseconds (toLongLong (stored_suspend_ms p)) =
        milliseconds (if p = 29 ∨ p = 57 ∨ p = 58 then 2 * p - 1 else 2 * p) ∧
      milliseconds (toLongLong (stored_resume_ms p)) =
        milliseconds (if p = 55 ∨ p = 56 then 199 - 2 * p else 200 - 2 * p)) ∧
    (p = 50 →
      (run_on_time osr pid (2 * k) ⟨(AddProcess s os t0 pid p).1, t1, 0, 0⟩).suspended_ns =
        milliseconds (100 * k) ∧
      (run_on_time osr pid (2 * k) ⟨(AddProcess s os t0 pid p).1, t1, 0, 0⟩).running_ns =
        milliseconds (100 * k)) := by
  obtain ⟨n, hn⟩ := percent_of_fin p hlo hhi
  obtain ⟨hts, htr⟩ := whole_ms_table_1_99 n
  rw [← hn] at hts htr
  have hS : toLongLong (stored_suspend_ms p) =
      (if p = 29 ∨ p = 57 ∨ p = 58 then 2 * p - 1 else 2 * p) := by
    rw [hts]
    congr 1
    apply propext
    omega
  have hR : toLongLong (stored_resume_ms p) =
      (if p = 55 ∨ p = 56 then 199 - 2 * p else 200 - 2 * p) := by
    rw [htr]
    congr 1
    apply propext
    omega
  have hS500 : 1 ≤ toLongLong (stored_suspend_ms p) ∧ toLongLong (stored_suspend_ms p) ≤ 500 := by
    rw [hS]
    split_ifs <;> omega
  have hR500 : 1 ≤ toLongLong (stored_resume_ms p) ∧ toLongLong (stored_resume_ms p) ≤ 500 := by
    rw [hR]
    split_ifs <;> omega
  have hfree : mapFind s.g_managed_processes pid = none := by
    rw [hempty]
    rfl
  have hreg : (AddProcess s os t0 pid p).1.g_managed_processes =
      [(pid, ProcessInfo.mk pid (os.OpenProcess pid) (stored_suspend_ms p)
        (stored_resume_ms p) false t0)] := by
    rw [AddProcess_accepts s os t0 pid p hfree hopen]
    simp [hempty, mapAssign]
  obtain ⟨d1, hd1, hrun⟩ := run_cycles osr pid (os.OpenProcess pid) (stored_suspend_ms p)
    (stored_resume_ms p) halive hsok hrok hS500.1 hS500.2 hR500.1 hR500.2 k
    (AddProcess s os t0 pid p).1 t1 t0 0 0 hreg hfirst
  have hodd := run_suspend_pass osr pid (os.OpenProcess pid) (stored_suspend_ms p)
    (stored_resume_ms p)
    { (AddProcess s os t0 pid p).1 with g_managed_processes :=
        [(pid, ProcessInfo.mk pid (os.OpenProcess pid) (stored_suspend_ms p)
          (stored_resume_ms p) false d1)] }
    (t1 + k * (milliseconds (toLongLong (stored_suspend_ms p)) +
      milliseconds (toLongLong (stored_resume_ms p)))) d1
    (0 + k * milliseconds (toLongLong (stored_suspend_ms p)))
    (0 + k * milliseconds (toLongLong (stored_resume_ms p))) halive hsok hS500.1 hS500.2 rfl hd1
  refine ⟨?_, ?_, ⟨by rw [hS], by rw [hR]⟩, ?_⟩
  · rw [hrun]
    refine ⟨rfl, ?_, by simp, by simp⟩
    simp [phaseSuspended, mapFind]
  · rw [run_on_time_add, hrun, hodd]
    refine ⟨rfl, ?_⟩
    simp [phaseSuspended, mapFind]
  · intro h50
    rw [hrun]
    subst h50
    simp only
    rw [whole_ms_at_50.1, whole_ms_at_50.2]
    unfold milliseconds
    constructor <;> ring

/-- Witness for claim C13 (amended): process 42 added at 50 percent at time 0,
first pass at time 0, three cycles. -/
theorem duty_cycle_without_latency_witness :
    (run_on_time osAlive 42 (2 * 3)
        ⟨(AddProcess startedState osAlive 0 42 50).1, 0, 0, 0⟩).suspended_ns =
      milliseconds (100 * (3 : Nat)) ∧
    (run_on_time osAlive 42 (2 * 3)
        ⟨(AddProcess startedState osAlive 0 42 50).1, 0, 0, 0⟩).running_ns =
      milliseconds (100 * (3 : Nat)) :=
  (duty_cycle_without_latency startedState osAlive osAlive 0 0 42 50 3 rfl (by decide!)
    (by decide) (by decide) (by decide) rfl rfl rfl).2.2.2 rfl

/-! ## Handle ownership -/

theorem openAfter_append (l1 l2 : List OsCall) (held : List HANDLE) :
    openAfter (l1 ++ l2) held = openAfter l2 (openAfter l1 held) := by
  induction l1 generalizing held with
  | nil => rfl
  | cons c rest ih =>
    cases c <;> simp only [List.cons_append, openAfter] <;> exact ih _

theorem closeCount_append (l1 l2 : List OsCall) (h : HANDLE) :
    closeCount (l1 ++ l2) h = closeCount l1 h + closeCount l2 h := by
  simp [closeCount, List.filter_append]

/-- Handles open after calls that open nothing: those held before that were not
closed. -/
theorem openAfter_closing (calls : List OsCall) (held : List HANDLE)
    (hno : ∀ c ∈ calls, callHandle c ≠ none) (hnd : held.Nodup) :
    (openAfter calls held).Nodup ∧
    ∀ h, h ∈ openAfter calls held ↔ (h ∈ held ∧ closeCount calls h = 0) := by
  induction calls generalizing held with
  | nil => simp [openAfter, closeCount, hnd]
  | cons c rest ih =>
    have hrest : ∀ c ∈ rest, callHandle c ≠ none := fun c hc => hno c (List.mem_cons_of_mem _ hc)
    cases c with
    | openProcess pid r => exact absurd rfl (hno _ (List.mem_cons_self _ _))
    | getExitCode h1 r =>
      simpa [openAfter, closeCount, List.filter, isCloseOn] using ih held hrest hnd
    | suspend h1 st =>
      simpa [openAfter, closeCount, List.filter, isCloseOn] using ih held hrest hnd
    | resume h1 st =>
      simpa [openAfter, closeCount, List.filter, isCloseOn] using ih held hrest hnd
    | closeHandle h1 =>
      obtain ⟨h2, h3⟩ := ih (held.erase h1) hrest (hnd.erase h1)
      refine ⟨by simpa [openAfter] using h2, ?_⟩
      intro h
      simp only [openAfter]
      rw [h3 h, hnd.mem_erase_iff]
      by_cases hh : h1 = h
      · subst hh
        simp [closeCount, List.filter, isCloseOn]
      · have hne : h ≠ h1 := fun e => hh e.symm
        simp [closeCount, List.filter, isCloseOn, hh, hne]

/-- One operation that closes exactly the handles of the entries it removes
keeps the open handles equal to the handles of the registry. -/
theorem owned_step (log calls : List OsCall) (m m1 : Registry)
    (hown : Owned log m) (hcl : ClosesRemoved m m1 calls) : Owned (log ++ calls) m1 := by
  obtain ⟨hnd, hmem⟩ := hown
  obtain ⟨hno, hsub, hcount⟩ := hcl
  obtain ⟨h1, h2⟩ := openAfter_closing calls (openAfter log []) hno hnd
  refine ⟨by rw [openAfter_append]; exact h1, ?_⟩
  intro h
  rw [openAfter_append, h2 h, hmem h, hcount h]
  constructor
  · rintro ⟨hin, hzero⟩
    by_contra hout
    rw [if_pos ⟨hin, hout⟩] at hzero
    exact absurd hzero (by decide)
  · intro hin
    exact ⟨hsub h hin, by rw [if_neg (fun hc => hc.2 hin)]⟩

theorem closesRemoved_refl (m : Registry) : ClosesRemoved m m [] := by
  refine ⟨fun c hc => absurd hc (List.not_mem_nil _), fun h hh => hh, ?_⟩
  intro h
  rw [if_neg (fun hc => hc.2 hc.1)]
  rfl

theorem handles_mapErase (m : Registry) (pid : DWORD) (info : ProcessInfo)
    (hwf : WellFormed m) (hfind : mapFind m pid = some info) (h : HANDLE) :
    h ∈ handles (mapErase m pid) ↔ (h ∈ handles m ∧ h ≠ info.hProcess) := by
  have hmem0 := mem_of_mapFind_some hfind
  rw [mapErase_eq_filter m pid hwf.1]
  constructor
  · intro hh
    obtain ⟨e, he, rfl⟩ := List.mem_map.mp hh
    obtain ⟨hm, hk⟩ := List.mem_filter.mp he
    refine ⟨List.mem_map_of_mem (fun e => e.2.hProcess) hm, ?_⟩
    intro heq
    have : e = (pid, info) := List.inj_on_of_nodup_map hwf.2.2 hm hmem0 heq
    rw [this] at hk
    simp at hk
  · rintro ⟨hh, hne⟩
    obtain ⟨e, he, rfl⟩ := List.mem_map.mp hh
    refine List.mem_map_of_mem (fun e => e.2.hProcess) (List.mem_filter.mpr ⟨he, ?_⟩)
    simp only [ne_eq, decide_eq_true_eq]
    intro hk
    have : e = (pid, info) := entry_unique hwf.1 he hmem0 hk
    rw [this] at hne
    exact hne rfl

theorem RemoveProcess_closesRemoved (s : State) (os : Os) (pid : DWORD)
    (hwf : WellFormed s.g_managed_processes) :
    ClosesRemoved s.g_managed_processes (RemoveProcess s os pid).1.g_managed_processes
      (RemoveProcess s os pid).2 := by
  unfold RemoveProcess
  cases hfind : mapFind s.g_managed_processes pid with
  | none => exact closesRemoved_refl _
  | some info =>
    have hh : info.hProcess ≠ 0 := (hwf.2.1 _ (mem_of_mapFind_some hfind)).2
    have hin : info.hProcess ∈ handles s.g_managed_processes :=
      List.mem_map_of_mem (fun e => e.2.hProcess) (mem_of_mapFind_some hfind)
    simp only
    refine ⟨?_, ?_, ?_⟩
    · intro c hc
      rw [cleanup_calls_handle _ os info c hc]
      simp
    · intro h hh1
      exact ((handles_mapErase _ pid info hwf hfind h).mp hh1).1
    · intro h
      obtain ⟨pre, hpre, hall⟩ := cleanup_shape s.g_NtResumeProcess os info hh
      by_cases heq : h = info.hProcess
      · subst heq
        rw [if_pos ⟨hin, fun hc => ((handles_mapErase _ pid info hwf hfind _).mp hc).2 rfl⟩]
        unfold closeCount
        rw [hpre]
        exact (filter_shape_close pre _ hall).1
      · rw [if_neg (fun hc => hc.2 ((handles_mapErase _ pid info hwf hfind h).mpr ⟨hc.1, heq⟩))]
        unfold closeCount
        rw [List.length_eq_zero, List.filter_eq_nil_iff]
        intro c hc hclose
        have h1 := cleanup_calls_handle _ os info c hc
        rw [isCloseOn_handle h c hclose] at h1
        exact heq (Option.some.inj h1)

theorem iteration_calls_have_handle (s : State) (os : Os) (now : TimePoint)
    (hwf : WellFormed s.g_managed_processes) :
    ∀ c ∈ (manager_loop_iteration s os now).calls, callHandle c ≠ none := by
  rw [(manager_loop_iteration_spec s os now hwf).2]
  intro c hc
  rcases List.mem_append.mp hc with h | h
  · obtain ⟨e, _, hce⟩ := List.mem_flatMap.mp h
    rw [visit_calls_handle os now e.2 c hce]
    simp
  · obtain ⟨e, he, hce⟩ := List.mem_flatMap.mp h
    rw [cleanup_if_calls_handle s.g_NtResumeProcess os now _ e he c hce]
    simp

theorem drain_calls_have_handle (resumeBound : Bool) (os : Os) (m : Registry) :
    ∀ c ∈ drain resumeBound os m, callHandle c ≠ none := by
  rw [drain_eq_flatMap]
  intro c hc
  obtain ⟨e, _, hce⟩ := List.mem_flatMap.mp hc
  rw [cleanup_calls_handle resumeBound os e.2 c hce]
  simp

theorem visit_calls_no_close (os : Os) (now : TimePoint) (info : ProcessInfo) (h : HANDLE) :
    (visit os now info).calls.filter (isCloseOn h) = [] := by
  rw [List.filter_eq_nil_iff]
  intro c hc hclose
  have h1 := visit_calls_handle os now info c hc
  rw [isCloseOn_handle h c hclose] at h1
  have h2 := (visit_calls_kind os now info c hc).1
  rw [← Option.some.inj h1, hclose] at h2
  exact absurd h2 (by decide)

theorem cleanup_close_count (resumeBound : Bool) (os : Os) (info : ProcessInfo)
    (hh : info.hProcess ≠ 0) :
    ((cleanup_and_resume_process resumeBound os info).2.filter
      (isCloseOn info.hProcess)).length = 1 := by
  obtain ⟨pre, hpre, hall⟩ := cleanup_shape resumeBound os info hh
  rw [hpre]
  exact (filter_shape_close pre _ hall).1

theorem iteration_closesRemoved (s : State) (os : Os) (now : TimePoint)
    (hwf : WellFormed s.g_managed_processes) :
    ClosesRemoved s.g_managed_processes
      (manager_loop_iteration s os now).state.g_managed_processes
      (manager_loop_iteration s os now).calls := by
  refine ⟨iteration_calls_have_handle s os now hwf,
    fun h hh => iteration_handles_subset s os now hwf h hh, ?_⟩
  intro h
  by_cases hin : h ∈ handles s.g_managed_processes
  · obtain ⟨e0, hmem, rfl⟩ := List.mem_map.mp hin
    have hh : e0.2.hProcess ≠ 0 := (hwf.2.1 _ hmem).2
    unfold closeCount
    rw [iteration_calls_entry s os now hwf e0 hmem _ (isCloseOn_handle e0.2.hProcess),
      List.filter_append, visit_calls_no_close, List.nil_append]
    by_cases hr : (visit os now e0.2).remove = true
    · rw [if_pos hr, cleanup_close_count _ os e0.2 hh,
        if_pos ⟨hin, iteration_handle_released s os now hwf e0 hmem hr⟩]
    · have hfind := iteration_find_entry s os now hwf e0 hmem
      rw [if_neg hr] at hfind
      have hstay : e0.2.hProcess ∈
          handles (manager_loop_iteration s os now).state.g_managed_processes := by
        have := List.mem_map_of_mem (fun e : DWORD × ProcessInfo => e.2.hProcess)
          (mem_of_mapFind_some hfind)
        dsimp only at this
        rw [visit_hProcess] at this
        exact this
      rw [if_neg hr, if_neg (fun hc => hc.2 hstay)]
      rfl
  · unfold closeCount
    rw [iteration_calls_absent s os now hwf h hin _ (isCloseOn_handle h),
      if_neg (fun hc => hin hc.1)]
    rfl

theorem StopLimiter_calls_absent (s : State) (inflight : Option (TimePoint × Os)) (os : Os)
    (hwf : WellFormed s.g_managed_processes) (h : HANDLE)
    (habs : h ∉ handles s.g_managed_processes) (Q : OsCall → Bool)
    (hQ : ∀ c, Q c = true → callHandle c = some h) :
    (StopLimiter s inflight os).2.filter Q = [] := by
  unfold StopLimiter
  by_cases hj : s.joinable = true
  · rw [if_neg (by simp [hj])]
    cases inflight with
    | none =>
      simp only [List.nil_append, drain_eq_flatMap]
      exact filter_flatMap_absent _ _ Q h (fun e _ => cleanup_calls_handle _ os e.2) hQ habs
    | some x =>
      obtain ⟨now1, os1⟩ := x
      simp only [List.filter_append, drain_eq_flatMap]
      have hwf0 : WellFormed ({ s with g_should_stop := true } : State).g_managed_processes :=
        hwf
      rw [iteration_calls_absent { s with g_should_stop := true } os1 now1 hwf0 h habs Q hQ,
        List.nil_append]
      exact filter_flatMap_absent _ _ Q h (fun e _ => cleanup_calls_handle _ os e.2) hQ
        (fun hc => habs (iteration_handles_subset { s with g_should_stop := true } os1 now1
          hwf0 h hc))
  · rw [if_pos (by simp [hj])]
    rfl

theorem StopLimiter_closesRemoved (s : State) (inflight : Option (TimePoint × Os)) (os : Os)
    (hwf : WellFormed s.g_managed_processes) :
    ClosesRemoved s.g_managed_processes (StopLimiter s inflight os).1.g_managed_processes
      (StopLimiter s inflight os).2 := by
  by_cases hj : s.joinable = true
  · have hreg : (StopLimiter s inflight os).1.g_managed_processes = [] := by
      unfold StopLimiter
      simp [hj]
    rw [hreg]
    refine ⟨?_, fun h hh => absurd hh (List.not_mem_nil _), ?_⟩
    · unfold StopLimiter
      rw [if_neg (by simp [hj])]
      intro c hc
      rcases List.mem_append.mp hc with h1 | h1
      · cases inflight with
        | none => simp at h1
        | some x =>
          obtain ⟨now1, os1⟩ := x
          exact iteration_calls_have_handle { s with g_should_stop := true } os1 now1 hwf c h1
      · exact drain_calls_have_handle _ os _ c h1
    · intro h
      by_cases hin : h ∈ handles s.g_managed_processes
      · obtain ⟨e0, hmem, rfl⟩ := List.mem_map.mp hin
        have hh : e0.2.hProcess ≠ 0 := (hwf.2.1 _ hmem).2
        obtain ⟨pre, hpre, hall⟩ := stop_entry_shape s.g_NtResumeProcess os inflight e0.2 hh
        rw [if_pos ⟨hin, List.not_mem_nil _⟩]
        unfold closeCount
        rw [StopLimiter_calls_entry s inflight os hwf hj e0 hmem _
          (isCloseOn_handle e0.2.hProcess)]
        rw [hpre]
        exact (filter_shape_close pre _ hall).1
      · rw [if_neg (fun hc => hin hc.1)]
        unfold closeCount
        rw [StopLimiter_calls_absent s inflight os hwf h hin _ (isCloseOn_handle h)]
        rfl
  · have : StopLimiter s inflight os = (s, []) := by
      unfold StopLimiter
      simp [hj]
    rw [this]
    exact closesRemoved_refl _

theorem AddProcess_owned (s : State) (log : List OsCall) (os : Os) (now : TimePoint)
    (pid : DWORD) (p : Int) (hown : Owned log s.g_managed_processes)
    (hfresh : os.OpenProcess pid ∉ openAfter log []) :
    Owned (log ++ (AddProcess s os now pid p).2) (AddProcess s os now pid p).1.g_managed_processes
    := by
  by_cases hrej : (mapFind s.g_managed_processes pid).isSome = true ∨ os.OpenProcess pid = 0
  · rw [AddProcess_rejected_state s os now pid p hrej]
    simp only
    split_ifs
    · rw [List.append_nil]
      exact hown
    · unfold Owned
      rw [openAfter_append]
      simpa [openAfter] using hown
  · have hfree : mapFind s.g_managed_processes pid = none := by
      cases hf : mapFind s.g_managed_processes pid with
      | none => rfl
      | some v => exact absurd (Or.inl (by simp [hf])) hrej
    have hopen : os.OpenProcess pid ≠ 0 := fun h0 => hrej (Or.inr h0)
    rw [AddProcess_accepts s os now pid p hfree hopen]
    unfold Owned
    simp only [openAfter_append, openAfter, hopen, if_false]
    refine ⟨List.nodup_cons.mpr ⟨hfresh, hown.1⟩, ?_⟩
    intro h
    have hperm := List.Perm.map (fun e : DWORD × ProcessInfo => e.2.hProcess)
      (mapAssign_perm s.g_managed_processes pid
        (ProcessInfo.mk pid (os.OpenProcess pid) (stored_suspend_ms p) (stored_resume_ms p)
          false now) hfree)
    unfold handles
    rw [hperm.mem_iff]
    simp only [List.map_cons, List.mem_cons]
    rw [hown.2 h]
    rfl

/-- Every run of the engine reaches a reachable state in which the open handles
are exactly the handles of the registry. -/
theorem trace_owned (s : State) (log : List OsCall) (h : Trace s log) :
    Reachable s ∧ Owned log s.g_managed_processes := by
  induction h with
  | load => exact ⟨Reachable.load, List.nodup_nil, fun h => Iff.rfl⟩
  | start s log a b c _ ih =>
    refine ⟨Reachable.start s a b c ih.1, ?_⟩
    rw [StartLimiter_registry]
    exact ih.2
  | stop s log inflight os _ ih =>
    exact ⟨Reachable.stop s inflight os ih.1,
      owned_step _ _ _ _ ih.2
        (StopLimiter_closesRemoved s inflight os (reachable_consistent s ih.1).1)⟩
  | add s log os now pid p _ hfresh ih =>
    exact ⟨Reachable.add s os now pid p ih.1 (fun hc => hfresh ((ih.2.2 _).mpr hc)),
      AddProcess_owned s log os now pid p ih.2 hfresh⟩
  | remove s log os pid _ ih =>
    exact ⟨Reachable.remove s os pid ih.1,
      owned_step _ _ _ _ ih.2
        (RemoveProcess_closesRemoved s os pid (reachable_consistent s ih.1).1)⟩
  | pass s log os now _ hjoin ih =>
    exact ⟨Reachable.pass s os now ih.1 hjoin,
      owned_step _ _ _ _ ih.2
        (iteration_closesRemoved s os now (reachable_consistent s ih.1).1)⟩

theorem AddProcess_closes_nothing (s : State) (os : Os) (now : TimePoint) (pid : DWORD)
    (p : Int) (h : HANDLE) : closeCount (AddProcess s os now pid p).2 h = 0 := by
  unfold AddProcess closeCount
  simp only
  split_ifs <;> simp [List.filter, isCloseOn]

/-- Claim C12. In every state reached by a run of the engine (any interleaving
of `StartLimiter`, `AddProcess`, `RemoveProcess`, scheduler passes and
`StopLimiter`), the handles open according to the log of OS calls are exactly the
handles stored in the registry, and no handle is stored in two entries. From such
a state, `AddProcess` closes nothing, and `RemoveProcess`, a scheduler pass and
`StopLimiter` each open nothing, add no handle to the registry and close exactly
once each handle whose entry they remove, and no other handle. -/
theorem handle_ownership (s : State) (log : List OsCall) (htrace : Trace s log) :
    (∀ h, h ∈ openAfter log [] ↔ h ∈ handles s.g_managed_processes) ∧
    (openAfter log []).Nodup ∧
    (handles s.g_managed_processes).Nodup ∧
    (∀ (os : Os) (now : TimePoint) (pid : DWORD) (p : Int) (h : HANDLE),
      closeCount (AddProcess s os now pid p).2 h = 0) ∧
    (∀ (os : Os) (pid : DWORD),
      ClosesRemoved s.g_managed_processes (RemoveProcess s os pid).1.g_managed_processes
        (RemoveProcess s os pid).2) ∧
    (∀ (os : Os) (now : TimePoint),
      ClosesRemoved s.g_managed_processes
        (manager_loop_iteration s os now).state.g_managed_processes
        (manager_loop_iteration s os now).calls) ∧
    (∀ (inflight : Option (TimePoint × Os)) (os : Os),
      ClosesRemoved s.g_managed_processes (StopLimiter s inflight os).1.g_managed_processes
        (StopLimiter s inflight os).2) := by
  obtain ⟨hreach, hown⟩ := trace_owned s log htrace
  have hwf := (reachable_consistent s hreach).1
  exact ⟨hown.2, hown.1, hwf.2.2,
    fun os now pid p h => AddProcess_closes_nothing s os now pid p h,
    fun os pid => RemoveProcess_closesRemoved s os pid hwf,
    fun os now => iteration_closesRemoved s os now hwf,
    fun inflight os => StopLimiter_closesRemoved s inflight os hwf⟩

theorem suspendedState_trace : Trace suspendedState suspendedStateCalls :=
  Trace.pass addedState _ osAlive 0
    (Trace.add startedState [] osAlive 0 42 50
      (Trace.start initialState [] true true true Trace.load) (by decide))
    (by decide!)

/-- Witness for claim C12: the run that starts the limiter, adds process 42 and
suspends it; handle 5 is open and stored, and `RemoveProcess(42)` closes it once. -/
theorem handle_ownership_witness :
    Trace suspendedState suspendedStateCalls ∧
    (∀ h, h ∈ openAfter suspendedStateCalls [] ↔
      h ∈ handles suspendedState.g_managed_processes) ∧
    closeCount (RemoveProcess suspendedState osAlive 42).2 5 =
      (if 5 ∈ handles suspendedState.g_managed_processes ∧
          5 ∉ handles (RemoveProcess suspendedState osAlive 42).1.g_managed_processes
        then 1 else 0) :=
  ⟨suspendedState_trace, (handle_ownership _ _ suspendedState_trace).1,
    ((handle_ownership _ _ suspendedState_trace).2.2.2.2.1 osAlive 42).2.2 5⟩

/-! ## Phase and outstanding suspends -/

theorem suspendBalance_append (h : HANDLE) (l1 l2 : List OsCall) (n : Int) :
    suspendBalance h (l1 ++ l2) n = suspendBalance h l2 (suspendBalance h l1 n) := by
  induction l1 generalizing n with
  | nil => rfl
  | cons c rest ih =>
    cases c <;> simp only [List.cons_append, suspendBalance] <;> exact ih _

/-- Calls on other handles, none of them an `OpenProcess`, leave the balance of
handle `h` as it was. -/
theorem suspendBalance_other (h : HANDLE) (calls : List OsCall) (n : Int)
    (hother : ∀ c ∈ calls, ∃ h1, callHandle c = some h1 ∧ h1 ≠ h) :
    suspendBalance h calls n = n := by
  induction calls generalizing n with
  | nil => rfl
  | cons c rest ih =>
    have hrest := fun n => ih n (fun c hc => hother c (List.mem_cons_of_mem _ hc))
    obtain ⟨h1, hc1, hne⟩ := hother c (List.mem_cons_self _ _)
    cases c with
    | openProcess pid r => simp [callHandle] at hc1
    | getExitCode h2 r => simpa [suspendBalance] using hrest n
    | suspend h2 st =>
      have : h2 ≠ h := by
        simp only [callHandle, Option.some.injEq] at hc1
        rw [hc1]
        exact hne
      simpa [suspendBalance, this] using hrest n
    | resume h2 st =>
      have : h2 ≠ h := by
        simp only [callHandle, Option.some.injEq] at hc1
        rw [hc1]
        exact hne
      simpa [suspendBalance, this] using hrest n
    | closeHandle h2 => simpa [suspendBalance] using hrest n

/-- The calls of the visit of a kept entry move the balance of its handle by
the change of its suspended mark. -/
theorem visit_balance (os : Os) (now : TimePoint) (info : ProcessInfo) (n : Int)
    (hkeep : (visit os now info).remove = false) :
    suspendBalance info.hProcess (visit os now info).calls n =
      n + (if (visit os now info).info.is_suspended = true then 1 else 0) -
        (if info.is_suspended = true then 1 else 0) := by
  by_cases hdead : os.GetExitCodeProcess info.hProcess ≠ some STILL_ACTIVE
  · rw [visit_dead os now info hdead] at hkeep
    simp at hkeep
  · have halive : os.GetExitCodeProcess info.hProcess = some STILL_ACTIVE := not_not.mp hdead
    by_cases hdue : now ≥ info.next_state_change_time
    · cases hsusp : info.is_suspended with
      | true =>
        rw [visit_resume os now info halive hdue hsusp]
        by_cases hok : os.NtResumeProcess info.hProcess = 0
        · simp [suspendBalance, hok]
        · simp [suspendBalance, hok]
      | false =>
        by_cases hok : os.NtSuspendProcess info.hProcess = 0
        · rw [visit_suspend_ok os now info halive hdue hsusp hok]
          simp [suspendBalance]
        · rw [visit_suspend_refused os now info halive hdue hsusp hok] at hkeep
          simp at hkeep
    · rw [visit_not_due os now info halive (not_le.mp hdue)]
      simp [suspendBalance]

/-- The balance of handle `h` depends only on the calls that act on `h`, when no
call is an `OpenProcess`. -/
theorem suspendBalance_filter (h : HANDLE) (calls : List OsCall) (n : Int)
    (hno : ∀ c ∈ calls, callHandle c ≠ none) :
    suspendBalance h calls n = suspendBalance h (calls.filter (onHandle h)) n := by
  induction calls generalizing n with
  | nil => rfl
  | cons c rest ih =>
    have hrest := fun n => ih n (fun c hc => hno c (List.mem_cons_of_mem _ hc))
    cases c with
    | openProcess pid r => exact absurd rfl (hno _ (List.mem_cons_self _ _))
    | getExitCode h1 r =>
      by_cases hh : h1 = h
      · simpa [suspendBalance, List.filter, onHandle, callHandle, hh] using hrest n
      · simpa [suspendBalance, List.filter, onHandle, callHandle, hh] using hrest n
    | suspend h1 st =>
      by_cases hh : h1 = h
      · simpa [suspendBalance, List.filter, onHandle, callHandle, hh] using hrest _
      · simpa [suspendBalance, List.filter, onHandle, callHandle, hh] using hrest n
    | resume h1 st =>
      by_cases hh : h1 = h
      · simpa [suspendBalance, List.filter, onHandle, callHandle, hh] using hrest _
      · simpa [suspendBalance, List.filter, onHandle, callHandle, hh] using hrest n
    | closeHandle h1 =>
      by_cases hh : h1 = h
      · simpa [suspendBalance, List.filter, onHandle, callHandle, hh] using hrest n
      · simpa [suspendBalance, List.filter, onHandle, callHandle, hh] using hrest n

theorem visit_calls_onHandle (os : Os) (now : TimePoint) (info : ProcessInfo) :
    (visit os now info).calls.filter (onHandle info.hProcess) = (visit os now info).calls :=
  List.filter_eq_self.mpr (fun c hc => (visit_calls_kind os now info c hc).2)

theorem iteration_balanced (s : State) (log : List OsCall) (os : Os) (now : TimePoint)
    (hwf : WellFormed s.g_managed_processes) (hbal : Balanced log s.g_managed_processes) :
    Balanced (log ++ (manager_loop_iteration s os now).calls)
      (manager_loop_iteration s os now).state.g_managed_processes := by
  intro e he
  rw [(manager_loop_iteration_spec s os now hwf).1] at he
  obtain ⟨e0, he0, rfl⟩ := List.mem_map.mp he
  obtain ⟨hmem, hkeep⟩ := List.mem_filter.mp he0
  have hkeep1 : (visit os now e0.2).remove = false := by simpa using hkeep
  have hcalls := iteration_calls_entry s os now hwf e0 hmem _ (onHandle_handle e0.2.hProcess)
  rw [if_neg (by simp [hkeep1]), List.append_nil, visit_calls_onHandle] at hcalls
  simp only
  rw [visit_hProcess, suspendBalance_append, hbal e0 hmem,
    suspendBalance_filter _ _ _ (iteration_calls_have_handle s os now hwf), hcalls,
    visit_balance os now e0.2 _ hkeep1]
  ring

theorem RemoveProcess_balanced (s : State) (log : List OsCall) (os : Os) (pid : DWORD)
    (hwf : WellFormed s.g_managed_processes) (hbal : Balanced log s.g_managed_processes) :
    Balanced (log ++ (RemoveProcess s os pid).2) (RemoveProcess s os pid).1.g_managed_processes
    := by
  unfold RemoveProcess
  cases hfind : mapFind s.g_managed_processes pid with
  | none => simpa using hbal
  | some info =>
    intro e he
    simp only at he ⊢
    have hin : e.2.hProcess ∈ handles (mapErase s.g_managed_processes pid) :=
      List.mem_map_of_mem (fun e => e.2.hProcess) he
    have hne := ((handles_mapErase _ pid info hwf hfind _).mp hin).2
    rw [suspendBalance_append, hbal e ((mapErase_sublist _ pid).subset he)]
    apply suspendBalance_other
    intro c hc
    exact ⟨info.hProcess, cleanup_calls_handle _ os info c hc, fun h => hne h.symm⟩

theorem StopLimiter_balanced (s : State) (log : List OsCall)
    (inflight : Option (TimePoint × Os)) (os : Os)
    (hbal : Balanced log s.g_managed_processes) :
    Balanced (log ++ (StopLimiter s inflight os).2)
      (StopLimiter s inflight os).1.g_managed_processes := by
  by_cases hj : s.joinable = true
  · have hreg : (StopLimiter s inflight os).1.g_managed_processes = [] := by
      unfold StopLimiter
      simp [hj]
    rw [hreg]
    intro e he
    exact absurd he (List.not_mem_nil _)
  · have : StopLimiter s inflight os = (s, []) := by
      unfold StopLimiter
      simp [hj]
    rw [this, List.append_nil]
    exact hbal

theorem AddProcess_balanced (s : State) (log : List OsCall) (os : Os) (now : TimePoint)
    (pid : DWORD) (p : Int) (hwf : WellFormed s.g_managed_processes)
    (hbal : Balanced log s.g_managed_processes)
    (hfresh : os.OpenProcess pid ∉ handles s.g_managed_processes) :
    Balanced (log ++ (AddProcess s os now pid p).2)
      (AddProcess s os now pid p).1.g_managed_processes := by
  by_cases hrej : (mapFind s.g_managed_processes pid).isSome = true ∨ os.OpenProcess pid = 0
  · rw [AddProcess_rejected_state s os now pid p hrej]
    simp only
    split_ifs
    · rw [List.append_nil]
      exact hbal
    · intro e he
      have hh : ¬ 0 = e.2.hProcess := fun h0 => (hwf.2.1 e he).2 h0.symm
      rw [suspendBalance_append, hbal e he]
      simp [suspendBalance, hh]
  · have hfree : mapFind s.g_managed_processes pid = none := by
      cases hf : mapFind s.g_managed_processes pid with
      | none => rfl
      | some v => exact absurd (Or.inl (by simp [hf])) hrej
    have hopen : os.OpenProcess pid ≠ 0 := fun h0 => hrej (Or.inr h0)
    rw [AddProcess_accepts s os now pid p hfree hopen]
    intro e he
    simp only at he ⊢
    rw [suspendBalance_append]
    rcases mem_mapAssign he with h1 | h1
    · rw [h1]
      simp [suspendBalance]
    · have hne : ¬ os.OpenProcess pid = e.2.hProcess := by
        intro heq
        apply hfresh
        rw [heq]
        exact List.mem_map_of_mem (fun e => e.2.hProcess) h1
      rw [hbal e h1]
      simp [suspendBalance, hne]

/-- In every run of the engine, every entry has one suspend outstanding on its
handle if it is marked suspended and none otherwise. -/
theorem trace_balanced (s : State) (log : List OsCall) (h : Trace s log) :
    Balanced log s.g_managed_processes := by
  induction h with
  | load =>
    intro e he
    exact absurd he (List.not_mem_nil _)
  | start s log a b c _ ih =>
    rw [StartLimiter_registry]
    exact ih
  | stop s log inflight os _ ih => exact StopLimiter_balanced s log inflight os ih
  | add s log os now pid p htr hfresh ih =>
    obtain ⟨hreach, hown⟩ := trace_owned s log htr
    exact AddProcess_balanced s log os now pid p (reachable_consistent s hreach).1 ih
      (fun hc => hfresh ((hown.2 _).mpr hc))
  | remove s log os pid htr ih =>
    exact RemoveProcess_balanced s log os pid
      (reachable_consistent s (trace_owned s log htr).1).1 ih
  | pass s log os now htr _ ih =>
    exact iteration_balanced s log os now
      (reachable_consistent s (trace_owned s log htr).1).1 ih

theorem visit_no_suspend_of_suspended (os : Os) (now : TimePoint) (info : ProcessInfo)
    (h : HANDLE) (hsusp : info.is_suspended = true) :
    (visit os now info).calls.filter (isSuspendOn h) = [] := by
  unfold visit
  simp only [hsusp, if_true]
  split_ifs <;> simp [List.filter, isSuspendOn]

theorem visit_no_resume_of_running (os : Os) (now : TimePoint) (info : ProcessInfo)
    (h : HANDLE) (hrun : info.is_suspended = false) :
    (visit os now info).calls.filter (isResumeOn h) = [] := by
  unfold visit
  simp only [hrun, Bool.false_eq_true, if_false]
  split_ifs <;> simp [List.filter, isResumeOn]

theorem cleanup_no_suspend (resumeBound : Bool) (os : Os) (info : ProcessInfo) (h : HANDLE) :
    (cleanup_and_resume_process resumeBound os info).2.filter (isSuspendOn h) = [] := by
  unfold cleanup_and_resume_process
  split_ifs <;> simp [List.filter, isSuspendOn]

theorem cleanup_no_resume_of_running (resumeBound : Bool) (os : Os) (info : ProcessInfo)
    (h : HANDLE) (hrun : info.is_suspended = false) :
    (cleanup_and_resume_process resumeBound os info).2.filter (isResumeOn h) = [] := by
  unfold cleanup_and_resume_process
  simp only [hrun, Bool.false_eq_true, and_false, if_false]
  split_ifs <;> simp [List.filter, isResumeOn]

/-- A scheduler pass issues no suspend on an entry marked suspended and no
resume on an entry not marked suspended. -/
theorem iteration_respects_phase (s : State) (os : Os) (now : TimePoint)
    (hwf : WellFormed s.g_managed_processes) (e : DWORD × ProcessInfo)
    (hmem : e ∈ s.g_managed_processes) :
    (e.2.is_suspended = true →
      suspendCalls (manager_loop_iteration s os now).calls e.2.hProcess = []) ∧
    (e.2.is_suspended = false →
      resumeCalls (manager_loop_iteration s os now).calls e.2.hProcess = []) := by
  constructor
  · intro hsusp
    unfold suspendCalls
    rw [iteration_calls_entry s os now hwf e hmem _ (isSuspendOn_handle e.2.hProcess),
      List.filter_append, visit_no_suspend_of_suspended os now e.2 _ hsusp]
    split_ifs
    · rw [cleanup_no_suspend]
      rfl
    · rfl
  · intro hrun
    unfold resumeCalls
    rw [iteration_calls_entry s os now hwf e hmem _ (isResumeOn_handle e.2.hProcess),
      List.filter_append, visit_no_resume_of_running os now e.2 _ hrun]
    split_ifs
    · rw [cleanup_no_resume_of_running _ os e.2 _ hrun]
      rfl
    · rfl

/-- `RemoveProcess` issues no suspend, and no resume on an entry not marked
suspended. -/
theorem RemoveProcess_respects_phase (s : State) (os : Os) (pid : DWORD)
    (hwf : WellFormed s.g_managed_processes) (e : DWORD × ProcessInfo)
    (hmem : e ∈ s.g_managed_processes) :
    suspendCalls (RemoveProcess s os pid).2 e.2.hProcess = [] ∧
    (e.2.is_suspended = false →
      resumeCalls (RemoveProcess s os pid).2 e.2.hProcess = []) := by
  unfold RemoveProcess
  cases hfind : mapFind s.g_managed_processes pid with
  | none => exact ⟨rfl, fun _ => rfl⟩
  | some info =>
    simp only
    refine ⟨cleanup_no_suspend _ os info _, ?_⟩
    intro hrun
    unfold resumeCalls
    rw [List.filter_eq_nil_iff]
    intro c hc hres
    have h1 := cleanup_calls_handle _ os info c hc
    rw [isResumeOn_handle _ c hres] at h1
    have heq : e = (pid, info) :=
      List.inj_on_of_nodup_map hwf.2.2 hmem (mem_of_mapFind_some hfind) (Option.some.inj h1)
    have hnil := cleanup_no_resume_of_running s.g_NtResumeProcess os info e.2.hProcess
      (by rw [heq] at hrun; exact hrun)
    rw [List.filter_eq_nil_iff] at hnil
    exact hnil c hc hres

/-- The final loop of `StopLimiter` issues no suspend, and no resume on an entry
not marked suspended. -/
theorem StopLimiter_respects_phase (s : State) (os : Os)
    (hwf : WellFormed s.g_managed_processes) (e : DWORD × ProcessInfo)
    (hmem : e ∈ s.g_managed_processes) :
    suspendCalls (StopLimiter s none os).2 e.2.hProcess = [] ∧
    (e.2.is_suspended = false →
      resumeCalls (StopLimiter s none os).2 e.2.hProcess = []) := by
  by_cases hj : s.joinable = true
  · have h1 := StopLimiter_calls_entry s none os hwf hj e hmem _
      (isSuspendOn_handle e.2.hProcess)
    have h2 := StopLimiter_calls_entry s none os hwf hj e hmem _
      (isResumeOn_handle e.2.hProcess)
    refine ⟨?_, ?_⟩
    · unfold suspendCalls
      rw [h1]
      exact cleanup_no_suspend _ os e.2 _
    · intro hrun
      unfold resumeCalls
      rw [h2]
      exact cleanup_no_resume_of_running _ os e.2 _ hrun
  · have : StopLimiter s none os = (s, []) := by
      unfold StopLimiter
      simp [hj]
    rw [this]
    exact ⟨rfl, fun _ => rfl⟩

theorem StopLimiter_none_calls (t : State) (os : Os) (hj : t.joinable = true) :
    (StopLimiter t none os).2 = drain t.g_NtResumeProcess os t.g_managed_processes := by
  unfold StopLimiter
  rw [if_neg (by simp [hj])]
  rfl

/-- With a pass in flight, the calls of `StopLimiter` are those of that pass
followed by those of `StopLimiter` with no pass in flight on the state the pass
leaves. -/
theorem StopLimiter_inflight_calls (s : State) (now1 : TimePoint) (os1 os : Os)
    (hjoin : s.joinable = true) :
    (StopLimiter s (some (now1, os1)) os).2 =
      (manager_loop_iteration { s with g_should_stop := true } os1 now1).calls ++
      (StopLimiter (manager_loop_iteration { s with g_should_stop := true } os1 now1).state
        none os).2 := by
  have hjt : (manager_loop_iteration { s with g_should_stop := true } os1
      now1).state.joinable = true :=
    (iteration_flags { s with g_should_stop := true } os1 now1).1.trans hjoin
  rw [StopLimiter_none_calls _ os hjt]
  unfold StopLimiter
  rw [if_neg (by simp [hjoin])]

/-- Claim C18, refuted as stated: suspends nest behind the phase. Process 42 is
added and suspended (handle 5); `RemoveProcess(42)` closes the handle with the
suspend outstanding, its resume having been refused; `AddProcess(42, 50)` creates a
new entry, marked not suspended, `OpenProcess` returning the handle value 5 again;
the next pass suspends it. In the state reached the entry is marked suspended
while two successful suspends and no successful resume were issued on handle 5:
the number is 2, not 1. After the pass at 250 ms, whose resume succeeds, the entry
is marked not suspended and the number is 1, not 0. -/
theorem suspends_nest_after_refused_cleanup :
    Trace resuspendedState resuspendedStateCalls ∧
    resuspendedStateCalls =
      [OsCall.openProcess 42 5, OsCall.getExitCode 5 (some STILL_ACTIVE), OsCall.suspend 5 0,
        OsCall.resume 5 (-1073741790), OsCall.closeHandle 5,
        OsCall.openProcess 42 5, OsCall.getExitCode 5 (some STILL_ACTIVE),
        OsCall.suspend 5 0] ∧
    resuspendedState.g_managed_processes =
      [(42, ProcessInfo.mk 42 5 100 100 true 250000000)] ∧
    List.count (OsCall.suspend 5 0) resuspendedStateCalls = 2 ∧
    List.count (OsCall.resume 5 0) resuspendedStateCalls = 0 ∧
    outstanding 5 resuspendedStateCalls 0 = 2 ∧
    (manager_loop_iteration resuspendedState osAlive 250000000).calls =
      [OsCall.getExitCode 5 (some STILL_ACTIVE), OsCall.resume 5 0] ∧
    (manager_loop_iteration resuspendedState osAlive 250000000).state.g_managed_processes =
      [(42, ProcessInfo.mk 42 5 100 100 false 350000000)] ∧
    outstanding 5 (resuspendedStateCalls ++
      (manager_loop_iteration resuspendedState osAlive 250000000).calls) 0 = 1 :=
  ⟨Trace.pass readdedState _ osAlive 150000000
      (Trace.add removedState _ osAlive 150000000 42 50
        (Trace.remove suspendedState _ osResumeDenied 42 suspendedState_trace) (by decide!))
      (by decide!),
    by decide!, by decide!, by decide!, by decide!, by decide!, by decide!, by decide!,
    by decide!⟩

/-- Claim C18, amended. The suspends are counted for each entry from the moment
`OpenProcess` returned its handle: in every state reached by a run of the engine,
every registry entry has, on its handle and since that moment, successful suspends
minus successful resumes equal to 1 if it is marked suspended and to 0 if it is
not, so that number is never above 1. Moreover, on every well-formed registry, a
scheduler pass issues no suspend on an entry marked suspended and no resume on an
entry not marked suspended, and `RemoveProcess` and the final loop of `StopLimiter`
issue no suspend at all and no resume on an entry not marked suspended; with a pass
in flight, `StopLimiter` issues the calls of that pass followed by those of its
final loop on the state the pass leaves. -/
theorem phase_tracks_outstanding_suspends (s : State) (log : List OsCall)
    (htrace : Trace s log) :
    (∀ e ∈ s.g_managed_processes,
      suspendBalance e.2.hProcess log 0 = if e.2.is_suspended = true then 1 else 0) ∧
    (∀ e ∈ s.g_managed_processes,
      0 ≤ suspendBalance e.2.hProcess log 0 ∧ suspendBalance e.2.hProcess log 0 ≤ 1) ∧
    (∀ t : State, WellFormed t.g_managed_processes → ∀ e ∈ t.g_managed_processes,
      (∀ (os : Os) (now : TimePoint),
        (e.2.is_suspended = true →
          suspendCalls (manager_loop_iteration t os now).calls e.2.hProcess = []) ∧
        (e.2.is_suspended = false →
          resumeCalls (manager_loop_iteration t os now).calls e.2.hProcess = [])) ∧
      (∀ (os : Os) (pid : DWORD),
        suspendCalls (RemoveProcess t os pid).2 e.2.hProcess = [] ∧
        (e.2.is_suspended = false →
          resumeCalls (RemoveProcess t os pid).2 e.2.hProcess = [])) ∧
      (∀ os : Os,
        suspendCalls (StopLimiter t none os).2 e.2.hProcess = [] ∧
        (e.2.is_suspended = false →
          resumeCalls (StopLimiter t none os).2 e.2.hProcess = []))) ∧
    (∀ (t : State) (now1 : TimePoint) (os1 os : Os), t.joinable = true →
      (StopLimiter t (some (now1, os1)) os).2 =
        (manager_loop_iteration { t with g_should_stop := true } os1 now1).calls ++
        (StopLimiter (manager_loop_iteration { t with g_should_stop := true } os1 now1).state
          none os).2) ∧
    WellFormed s.g_managed_processes := by
  have hbal := trace_balanced s log htrace
  have hwf := (reachable_consistent s (trace_owned s log htrace).1).1
  refine ⟨hbal, ?_, ?_, fun t now1 os1 os hj => StopLimiter_inflight_calls t now1 os1 os hj,
    hwf⟩
  · intro e he
    rw [hbal e he]
    split_ifs <;> decide
  · intro t hwft e he
    exact ⟨fun os now => iteration_respects_phase t os now hwft e he,
      fun os pid => RemoveProcess_respects_phase t os pid hwft e he,
      fun os => StopLimiter_respects_phase t os hwft e he⟩

/-- Witness for claim C18 (amended): the run that starts the limiter, adds
process 42 and suspends it leaves one suspend outstanding on handle 5. -/
theorem phase_tracks_outstanding_suspends_witness :
    Trace suspendedState suspendedStateCalls ∧
    suspendBalance 5 suspendedStateCalls 0 = 1 :=
  ⟨suspendedState_trace,
    (phase_tracks_outstanding_suspends _ _ suspendedState_trace).1
      (42, ProcessInfo.mk 42 5 100 100 true 100000000) (by decide!)⟩

end Limiter
